import Mathlib

/-!
# ccc: command-line argument parser (`src/cli/argparse.{h,cpp}`) and bit sets
(`src/fds/bitset.{h,cpp}`)

A shallow embedding of the `ArgParse` namespace and, in the namespace `Fds`, of the
class `Bitset`.  C++ objects reached through raw
pointers (`Action*`) live in an explicit object store; a pointer is an index into it.
Behaviour the C++ standard leaves undefined is made explicit as a `Fault`, thrown
exceptions as an `Exn`, so every run of the model ends in exactly one of: a normal
return, an exception, a fault, or exhaustion of the iteration budget of a loop that
has no bound of its own.

A `std::string` is modelled by `String`, one `Char` per `char`.
-/

set_option autoImplicit false

namespace ArgParse

/-! ## Exceptions, faults, values -/

/-- Exceptions raised by the standard-library calls the parser makes and by the
parser itself. -/
inductive Exn where
  | out_of_range
  | invalid_argument
  | bad_any_cast
  | runtime_error (msg : String)
  deriving DecidableEq, Repr

/-- Undefined behaviour the code can reach, by the place that reaches it. -/
inductive Fault where
  /-- `std::string` constructed from the null pointer `argv[argc]`. -/
  | stringFromNull
  /-- `argv[i]` read with `i > argc`. -/
  | argvOutOfBounds
  /-- `posArgs[i]` read with `i >= posArgs.size()`. -/
  | posArgsOutOfBounds
  /-- `it->second` read with `it == optArgs.end()`. -/
  | endIteratorDeref
  /-- `action->...` with `action == nullptr`. -/
  | nullActionDeref
  /-- An `Action*` used after its object was destroyed. -/
  | danglingAction
  /-- `actions.erase(actions.begin() + ptrIdx)` with `ptrIdx >= actions.size()`. -/
  | eraseOutOfRange
  /-- `nameFlags[i]` read with `i >= nameFlags.size()`. -/
  | nameFlagsOutOfBounds
  /-- `groups[i]` read with `i >= groups.size()`. -/
  | groupsOutOfBounds
  /-- `count + 1` with `count == LONG_MAX`. -/
  | signedOverflow
  deriving DecidableEq, Repr

/-- How a call that does not return normally ends. -/
inductive Err where
  | throws (e : Exn)
  | undefined (f : Fault)
  deriving DecidableEq, Repr

/-- A `double`, by its bit pattern; the model never computes with one. -/
structure Double where
  bits : Nat
  deriving DecidableEq, Repr

/-- The contents of a `std::any`, for the types the parser stores. -/
inductive AnyVal where
  /-- A `std::any` with no value (`has_value() == false`). -/
  | empty
  | str (s : String)
  | long (n : Int)
  | double (d : Double)
  | bool (b : Bool)
  /-- A `std::vector<std::any>`. -/
  | vec (vs : List AnyVal)
  deriving Repr

mutual
/-- Equality of two `std::any` contents is decidable. -/
def AnyVal.decEq : (a b : AnyVal) → Decidable (a = b)
  | .empty, .empty => isTrue rfl
  | .str x, .str y => decidable_of_iff (x = y) (by simp)
  | .long x, .long y => decidable_of_iff (x = y) (by simp)
  | .double x, .double y => decidable_of_iff (x = y) (by simp)
  | .bool x, .bool y => decidable_of_iff (x = y) (by simp)
  | .vec xs, .vec ys => @decidable_of_iff _ (xs = ys) (by simp) (AnyVal.decEqList xs ys)
  | .empty, .str _ => isFalse (by simp)
  | .empty, .long _ => isFalse (by simp)
  | .empty, .double _ => isFalse (by simp)
  | .empty, .bool _ => isFalse (by simp)
  | .empty, .vec _ => isFalse (by simp)
  | .str _, .empty => isFalse (by simp)
  | .str _, .long _ => isFalse (by simp)
  | .str _, .double _ => isFalse (by simp)
  | .str _, .bool _ => isFalse (by simp)
  | .str _, .vec _ => isFalse (by simp)
  | .long _, .empty => isFalse (by simp)
  | .long _, .str _ => isFalse (by simp)
  | .long _, .double _ => isFalse (by simp)
  | .long _, .bool _ => isFalse (by simp)
  | .long _, .vec _ => isFalse (by simp)
  | .double _, .empty => isFalse (by simp)
  | .double _, .str _ => isFalse (by simp)
  | .double _, .long _ => isFalse (by simp)
  | .double _, .bool _ => isFalse (by simp)
  | .double _, .vec _ => isFalse (by simp)
  | .bool _, .empty => isFalse (by simp)
  | .bool _, .str _ => isFalse (by simp)
  | .bool _, .long _ => isFalse (by simp)
  | .bool _, .double _ => isFalse (by simp)
  | .bool _, .vec _ => isFalse (by simp)
  | .vec _, .empty => isFalse (by simp)
  | .vec _, .str _ => isFalse (by simp)
  | .vec _, .long _ => isFalse (by simp)
  | .vec _, .double _ => isFalse (by simp)
  | .vec _, .bool _ => isFalse (by simp)
/-- Equality of two `std::vector<std::any>` contents is decidable. -/
def AnyVal.decEqList : (xs ys : List AnyVal) → Decidable (xs = ys)
  | [], [] => isTrue rfl
  | x :: xs, y :: ys =>
    @decidable_of_iff _ (x = y ∧ xs = ys) (by simp)
      (@instDecidableAnd _ _ (AnyVal.decEq x y) (AnyVal.decEqList xs ys))
  | [], _ :: _ => isFalse (by simp)
  | _ :: _, [] => isFalse (by simp)
end

instance : DecidableEq AnyVal := AnyVal.decEq

/-- Source: `std::any::has_value`. -/
def AnyVal.has_value : AnyVal → Bool
  | .empty => false
  | _ => true

/-- Source: `std::any_cast<long>`. -/
def any_cast_long : AnyVal → Except Err Int
  | .long n => .ok n
  | _ => .error (.throws .bad_any_cast)

/-! ## Strings and maps -/

/-- Source: `std::string::npos` and the width of `size_t`. -/
def SIZE_MOD : Nat := 2 ^ 64

/-- Source: `std::string::find(char)`: the first index holding `c`, if any. -/
def strFind (s : String) (c : Char) : Option Nat :=
  let i := s.data.indexOf c
  if i < s.data.length then some i else none

/-- Source: `std::string::substr(pos, n)`: throws `std::out_of_range` when
`pos > size()`. -/
def substr (s : String) (pos n : Nat) : Except Err String :=
  if pos ≤ s.data.length then .ok ⟨(s.data.drop pos).take n⟩
  else .error (.throws .out_of_range)

/-- Source: `std::string::substr(pos)` with `pos <= size()` known at the call. -/
def substrFrom (s : String) (pos : Nat) : String := ⟨s.data.drop pos⟩

/-- Source: `std::unordered_map::find`. -/
def mapFind {β : Type} (m : List (String × β)) (k : String) : Option β :=
  match m with
  | [] => none
  | (k', v) :: rest => if k' = k then some v else mapFind rest k

/-- Source: `m[k] = v` on a `std::unordered_map`. -/
def mapAssign {β : Type} (m : List (String × β)) (k : String) (v : β) : List (String × β) :=
  match m with
  | [] => [(k, v)]
  | (k', v') :: rest => if k' = k then (k, v) :: rest else (k', v') :: mapAssign rest k v

/-! ## Type conversion -/

/-- Source: `ArgumentParser::Type`. -/
inductive ValueType where
  | STRING
  | INT
  | FLOAT
  | CUSTOM
  deriving DecidableEq, Repr

/-- Source: `isspace` in the "C" locale. -/
def isspace (c : Char) : Bool :=
  c = ' ' || c = '\t' || c = '\n' || c = '\x0b' || c = '\x0c' || c = '\r'

/-- Value of a run of decimal digits, most significant first. -/
def digitsValue (ds : List Char) : Nat :=
  ds.foldl (fun acc d => 10 * acc + (d.toNat - '0'.toNat)) 0

/-- Source: `LONG_MAX` (LP64). -/
def LONG_MAX : Int := 2 ^ 63 - 1

/-- Source: `LONG_MIN` (LP64). -/
def LONG_MIN : Int := -(2 ^ 63)

/-- The optional sign `std::stol` reads after the whitespace: whether it is a minus,
and the text that follows it. -/
def stolSign : List Char → Bool × List Char
  | '-' :: r => (true, r)
  | '+' :: r => (false, r)
  | r => (false, r)

/-- Source: `std::stol(str)` (base 10, no `idx`): skip leading whitespace, read an
optional sign and the longest run of digits; `invalid_argument` when there is no
digit, `out_of_range` when the value does not fit a `long`.  Whatever follows the
digits is ignored. -/
def stol (s : String) : Except Err Int :=
  let signed := stolSign (s.data.dropWhile isspace)
  let ds := signed.2.takeWhile Char.isDigit
  if ds.isEmpty then .error (.throws .invalid_argument)
  else
    let v : Int := if signed.1 then -(digitsValue ds : Int) else (digitsValue ds : Int)
    if v < LONG_MIN ∨ LONG_MAX < v then .error (.throws .out_of_range) else .ok v

/-- The integer a decimal literal denotes: `sign` is empty, `-` or `+`, and `ds` are
its digits, most significant first. -/
def decimalLiteralValue (sign ds : List Char) : Int :=
  let n : Nat := Nat.ofDigits 10 ((ds.map fun c => c.toNat - '0'.toNat).reverse)
  if sign = ['-'] then -(n : Int) else (n : Int)

/-- Source: `ArgumentParser::convertType`.  `stod` stands for `std::stod`. -/
def convertType (stod : String → Except Err Double) (str : String) (type : ValueType) :
    Except Err AnyVal :=
  match type with
  | .CUSTOM => .ok (.str str)
  | .STRING => .ok (.str str)
  | .INT => (stol str).map AnyVal.long
  | .FLOAT => (stod str).map AnyVal.double

/-! ## Calls that mutate state -/

/-- Result of running a call: a normal return, or an abnormal end `e`; either way
with the state the call left behind. -/
inductive Result (ε σ α : Type) where
  | ok (a : α) (s : σ)
  | error (e : ε) (s : σ)
  deriving DecidableEq, Repr

/-- The state a run ended in. -/
def Result.final {ε σ α : Type} : Result ε σ α → σ
  | .ok _ s => s
  | .error _ s => s

/-- How a run ended abnormally, if it did. -/
def Result.error? {ε σ α : Type} : Result ε σ α → Option ε
  | .ok _ _ => none
  | .error e _ => some e

deriving instance DecidableEq for Except

/-- A call that reads and writes a state of type `σ`. -/
def Exec (ε σ α : Type) : Type := σ → Result ε σ α

section Exec
variable {ε σ α β : Type}

/-- Normal return of `a`. -/
def Exec.ret (a : α) : Exec ε σ α := fun s => .ok a s

/-- Sequencing: the second call runs only when the first returned normally. -/
def Exec.seq (m : Exec ε σ α) (f : α → Exec ε σ β) : Exec ε σ β := fun s =>
  match m s with
  | .ok a s' => f a s'
  | .error e s' => .error e s'

instance : Monad (Exec ε σ) where
  pure := Exec.ret
  bind := Exec.seq

/-- Read the state. -/
def getS : Exec ε σ σ := fun s => .ok s s

/-- Update the state. -/
def modifyS (f : σ → σ) : Exec ε σ Unit := fun s => .ok () (f s)

/-- End abnormally. -/
def raise (e : ε) : Exec ε σ α := fun s => .error e s

end Exec

/-! ## Data model (`argparse.h`) -/

/-- The dynamic class of an `Action` object: which `process` override it has. -/
inductive Kind where
  | Store
  | StoreConst
  | StoreTrue
  | StoreFalse
  | Append
  | AppendConst
  | Count
  | Help
  deriving DecidableEq, Repr

/-- Source: `ArgumentParser::OptKind`. -/
inductive OptKind where
  | SHORT
  | LONG
  | POS
  deriving DecidableEq, Repr

/-- Source: `ArgumentParser::ArgKind`. -/
inductive ArgKind where
  | NONE
  | OPT
  | POS
  deriving DecidableEq, Repr

/-- Source: `class Action`, with the defaults of `Action::Action()`. -/
structure Action where
  kind : Kind
  helpText : String := ""
  constVal : AnyVal := .empty
  defaultval : AnyVal := .empty
  dest : String := ""
  metavar : String := ""
  choices : List AnyVal := []
  nameFlags : List String := []
  type : ValueType := .STRING
  groupIdx : Nat := 0
  nargs : Int := 0
  required : Bool := false
  present : Bool := false
  deriving DecidableEq, Repr

/-- Source: `T::instantiate()` for each action class `T`. -/
def instantiate (T : Kind) : Action := { kind := T }

/-- Source: `class ArgumentParser::ArgGroup`; `actions` holds `Action*`. -/
structure ArgGroup where
  groupIdx : Nat
  name : String
  desc : String := ""
  actions : List Nat := []
  maxAliasLen : Int := 0
  mutex : Bool := false
  deriving DecidableEq, Repr

/-- Source: `class ArgumentParser`.  `store` is the memory holding `Action` objects:
an `Action*` is an index into it, and a destroyed object leaves `none`.  `actions` is
the owning `vector<unique_ptr<Action>>`; `optArgs`, `posArgs` and the groups hold raw
pointers. -/
structure ArgumentParser where
  store : List (Option Action) := []
  optArgs : List (String × Nat) := []
  posArgs : List Nat := []
  actions : List Nat := []
  groups : List ArgGroup := []
  pfxChars : String := ""
  progName : String := ""
  usageText : String := ""
  descText : String := ""
  epilogText : String := ""
  termW : Int := 90
  progSet : Bool := false
  helpEn : Bool := true
  deriving DecidableEq, Repr

/-- Source: `POSARG_GROUP_IDX`. -/
def POSARG_GROUP_IDX : Nat := 0

/-- Source: `OPTARG_GROUP_IDX`. -/
def OPTARG_GROUP_IDX : Nat := 1

/-- Source: `ArgumentParser::ArgumentParser()`.  The initialiser list sets `termW`,
`progSet` and `helpEn`; `pfxChars` and the other strings are default-constructed,
hence empty. -/
def ArgumentParser.new : ArgumentParser :=
  { groups := [{ groupIdx := 0, name := "Positional Arguments" },
               { groupIdx := 1, name := "Options" }] }

/-- Source: `ArgumentParser::ArgBuilder`.  `actionRef` is never null: the only
constructor call passes the address of a freshly made object. -/
structure ArgBuilder where
  actionRef : Nat
  ptrIdx : Nat
  kind : ArgKind := .NONE
  addToDefaultGroup : Bool
  destAdded : Bool := false
  deriving DecidableEq, Repr

/-- Read through an `Action*`. -/
def ArgumentParser.deref (p : ArgumentParser) (a : Nat) : Except Err Action :=
  match p.store[a]? with
  | some (some act) => .ok act
  | _ => .error (.undefined .danglingAction)

/-- Write through an `Action*` known to be live. -/
def ArgumentParser.write (p : ArgumentParser) (a : Nat) (act : Action) : ArgumentParser :=
  { p with store := p.store.set a (some act) }

/-- Registration-time calls: state is the registry. -/
abbrev Reg (α : Type) : Type := Exec Err ArgumentParser α

/-- A call that touches no state. -/
def regExcept {α : Type} (x : Except Err α) : Reg α := fun p =>
  match x with
  | .ok a => .ok a p
  | .error e => .error e p

/-- `new`: place a fresh object in memory and return its address. -/
def alloc (act : Action) : Reg Nat := fun p =>
  .ok p.store.length { p with store := p.store ++ [some act] }

/-- `actionRef->field = ...`. -/
def updateAction (a : Nat) (f : Action → Action) : Reg Unit := fun p =>
  match p.deref a with
  | .ok act => .ok () (p.write a (f act))
  | .error e => .error e p

/-- `parser->groups[idx].actions.push_back(a)`. -/
def groupPush (idx : Nat) (a : Nat) : Reg Unit := fun p =>
  match p.groups[idx]? with
  | some g => .ok () { p with groups := p.groups.set idx { g with actions := g.actions ++ [a] } }
  | none => .error (.undefined .groupsOutOfBounds) p

/-- Source: `ArgumentParser::getOptKind`. -/
def getOptKind (pfxChars : String) (arg : String) : OptKind :=
  match arg.data with
  | [] => .POS
  | c0 :: rest =>
    if (strFind pfxChars c0).isSome then
      match rest with
      | c1 :: _ => if c1 = c0 then .LONG else .SHORT
      | [] => .SHORT
    else .POS

/-- The `if (kind == ArgKind::NONE && addToDefaultGroup)` block of `addNameOrFlag`,
for the default group `idx` and the kind `kind` that goes with it. -/
def ArgBuilder.joinDefaultGroup (b : ArgBuilder) (idx : Nat) (kind : ArgKind) :
    Reg ArgBuilder :=
  if b.kind = .NONE && b.addToDefaultGroup then do
    groupPush idx b.actionRef
    updateAction b.actionRef fun a => { a with groupIdx := idx, nargs := 0 }
    pure { b with kind := kind }
  else pure b

/-- Lines 305 to 331 of `addNameOrFlag`: the alias goes to the flag index or to the
positional list.  `str[0]` of an empty string is its terminating NUL. -/
def ArgBuilder.indexAlias (b : ArgBuilder) (str : String) : Reg ArgBuilder := do
  let p ← getS
  if (strFind p.pfxChars (str.data.headD '\x00')).isSome then do
    if b.kind = .POS then
      raise (.throws (.runtime_error
        "Can't specify positional argument alias for optional argument"))
    let b ← b.joinDefaultGroup OPTARG_GROUP_IDX .OPT
    modifyS fun p => { p with optArgs := mapAssign p.optArgs str b.actionRef }
    pure b
  else do
    if b.kind = .OPT then
      raise (.throws (.runtime_error
        "Can't specify optional argument alias for positional argument"))
    let b ← b.joinDefaultGroup POSARG_GROUP_IDX .POS
    modifyS fun p => { p with posArgs := p.posArgs ++ [b.actionRef] }
    pure b

/-- Lines 332 to 339 of `addNameOrFlag`: "set destination to most recently added
option". -/
def ArgBuilder.inferDest (b : ArgBuilder) (str : String) : Reg ArgBuilder := do
  let p ← getS
  let optKind := getOptKind p.pfxChars str
  if optKind = .SHORT && !b.destAdded then do
    updateAction b.actionRef fun a => { a with dest := substrFrom str 1 }
    pure b
  else if optKind = .LONG then do
    updateAction b.actionRef fun a => { a with dest := substrFrom str 2 }
    pure { b with destAdded := true }
  else pure b

/-- Source: `ArgumentParser::ArgBuilder::addNameOrFlag`. -/
def ArgBuilder.addNameOrFlag (b : ArgBuilder) (str : String) : Reg ArgBuilder := do
  let b ← b.indexAlias str
  b.inferDest str

/-- Source: `ArgumentParser::addArgument(std::string, bool)` (the base case).
`ptrIdx` is `actions.size() - 1` in `size_t`, taken before the new action is
appended. -/
def ArgumentParser.addArgument (nameOrFlags : String) (addToDefaultGroup : Bool) :
    Reg ArgBuilder := do
  let a ← alloc (instantiate .Store)
  let p ← getS
  let arg : ArgBuilder :=
    { actionRef := a, ptrIdx := (p.actions.length + SIZE_MOD - 1) % SIZE_MOD,
      addToDefaultGroup := addToDefaultGroup }
  let arg ← arg.addNameOrFlag nameOrFlags
  modifyS fun p => { p with actions := p.actions ++ [a] }
  pure arg

/-- Source: the variadic `ArgumentParser::addArgument(nameOrFlags, args...)`: the
remaining names are registered first, then `nameOrFlags` is attached.  The list is
the call's arguments in order; a trailing `bool` of the call is `addToDefaultGroup`. -/
def ArgumentParser.addArgumentV (addToDefaultGroup : Bool) : List String → Reg ArgBuilder
  | [] => ArgumentParser.addArgument "" addToDefaultGroup
  | [nameOrFlags] => ArgumentParser.addArgument nameOrFlags addToDefaultGroup
  | nameOrFlags :: args => do
    let argument ← ArgumentParser.addArgumentV addToDefaultGroup args
    argument.addNameOrFlag nameOrFlags

/-- Source: `ArgumentParser::ArgBuilder::action<T>()`. -/
def ArgBuilder.action (b : ArgBuilder) (T : Kind) : Reg ArgBuilder := do
  let action ← alloc (instantiate T)
  let p ← getS
  match p.actions[b.ptrIdx]? with
  | some old =>
    modifyS fun p =>
      { p with actions := p.actions.eraseIdx b.ptrIdx, store := p.store.set old none }
  | none => raise (.undefined .eraseOutOfRange)
  modifyS fun p => { p with actions := p.actions ++ [action] }
  pure { b with actionRef := action }

/-- Source: `ArgBuilder::constVal`. -/
def ArgBuilder.constVal (b : ArgBuilder) (value : AnyVal) : Reg ArgBuilder := do
  updateAction b.actionRef fun a => { a with constVal := value }
  pure b

/-- Source: `ArgBuilder::defaultVal`. -/
def ArgBuilder.defaultVal (b : ArgBuilder) (value : AnyVal) : Reg ArgBuilder := do
  updateAction b.actionRef fun a => { a with defaultval := value }
  pure b

/-- Source: `ArgBuilder::dest`. -/
def ArgBuilder.dest (b : ArgBuilder) (destName : String) : Reg ArgBuilder := do
  updateAction b.actionRef fun a => { a with dest := destName }
  pure b

/-- Source: `ArgBuilder::help`. -/
def ArgBuilder.help (b : ArgBuilder) (helptext : String) : Reg ArgBuilder := do
  updateAction b.actionRef fun a => { a with helpText := helptext }
  pure b

/-- Source: `ArgBuilder::metavar`. -/
def ArgBuilder.metavar (b : ArgBuilder) (name : String) : Reg ArgBuilder := do
  updateAction b.actionRef fun a => { a with metavar := name }
  pure b

/-- Source: `ArgBuilder::nargs`. -/
def ArgBuilder.nargs (b : ArgBuilder) (cnt : Int) : Reg ArgBuilder := do
  updateAction b.actionRef fun a => { a with nargs := cnt }
  pure b

/-- Source: `ArgBuilder::required`. -/
def ArgBuilder.required (b : ArgBuilder) (val : Bool) : Reg ArgBuilder := do
  updateAction b.actionRef fun a => { a with required := val }
  pure b

/-- Source: `ArgBuilder::type`. -/
def ArgBuilder.type (b : ArgBuilder) (type : ValueType) : Reg ArgBuilder := do
  updateAction b.actionRef fun a => { a with type := type }
  pure b

/-- Source: `ArgBuilder::choices<T>`. -/
def ArgBuilder.choices (b : ArgBuilder) (choices : List AnyVal) : Reg ArgBuilder := do
  updateAction b.actionRef fun a => { a with choices := choices }
  pure b

/-- Source: `ArgumentParser::addArgumentGroup`. -/
def ArgumentParser.addArgumentGroup (name : String) : Reg ArgGroup := do
  let p ← getS
  let group : ArgGroup := { groupIdx := p.groups.length, name := name }
  modifyS fun p => { p with groups := p.groups ++ [group] }
  pure group

/-- Source: `ArgumentParser::ArgGroup::addArgument(nameOrFlags, args...)`. -/
def ArgGroup.addArgument (g : ArgGroup) (names : List String) : Reg ArgBuilder := do
  let builder ← ArgumentParser.addArgumentV false names
  groupPush g.groupIdx builder.actionRef
  updateAction builder.actionRef fun a => { a with groupIdx := g.groupIdx }
  pure builder

/-- Source: `ArgumentParser::prefixChars`. -/
def ArgumentParser.prefixChars (pfxChars : String) : Reg Unit :=
  modifyS fun p => { p with pfxChars := pfxChars }

/-- Source: `ArgumentParser::addHelp`. -/
def ArgumentParser.addHelp (status : Bool) : Reg Unit :=
  modifyS fun p => { p with helpEn := status }

/-- Source: `ArgumentParser::prog`. -/
def ArgumentParser.prog (name : String) : Reg Unit :=
  modifyS fun p => { p with progName := name }

/-- Source: `ArgumentParser::usage`. -/
def ArgumentParser.usage (usageDesc : String) : Reg Unit :=
  modifyS fun p => { p with usageText := usageDesc }

/-- Source: `ArgumentParser::description`. -/
def ArgumentParser.description (desc : String) : Reg Unit :=
  modifyS fun p => { p with descText := desc }

/-- Source: `ArgumentParser::epilog`. -/
def ArgumentParser.epilog (epilogStr : String) : Reg Unit :=
  modifyS fun p => { p with epilogText := epilogStr }

/-! ## Results and the state of a parse (`argparse.cpp`) -/

/-- Source: `class Args`. -/
structure Args where
  args : List (String × AnyVal) := []
  deriving DecidableEq, Repr

/-- What `parseArgs` works on: the registry (`*this`), its locals `arguments`, `cArg`
and `cPosArg`, and what has been written to `std::cerr` (one entry per line) and to
`std::cout`. -/
structure Scan where
  parser : ArgumentParser
  arguments : Args := {}
  cArg : Nat := 1
  cPosArg : Nat := 0
  cerr : List String := []
  cout : String := ""
  deriving DecidableEq, Repr

/-- How the body of `parseArgs` stops other than by reaching its final `return`. -/
inductive Halt where
  /-- An early `return`. -/
  | returned (a : Args)
  | throws (e : Exn)
  | undefined (f : Fault)
  /-- The iteration budget given to the `while (true)` loop ran out. -/
  | outOfFuel
  deriving DecidableEq, Repr

/-- Parse-time calls. -/
abbrev Parse (α : Type) : Type := Exec Halt Scan α

/-- An exception or fault, as a way for `parseArgs` to stop. -/
def Halt.ofErr : Err → Halt
  | .throws e => .throws e
  | .undefined f => .undefined f

/-- A call that touches no state. -/
def ofExcept {α : Type} (x : Except Err α) : Parse α := fun s =>
  match x with
  | .ok a => .ok a s
  | .error e => .error (Halt.ofErr e) s

/-- A registration call made during a parse. -/
def liftReg {α : Type} (m : Reg α) : Parse α := fun s =>
  match m s.parser with
  | .ok a p => .ok a { s with parser := p }
  | .error e p => .error (Halt.ofErr e) { s with parser := p }

/-- `cerr << msg << endl`. -/
def logErr (msg : String) : Parse Unit :=
  modifyS fun s => { s with cerr := s.cerr ++ [msg] }

/-! ## Help output -/

/-- The words `ss >> buf` extracts from a `stringstream`. -/
def streamWords (str : String) : List String :=
  ((str.data.splitOnP isspace).filter fun w => !w.isEmpty).map String.mk

/-- The `while (ss >> buf)` loop of `printPadded`; returns what it writes. -/
def printPaddedLoop (wrapAt : Int) : List String → Int → String
  | [], _ => ""
  | buf :: rest, start =>
    let start := start + buf.data.length
    if start > wrapAt then "\n" ++ buf ++ printPaddedLoop wrapAt rest (start - wrapAt)
    else buf ++ printPaddedLoop wrapAt rest start

/-- Source: `ArgumentParser::printPadded`; returns what it writes. -/
def printPadded (str : String) (padTo wrapAt start : Int) : String :=
  if padTo > wrapAt then "" else printPaddedLoop wrapAt (streamWords str) start

/-- The body of the `for (const Action* action : group.actions)` loop of `printHelp`;
returns what it writes.  `endIdx` is `nameFlags.size() - 1` in `unsigned long`: when
`nameFlags` is empty it is `2^64 - 1` and `nameFlags[0]` is read out of bounds,
otherwise every read is in bounds. -/
def printMember (termW : Int) (group : ArgGroup) (action : Action) : Except Err String :=
  let endIdx := (action.nameFlags.length + SIZE_MOD - 1) % SIZE_MOD
  match action.nameFlags[endIdx]? with
  | none => .error (.undefined .nameFlagsOutOfBounds)
  | some last =>
    let padCol : Int := (group.maxAliasLen + 1) % 2 ^ 32
    .ok (String.join ((action.nameFlags.take endIdx).map fun f => f ++ ", ") ++ last ++
      printPadded action.helpText padCol (termW - padCol) padCol ++ "\n")

/-- The `for (const Action* action : group.actions)` loop of `printHelp`. -/
def printMembers (p : ArgumentParser) (group : ArgGroup) : List Nat → Except Err String
  | [] => .ok ""
  | a :: rest => do
    let action ← p.deref a
    let line ← printMember p.termW group action
    let more ← printMembers p group rest
    pure (line ++ more)

/-- The `for (const ArgGroup& group : groups)` loop of `printHelp`. -/
def printGroups (p : ArgumentParser) : List ArgGroup → Except Err String
  | [] => .ok ""
  | group :: rest => do
    let head := group.name ++ "\n" ++ "\n" ++
      (if group.desc.data.isEmpty then "" else group.desc ++ "\n" ++ "\n")
    let members ← printMembers p group group.actions
    let more ← printGroups p rest
    pure (head ++ members ++ more)

/-- Source: `ArgumentParser::printHelp`; returns what it writes to `std::cout`. -/
def ArgumentParser.printHelp (p : ArgumentParser) : Except Err String := do
  let groups ← printGroups p p.groups
  pure ("usage:" ++ p.usageText ++ "\n" ++
    (if p.descText.data.isEmpty then "" else p.descText) ++ groups ++
    (if p.epilogText.data.isEmpty then "" else p.epilogText ++ "\n"))

/-! ## Actions -/

/-- Source: `Action::hasConflict`. -/
def Action.hasConflict (this : Action) : Bool := this.present

/-- Source: `Action::insertArg`. -/
def insertArg (argsContainer : Args) (dest : String) (val : AnyVal) : Args :=
  { args := mapAssign argsContainer.args dest val }

/-- Source: `Action::getArgVal<long>`: `(present, value)`. -/
def getArgVal_long (argsContainer : Args) (argname : String) : Except Err (Bool × Int) :=
  match mapFind argsContainer.args argname with
  | none => .ok (false, 0)
  | some v => (any_cast_long v).map fun n => (true, n)

/-- Source: the `process` overrides of `StoreAction`, `StoreConstAction`,
`StoreTrueAction`, `StoreFalseAction`, `AppendAction`, `AppendConstAction`,
`CountAction` and `HelpAction`, selected by the class of the object at `self`.
`args` is the `arguments` of the running parse.  Returns the `bool` result and the text
assigned to `error`, if any. -/
def process (self : Nat) (values : List AnyVal) (optStr : String) :
    Parse (Bool × Option String) := do
  let s ← getS
  let this ← ofExcept (s.parser.deref self)
  let duplicate : Bool × Option String :=
    (false, some ("Argument '" ++ optStr ++ "' is already defined."))
  match this.kind with
  | .Store =>
    if this.hasConflict then pure duplicate
    else do
      let val :=
        match values with
        | _ :: _ :: _ => AnyVal.vec values
        | [v] => v
        | [] => this.defaultval
      modifyS fun s =>
        { s with arguments := insertArg s.arguments this.dest val,
                 parser := s.parser.write self { this with present := true } }
      pure (true, none)
  | .StoreConst =>
    if this.hasConflict then pure duplicate
    else do
      modifyS fun s =>
        { s with arguments := insertArg s.arguments this.dest this.constVal,
                 parser := s.parser.write self { this with present := true } }
      pure (true, none)
  | .StoreTrue =>
    if this.hasConflict then pure duplicate
    else do
      modifyS fun s => { s with arguments := insertArg s.arguments this.dest (.bool true) }
      pure (true, none)
  | .StoreFalse =>
    if this.hasConflict then pure duplicate
    else do
      modifyS fun s => { s with arguments := insertArg s.arguments this.dest (.bool true) }
      pure (true, none)
  | .Append => pure (false, none)
  | .AppendConst => pure (false, none)
  | .Count =>
    if this.present then do
      let val ← ofExcept (getArgVal_long s.arguments optStr)
      if !val.1 then pure (false, some "Internal error!")
      else if val.2 = LONG_MAX then raise (.undefined .signedOverflow)
      else do
        modifyS fun s =>
          { s with arguments := insertArg s.arguments this.dest (.long (val.2 + 1)) }
        pure (true, none)
    else do
      modifyS fun s => { s with arguments := insertArg s.arguments this.dest (.long (0 + 1)) }
      pure (true, none)
  | .Help => do
    let out ← ofExcept s.parser.printHelp
    modifyS fun s => { s with cout := s.cout ++ out }
    pure (false, none)

/-! ## The parse engine -/

/-- `argv[i]` converted to `std::string`.  `argv` holds `argc` strings followed by a
null pointer. -/
def argvAt (argv : List String) (i : Nat) : Parse String :=
  match argv[i]? with
  | some t => pure t
  | none =>
    if i = argv.length then raise (.undefined .stringFromNull)
    else raise (.undefined .argvOutOfBounds)

/-- The `for (size_t i = 0; i < argStr.length() - 1; ++i)` loop of the `SHORT` branch:
`n` iterations are left, `action` is the local `action`. -/
def shortLoop (argStr : String) : Nat → Nat → Option Nat → Parse (Option Nat)
  | 0, _, action => pure action
  | n + 1, i, _ => do
    let key ← ofExcept (substr argStr (i + 1) 1)
    let s ← getS
    match mapFind s.parser.optArgs key with
    | none => do
      logErr ("Argument Parsing Error: Invalid optional argument '" ++ argStr ++ "'.")
      raise (.undefined .endIteratorDeref)
    | some action => do
      let act ← ofExcept (s.parser.deref action)
      if act.nargs ≠ 0 then
        logErr ("Argument Parsing Error: optional argument '" ++
          String.singleton (argStr.data.getD i '\x00') ++
          "' takes one or more parameters but zero given.")
      let optStr ← ofExcept (substr argStr i 1)
      let _ ← process action [] optStr
      shortLoop argStr n (i + 1) (some action)

/-- The `for (long i = 0; i < action->nargs; ++i)` loop: `n` iterations are left. -/
def consumeValues (stod : String → Except Err Double) (argv : List String) (action : Nat) :
    Nat → List AnyVal → Parse (List AnyVal)
  | 0, values => pure values
  | n + 1, values => do
    let s ← getS
    let act ← ofExcept (s.parser.deref action)
    if s.cArg > argv.length then
      logErr ("Argument Parsing Error: Not enough arguments provided for argument '" ++
        act.dest ++ "'.")
    let tok ← argvAt argv s.cArg
    modifyS fun s => { s with cArg := s.cArg + 1 }
    let v ← ofExcept (convertType stod tok act.type)
    consumeValues stod argv action n (values ++ [v])

/-- What the branch on `optKind` leaves in the locals `argStr`, `action` and
`values`. -/
structure Resolved where
  argStr : String
  action : Option Nat
  values : List AnyVal
  deriving DecidableEq, Repr

/-- The `optKind == OptKind::SHORT` branch of the loop body. -/
def resolveShort (argStr : String) : Parse Resolved := do
  let action ← shortLoop argStr (argStr.data.length - 1) 0 none
  pure { argStr := argStr, action := action, values := [] }

/-- The part of the `optKind == OptKind::LONG` branch that follows a successful lookup:
`pos` is the index of `=` in the token, `argStr` the trimmed flag text. -/
def longValue (stod : String → Except Err Double) (argStr : String) (action : Nat) :
    Option Nat → Parse Resolved
  | some pos => do
    let s ← getS
    let act ← ofExcept (s.parser.deref action)
    if act.nargs ≠ 1 then
      logErr ("Argument Parsing Error: Assignment expression used for argument '" ++
        argStr ++ "' that takes " ++ toString act.nargs ++ " parameters.")
    let text ← ofExcept
      (substr argStr (pos + 1) ((argStr.data.length + SIZE_MOD - (pos + 1)) % SIZE_MOD))
    let v ← ofExcept (convertType stod text act.type)
    pure { argStr := argStr, action := some action, values := [v] }
  | none => pure { argStr := argStr, action := some action, values := [] }

/-- The `argStr = argStr.substr(0, pos)` trim of the `LONG` branch. -/
def trimAssignment (argStr : String) : Option Nat → Parse String
  | some pos => ofExcept (substr argStr 0 pos)
  | none => pure argStr

/-- The `optKind == OptKind::LONG` branch of the loop body. -/
def resolveLong (stod : String → Except Err Double) (argStr : String) : Parse Resolved := do
  let pos := strFind argStr '='
  let argStr ← trimAssignment argStr pos
  let s ← getS
  match mapFind s.parser.optArgs argStr with
  | none => do
    logErr ("Argument Parsing Error: Invalid optional argument '" ++ argStr ++ "'.")
    raise (.returned {})
  | some action => longValue stod argStr action pos

/-- The `optKind == OptKind::POS` branch of the loop body. -/
def resolvePositional (argStr : String) : Parse Resolved := do
  let s ← getS
  if s.cPosArg ≥ s.parser.posArgs.length then
    logErr "Argument Parsing Error: Too many positional arguments specified."
  match s.parser.posArgs[s.cPosArg]? with
  | none => raise (.undefined .posArgsOutOfBounds)
  | some action => do
    modifyS fun s => { s with cPosArg := s.cPosArg + 1 }
    pure { argStr := argStr, action := some action, values := [] }

/-- The branch on `optKind` of the loop body.  An `OptKind` has no fourth value, so the
final `else` of the source is never taken. -/
def resolve (stod : String → Except Err Double) (argStr : String) : Parse Resolved := do
  let s ← getS
  match getOptKind s.parser.pfxChars argStr with
  | .SHORT => resolveShort argStr
  | .LONG => resolveLong stod argStr
  | .POS => resolvePositional argStr

/-- Lines 115 to 123 of the loop body: the values are collected and the action is
dispatched; the result of `process` and the text in `err` are not looked at. -/
def consumeAndDispatch (stod : String → Except Err Double) (argv : List String)
    (r : Resolved) : Parse Unit :=
  match r.action with
  | none => raise (.undefined .nullActionDeref)
  | some action => do
    let s ← getS
    let act ← ofExcept (s.parser.deref action)
    let values ← consumeValues stod argv action act.nargs.toNat r.values
    let _ ← process action values r.argStr
    pure ()

/-- One pass through the body of the `while (true)` loop of `parseArgs`, up to and
including the call of `process` on line 123. -/
def iteration (stod : String → Except Err Double) (argv : List String) : Parse Unit := do
  let s ← getS
  let argStr ← argvAt argv s.cArg
  let r ← resolve stod argStr
  consumeAndDispatch stod argv r

/-- The `while (true)` loop of `parseArgs`, run for at most `fuel` iterations. -/
def scanLoop (stod : String → Except Err Double) (argv : List String) : Nat → Parse Unit
  | 0 => raise .outOfFuel
  | fuel + 1 => do
    iteration stod argv
    let s ← getS
    if s.cArg = argv.length then pure () else scanLoop stod argv fuel

/-- The "insert default argument values" loop of `parseArgs`. -/
def seedDefaults : List Nat → Parse Unit
  | [] => pure ()
  | a :: rest => do
    let s ← getS
    let action ← ofExcept (s.parser.deref a)
    if action.defaultval.has_value then
      modifyS fun s =>
        { s with arguments := { args := mapAssign s.arguments.args action.dest action.defaultval } }
    seedDefaults rest

/-- The "check all required args" loop of `parseArgs`. -/
def checkRequired : List Nat → Parse Unit
  | [] => pure ()
  | a :: rest => do
    let s ← getS
    let action ← ofExcept (s.parser.deref a)
    if action.required && !action.present then
      logErr ("Argument Parsing Error: Required argument " ++ action.dest ++ "not present.")
    checkRequired rest

/-- The `if (helpEn)` block that opens `parseArgs`. -/
def addHelpArgument : Reg Unit := do
  let p ← getS
  if p.helpEn then
    let found := strFind p.pfxChars '-'
    if !p.pfxChars.data.isEmpty && found.isSome then do
      let b ← ArgumentParser.addArgumentV true ["-h", "--help"]
      let b ← b.action .Help
      let _ ← b.help "show this help message and exit"
      pure ()
    else do
      let sub ← regExcept (substr p.pfxChars 0 0)
      let b ← ArgumentParser.addArgumentV true [sub ++ "h", sub ++ sub ++ "help"]
      let b ← b.action .Help
      let _ ← b.help "show this help message and exit"
      pure ()

/-- Lines 27 to 49 of `parseArgs`: the help registration and the seeding of the
defaults, up to the loop. -/
def parsePrelude : Parse Unit := do
  liftReg addHelpArgument
  let s ← getS
  seedDefaults s.parser.actions

/-- The body of `ArgumentParser::parseArgs`. -/
def parseBody (stod : String → Except Err Double) (fuel : Nat) (argv : List String) :
    Parse Args := do
  parsePrelude
  scanLoop stod argv fuel
  let s ← getS
  checkRequired s.parser.actions
  let s ← getS
  pure s.arguments

/-- Source: `ArgumentParser::parseArgs(argc, argv)`, with `argc = argv.length`
(`argv[0]` is the program name) and at most `fuel` iterations of its loop.  `.ok a s`
is a return of `a`, whether from the final `return arguments` or from an earlier
`return {}`. -/
def ArgumentParser.parseArgs (p : ArgumentParser) (stod : String → Except Err Double)
    (fuel : Nat) (argv : List String) : Result Halt Scan Args :=
  match parseBody stod fuel argv { parser := p } with
  | .error (.returned a) s => .ok a s
  | r => r

/-! ## Callers and what they observe -/

/-- How a call of `parseArgs` ends, as its caller sees it. -/
inductive Outcome where
  | returns (a : Args)
  | throws (e : Exn)
  | undefined (f : Fault)
  | outOfFuel
  deriving DecidableEq, Repr

/-- The outcome of a finished run. -/
def Result.outcome : Result Halt Scan Args → Outcome
  | .ok a _ => .returns a
  | .error (.returned a) _ => .returns a
  | .error (.throws e) _ => .throws e
  | .error (.undefined f) _ => .undefined f
  | .error .outOfFuel _ => .outOfFuel

/-- A caller: the registration calls `setup` on a freshly constructed
`ArgumentParser`, then `parseArgs(argc, argv)`. -/
def runProgram (setup : Reg Unit) (stod : String → Except Err Double) (fuel : Nat)
    (argv : List String) : Result Halt Scan Args :=
  match setup ArgumentParser.new with
  | .ok _ p => p.parseArgs stod fuel argv
  | .error e p => .error (Halt.ofErr e) { parser := p }

/-- Registration: `p.prefixChars("-").addHelp(false); p.addArgument("x");`. -/
def setupPositionalDefault : Reg Unit := do
  ArgumentParser.prefixChars "-"
  ArgumentParser.addHelp false
  let _ ← ArgumentParser.addArgument "x" true
  pure ()

/-- Registration: `p.prefixChars("-").addHelp(false);
p.addArgument("x").nargs(1).dest("x");`. -/
def setupPositionalX : Reg Unit := do
  ArgumentParser.prefixChars "-"
  ArgumentParser.addHelp false
  let b ← ArgumentParser.addArgument "x" true
  let b ← b.nargs 1
  let _ ← b.dest "x"
  pure ()

/-- Registration: `p.prefixChars("-").addHelp(false); p.addArgument("x").nargs(1);
p.addArgument("y").nargs(1);`. -/
def setupPositionalsNoDest : Reg Unit := do
  ArgumentParser.prefixChars "-"
  ArgumentParser.addHelp false
  let b ← ArgumentParser.addArgument "x" true
  let _ ← b.nargs 1
  let b ← ArgumentParser.addArgument "y" true
  let _ ← b.nargs 1
  pure ()

/-- Registration: `p.prefixChars("-").addHelp(false); p.addArgument("--name").nargs(n);`. -/
def setupLongName (n : Int) : Reg Unit := do
  ArgumentParser.prefixChars "-"
  ArgumentParser.addHelp false
  let b ← ArgumentParser.addArgument "--name" true
  let _ ← b.nargs n
  pure ()

/-- Registration: `p.prefixChars("-").addHelp(false); p.addArgument("--name").nargs(1);
p.addArgument("x").nargs(1).dest("x"); p.addArgument("y").nargs(1).dest("y");`. -/
def setupNameAndTwoPositionals : Reg Unit := do
  setupLongName 1
  let b ← ArgumentParser.addArgument "x" true
  let b ← b.nargs 1
  let _ ← b.dest "x"
  let b ← ArgumentParser.addArgument "y" true
  let b ← b.nargs 1
  let _ ← b.dest "y"
  pure ()

/-- Registration: `p.prefixChars("-").addHelp(false); p.addArgument("--name").nargs(1);
p.addArgument("--req").nargs(1).required(true);`. -/
def setupNameAndRequired : Reg Unit := do
  setupLongName 1
  let b ← ArgumentParser.addArgument "--req" true
  let b ← b.nargs 1
  let _ ← b.required true
  pure ()

/-- Registration: `p.prefixChars("-").addHelp(false); p.addArgument("-a");
p.addArgument("-b"); p.addArgument("-c");`. -/
def setupFlagsABC : Reg Unit := do
  ArgumentParser.prefixChars "-"
  ArgumentParser.addHelp false
  let _ ← ArgumentParser.addArgument "-a" true
  let _ ← ArgumentParser.addArgument "-b" true
  let _ ← ArgumentParser.addArgument "-c" true
  pure ()

/-- Registration: `p.prefixChars("-"); p.addArgument("x").nargs(1).dest("x");
p.addArgument("--opt").nargs(1).defaultVal(std::string("d"));`, automatic help left
enabled. -/
def setupOptionWithDefault : Reg Unit := do
  ArgumentParser.prefixChars "-"
  let b ← ArgumentParser.addArgument "x" true
  let b ← b.nargs 1
  let _ ← b.dest "x"
  let b ← ArgumentParser.addArgument "--opt" true
  let b ← b.nargs 1
  let _ ← b.defaultVal (.str "d")
  pure ()

/-- Registration: `p.prefixChars("-"); p.addArgument("x").nargs(1).dest("x").required(true);`,
automatic help left enabled. -/
def setupRequiredPositional : Reg Unit := do
  ArgumentParser.prefixChars "-"
  let b ← ArgumentParser.addArgument "x" true
  let b ← b.nargs 1
  let b ← b.dest "x"
  let _ ← b.required true
  pure ()

/-- Registration: `p.prefixChars("-");` and nothing else. -/
def setupPrefixOnly : Reg Unit :=
  ArgumentParser.prefixChars "-"

/-- Registration: `p.prefixChars("+"); p.addArgument("x");`, automatic help left
enabled. -/
def setupPlusPrefix : Reg Unit := do
  ArgumentParser.prefixChars "+"
  let _ ← ArgumentParser.addArgument "x" true
  pure ()

/-- Registration: `p.addArgument("--name");` on a registry whose `prefixChars` was
never called. -/
def setupLongNameNoPrefixCall : Reg Unit := do
  let _ ← ArgumentParser.addArgument "--name" true
  pure ()

/-- Registration: `p.prefixChars("-"); auto g = p.addArgumentGroup("G");
g.addArgument("--opt", "pos");`. -/
def setupGroupMixed : Reg Unit := do
  ArgumentParser.prefixChars "-"
  let g ← ArgumentParser.addArgumentGroup "G"
  let _ ← g.addArgument ["--opt", "pos"]
  pure ()

/-- Registration: `p.prefixChars("-"); p.addArgument("pos", "--opt");`: the same two
aliases attached to an argument registered on the registry itself. -/
def setupDirectMixed : Reg Unit := do
  ArgumentParser.prefixChars "-"
  let _ ← ArgumentParser.addArgumentV true ["--opt", "pos"]
  pure ()

/-- Registration: `p.prefixChars("-"); p.addArgument("x"); p.addArgument("y");`. -/
def setupTwoPositionals : Reg Unit := do
  ArgumentParser.prefixChars "-"
  let _ ← ArgumentParser.addArgument "x" true
  let _ ← ArgumentParser.addArgument "y" true
  pure ()

/-- The flag text of a long token: the token up to its first `=`, the whole token when
it has none. -/
def flagText (tok : String) : String := ⟨tok.data.takeWhile fun c => c ≠ '='⟩

/-- A registry whose positional arguments can take the tokens `toks`, one each: the
`i`-th positional is a live Store action with `nargs = 1`, not yet present, whose
type converts the `i`-th token, and no two positionals share a dest. -/
structure PositionalsReady (stod : String → Except Err Double) (p : ArgumentParser)
    (toks : List String) : Prop where
  count : p.posArgs.length = toks.length
  tokens : ∀ t ∈ toks, getOptKind p.pfxChars t = .POS
  actions : ∀ (i a : Nat), p.posArgs[i]? = some a →
    ∃ act, p.deref a = .ok act ∧ act.kind = .Store ∧ act.nargs = 1 ∧ act.present = false
  converts : ∀ (i a : Nat) (act : Action) (t : String), p.posArgs[i]? = some a →
    p.deref a = .ok act → toks[i]? = some t → ∃ v, convertType stod t act.type = .ok v
  dests : ∀ (i j a b : Nat) (acta actb : Action), p.posArgs[i]? = some a →
    p.posArgs[j]? = some b → p.deref a = .ok acta → p.deref b = .ok actb →
    acta.dest = actb.dest → i = j

/-- The state of a scan of `toks` against the positionals of `p` after `s.cPosArg`
passes of the loop: the cursor is just past the tokens consumed, the positionals not yet
reached are as registered, and each one reached has its token's value under its
dest. -/
structure PositionalScan (stod : String → Except Err Double) (p : ArgumentParser)
    (toks : List String) (s : Scan) : Prop where
  cursor : s.cArg = s.cPosArg + 1
  posArgs : s.parser.posArgs = p.posArgs
  pfxChars : s.parser.pfxChars = p.pfxChars
  actions : s.parser.actions = p.actions
  untouched : ∀ (i a : Nat), s.cPosArg ≤ i → p.posArgs[i]? = some a →
    s.parser.deref a = p.deref a
  stored : ∀ (i a : Nat) (act : Action) (t : String), i < s.cPosArg →
    p.posArgs[i]? = some a → p.deref a = .ok act → toks[i]? = some t →
    ∃ v, convertType stod t act.type = .ok v ∧ mapFind s.arguments.args act.dest = some v
  live : ∀ a : Nat, (∃ act, p.deref a = .ok act) → ∃ act, s.parser.deref a = .ok act

/-- A short alias: one prefix character and one other character. -/
def IsShortAlias (pfxChars name : String) : Prop :=
  ∃ c x, name.data = [c, x] ∧ c ∈ pfxChars.data ∧ x ≠ c

/-- A long alias: a doubled prefix character and a name. -/
def IsLongAlias (pfxChars name : String) : Prop :=
  ∃ c rest, name.data = c :: c :: rest ∧ c ∈ pfxChars.data

/-- Registration: `p.prefixChars("-").addHelp(false); p.addArgument("x").nargs(1).dest("x");
p.addArgument("y").nargs(1).dest("y");`. -/
def setupPositionalsXY : Reg Unit := do
  ArgumentParser.prefixChars "-"
  ArgumentParser.addHelp false
  let b ← ArgumentParser.addArgument "x" true
  let b ← b.nargs 1
  let _ ← b.dest "x"
  let b ← ArgumentParser.addArgument "y" true
  let b ← b.nargs 1
  let _ ← b.dest "y"
  pure ()

/-- Registration: `p.prefixChars("-").addHelp(false); p.addArgument("x");
p.addArgument("-v").action<CountAction>().dest("v");`. -/
def setupCountFlag : Reg Unit := do
  ArgumentParser.prefixChars "-"
  ArgumentParser.addHelp false
  let _ ← ArgumentParser.addArgument "x" true
  let b ← ArgumentParser.addArgument "-v" true
  let b ← b.action .Count
  let _ ← b.dest "v"
  pure ()

/-- What is known of the inferred dest of the action `act` behind the builder `b` once
the aliases `L` were attached: a long alias decides it as soon as there is one,
otherwise a short alias does. -/
def DestInferred (P : String) (L : List String) (b : ArgBuilder) (act : Action) : Prop :=
  if b.destAdded = true then ∃ n ∈ L, IsLongAlias P n ∧ act.dest = substrFrom n 2
  else (∀ n ∈ L, ¬ IsLongAlias P n) ∧
    (L = [] ∨ ∃ n ∈ L, IsShortAlias P n ∧ act.dest = substrFrom n 1)

/-- A stand-in for `std::stod` in runs that convert no `FLOAT` value. -/
def stodNone : String → Except Err Double := fun _ => .error (.throws .invalid_argument)

/-- The action `self` dispatched `k` times in succession with no values, as for `k`
occurrences of a zero-`nargs` flag `optStr`. -/
def dispatchTimes (self : Nat) (optStr : String) : Nat → Parse Unit
  | 0 => pure ()
  | k + 1 => do
    let _ ← process self [] optStr
    dispatchTimes self optStr k

/-- The action `self` dispatched once for each value list of `occurrences`, in order,
as for successive occurrences of the flag `optStr`; returns the `bool` results. -/
def dispatchAll (self : Nat) (optStr : String) : List (List AnyVal) → Parse (List Bool)
  | [] => pure []
  | values :: rest => do
    let r ← process self values optStr
    let rs ← dispatchAll self optStr rest
    pure (r.1 :: rs)

/-! ## Result retrieval (`Args::get<T>`) -/

/-- The types `T` a `std::any` of the model can hold. -/
inductive TypeTag where
  | string
  | long
  | double
  | bool
  | vector
  deriving DecidableEq, Repr

/-- Source: `std::any::type()`, for an `any` that holds a value. -/
def AnyVal.type? : AnyVal → Option TypeTag
  | .empty => none
  | .str _ => some .string
  | .long _ => some .long
  | .double _ => some .double
  | .bool _ => some .bool
  | .vec _ => some .vector

/-- Source: `T()`, the value-initialised `T`. -/
def TypeTag.default : TypeTag → AnyVal
  | .string => .str ""
  | .long => .long 0
  | .double => .double ⟨0⟩
  | .bool => .bool false
  | .vector => .vec []

/-- Source: `std::any_cast<T>(v)`: the held value when `v` holds a `T`, otherwise
`std::bad_any_cast`. -/
def any_cast (T : TypeTag) (v : AnyVal) : Except Err AnyVal :=
  if v.type? = some T then .ok v else .error (.throws .bad_any_cast)

/-- Source: `Args::Entry<T>`; `val` holds a `T`. -/
structure Args.Entry where
  present : Bool
  val : AnyVal
  deriving DecidableEq, Repr

/-- Source: `Args::get<T>(argRef)`, with its `try`/`catch (const std::bad_any_cast&)`. -/
def Args.get (this : Args) (T : TypeTag) (argRef : String) : Except Err Args.Entry :=
  match mapFind this.args argRef with
  | some v =>
    match any_cast T v with
    | .ok x => .ok { present := true, val := x }
    | .error (.throws .bad_any_cast) => .ok { present := false, val := T.default }
    | .error e => .error e
  | none => .ok { present := false, val := T.default }

/-! ## Further callers -/

/-- Registration: `p.prefixChars("-").addHelp(false); p.addArgument("x");
p.addArgument("--name").action<StoreTrueAction>();`. -/
def setupSwitchKind : Reg Unit := do
  ArgumentParser.prefixChars "-"
  ArgumentParser.addHelp false
  let _ ← ArgumentParser.addArgument "x" true
  let b ← ArgumentParser.addArgument "--name" true
  let _ ← b.action .StoreTrue
  pure ()

/-- Registration: `p.prefixChars("-").addHelp(false);
p.addArgument("--name").action<StoreTrueAction>();` on a registry with no argument
yet. -/
def setupSwitchKindFirst : Reg Unit := do
  ArgumentParser.prefixChars "-"
  ArgumentParser.addHelp false
  let b ← ArgumentParser.addArgument "--name" true
  let _ ← b.action .StoreTrue
  pure ()

/-- Registration: `p.prefixChars("-").addHelp(false); p.addArgument("x");
p.addArgument(flag).action<T>().dest(dest).required(true);`. -/
def setupRequiredFlag (T : Kind) (flag dest : String) : Reg Unit := do
  ArgumentParser.prefixChars "-"
  ArgumentParser.addHelp false
  let _ ← ArgumentParser.addArgument "x" true
  let b ← ArgumentParser.addArgument flag true
  let b ← b.action T
  let b ← b.dest dest
  let _ ← b.required true
  pure ()

/-- Registration: `p.prefixChars("-").addHelp(false); p.addArgument("-n", "--name");`. -/
def setupTwoAliases : Reg Unit := do
  ArgumentParser.prefixChars "-"
  ArgumentParser.addHelp false
  let _ ← ArgumentParser.addArgumentV true ["-n", "--name"]
  pure ()

/-- Registration: `p.prefixChars("-"); p.addArgument("x", false);`: the base overload
called with `addToDefaultGroup = false`. -/
def setupOutsideDefaultGroups : Reg Unit := do
  ArgumentParser.prefixChars "-"
  let _ ← ArgumentParser.addArgument "x" false
  pure ()

/-! ## Sequences of registrations -/

/-- One registration call of a caller. -/
inductive Registration where
  | prefixChars (pfxChars : String)
  | onRegistry (names : List String)
  | newGroup (name : String)
  | onGroup (idx : Nat) (names : List String)
  deriving DecidableEq, Repr

/-- The call behind a `Registration`: `p.prefixChars(pfxChars)`,
`p.addArgument(names...)`, `p.addArgumentGroup(name)`, and `g.addArgument(names...)`
on the handle `g` of `groups[idx]`; there is a handle only for a group of the
registry. -/
def Registration.run : Registration → Reg Unit
  | .prefixChars pfxChars => ArgumentParser.prefixChars pfxChars
  | .onRegistry names => do
    let _ ← ArgumentParser.addArgumentV true names
    pure ()
  | .newGroup name => do
    let _ ← ArgumentParser.addArgumentGroup name
    pure ()
  | .onGroup idx names => do
    let p ← getS
    match p.groups[idx]? with
    | some g => do
      let _ ← g.addArgument names
      pure ()
    | none => pure ()

/-- The calls made one after the other on the registry `p`; the caller catches what a
call throws and goes on with the next one. -/
def registerAll : List Registration → ArgumentParser → ArgumentParser
  | [], p => p
  | r :: rest, p => registerAll rest (r.run p).final

/-- The action at address `a` is listed exactly once in the group of index `gi`, and in
no other group. -/
def ListedOnlyIn (p : ArgumentParser) (a gi : Nat) : Prop :=
  gi < p.groups.length ∧
  ∀ (i : Nat) (g : ArgGroup), p.groups[i]? = some g →
    g.actions.count a = if i = gi then 1 else 0

/-- Every action of `owned` is live and is listed exactly once, in the group its
`groupIdx` names; the groups carry their own index, and list allocated addresses
only. -/
structure GroupsInv (p : ArgumentParser) (owned : List Nat) : Prop where
  defaults : 2 ≤ p.groups.length
  index : ∀ (i : Nat) (g : ArgGroup), p.groups[i]? = some g → g.groupIdx = i
  allocated : ∀ (i : Nat) (g : ArgGroup), p.groups[i]? = some g →
    ∀ a ∈ g.actions, a < p.store.length
  placed : ∀ a ∈ owned, ∃ act, p.deref a = .ok act ∧ ListedOnlyIn p a act.groupIdx

/-- Every owned action of the registry is a member of exactly one group, once, and its
`groupIdx` is the index of that group. -/
def GroupsConsistent (p : ArgumentParser) : Prop := GroupsInv p p.actions

/-- The actions live in `p` are live in `q` with the same `groupIdx`. -/
def DerefKept (p q : ArgumentParser) : Prop :=
  ∀ (a : Nat) (act : Action), p.deref a = .ok act →
    ∃ act', q.deref a = .ok act' ∧ act'.groupIdx = act.groupIdx

/-- From `p` to `q` the groups and the allocated addresses are the same, and no action
changed its `groupIdx`. -/
structure SameGrouping (p q : ArgumentParser) : Prop where
  groups : q.groups = p.groups
  store : q.store.length = p.store.length
  kept : DerefKept p q

/-- From `p` the action at the fresh address `p.store.length` was made and is in no
group yet in `q`; the actions of `p` are as they were. -/
structure Pending (p q : ArgumentParser) : Prop where
  inv : GroupsInv q p.actions
  unlisted : ∀ (i : Nat) (g : ArgGroup), q.groups[i]? = some g → p.store.length ∉ g.actions
  live : ∃ act, q.deref p.store.length = .ok act
  kept : DerefKept p q
  groups : q.groups.length = p.groups.length

/-- From `p` the action at the fresh address `p.store.length` was made and placed in
group `idx` in `q`; the actions of `p` are as they were. -/
structure Placed (p q : ArgumentParser) (idx : Nat) : Prop where
  inv : GroupsInv q (p.actions ++ [p.store.length])
  group : ∃ act, q.deref p.store.length = .ok act ∧ act.groupIdx = idx
  kept : DerefKept p q
  groups : q.groups.length = p.groups.length

/-- The owned actions of `p` are owned and live in `q`, with the same `groupIdx`, and
`q` has the groups of `p` at least. -/
structure KeepsActions (p q : ArgumentParser) : Prop where
  owned : ∀ a ∈ p.actions, a ∈ q.actions
  kept : DerefKept p q
  groups : p.groups.length ≤ q.groups.length

/-- The action at address `a` is owned, and is a member of the group of index `idx` and
of no other: it is listed there once and its `groupIdx` is `idx`. -/
def InGroup (p : ArgumentParser) (a idx : Nat) : Prop :=
  a ∈ p.actions ∧ ∃ act, p.deref a = .ok act ∧ act.groupIdx = idx ∧ ListedOnlyIn p a idx

/-! ## What a call of `parseArgs` keeps of the registry -/

/-- Every call of `m` leaves a state related by `R` to the one it started from,
however the call ends. -/
def Exec.Keeps {ε σ α : Type} (R : σ → σ → Prop) (m : Exec ε σ α) : Prop :=
  ∀ s, R s (m s).final

/-- Every normal return of `m` returns a value with property `P`. -/
def Exec.Returns {ε σ α : Type} (P : α → Prop) (m : Exec ε σ α) : Prop :=
  ∀ s a s', m s = .ok a s' → P a

/-- The object at address `a` was destroyed. -/
def Destroyed (p : ArgumentParser) (a : Nat) : Prop := p.store[a]? = some none

/-- The action at address `a` is live in `q`, of the kind of `act`, and marked
present. -/
def StillPresent (q : ArgumentParser) (a : Nat) (act : Action) : Prop :=
  ∃ act', q.deref a = .ok act' ∧ act'.kind = act.kind ∧ act'.present = true

/-- From `p` to `q` no action changed its kind and no `present` flag went from true to
false; a live action of `p` is live in `q`, unless `mayDestroy` holds of its address and
it was destroyed; destroyed objects stay destroyed, and `helpEn` is as it was. -/
structure ActionsKept (mayDestroy : Nat → Prop) (p q : ArgumentParser) : Prop where
  live : ∀ (a : Nat) (act : Action), p.deref a = .ok act →
    (mayDestroy a ∧ Destroyed q a) ∨
    ∃ act', q.deref a = .ok act' ∧ act'.kind = act.kind ∧
      (act.present = true → act'.present = true)
  gone : ∀ a : Nat, Destroyed p a → Destroyed q a
  help : q.helpEn = p.helpEn

/-- `ActionsKept` between the registries of two parse states; where nothing may be
destroyed the owned list is as it was, too. -/
structure ScanKept (mayDestroy : Nat → Prop) (s t : Scan) : Prop where
  kept : ActionsKept mayDestroy s.parser t.parser
  owned : (∀ a, ¬ mayDestroy a) → t.parser.actions = s.parser.actions

/-- The index `actions.size() - 1`, in `size_t`, that `addArgument` hands to the
builder; `action<T>()` erases the owned action at this index. -/
def erasedIdx (p : ArgumentParser) : Nat := (p.actions.length + SIZE_MOD - 1) % SIZE_MOD

/-- The owned list of `q` is the one of `p`. -/
def SameOwned (p q : ArgumentParser) : Prop := q.actions = p.actions

/-- The registration `parseArgs` makes for the help argument under the aliases `names`:
`addArgument(names...).action<HelpAction>().help(text)`. -/
def helpRegistration (names : List String) (text : String) : Reg Unit :=
  ArgumentParser.addArgumentV true names >>= fun b =>
    b.action .Help >>= fun b => b.help text >>= fun _ => pure ()

/-- `ActionsKept` between the registries of two parse states, with nothing said of
the owned list. -/
def ParserKept (d : Nat → Prop) (s t : Scan) : Prop := ActionsKept d s.parser t.parser

end ArgParse

namespace Fds

/-! ## Bit sets (`src/fds/bitset.{h,cpp}`)

An `int` has 32 bits, `unsigned long`, `uint64_t` and `std::size_t` have 64.  A word is a
`Nat` below `2^64`. -/

/-- Undefined behaviour `Bitset` can reach, by the place that reaches it. -/
inductive BitFault where
  /-- `data[i]` read or written with `i >= numElems`. -/
  | dataOutOfBounds
  /-- `1 << n` on `int` with `n` at least the width of `int`. -/
  | shiftTooWide
  deriving DecidableEq, Repr

/-- Source: `class Bitset`.  `data` is the array of `numElems` words of 64 bits. -/
structure Bitset where
  data : List Nat
  numElems : Nat
  bits : Nat
  deriving DecidableEq, Repr

/-- Width of `uint64_t` and `std::size_t`. -/
def WORD_MOD : Nat := 2 ^ 64

/-- Source: `UDIV_CEIL(a, b)`. -/
def UDIV_CEIL (a b : Nat) : Nat := a / b + (if a % b ≠ 0 then 1 else 0)

/-- Source: `Bitset::Bitset(std::size_t bits)`. -/
def Bitset.new (bits : Nat) : Bitset :=
  { bits := bits, numElems := UDIV_CEIL bits 64,
    data := List.replicate (UDIV_CEIL bits 64) 0 }

/-- Source: `Bitset::operator[](std::size_t bit) const`. -/
def Bitset.get (b : Bitset) (bit : Nat) : Except BitFault Bool :=
  let offset := bit / 64
  let shift := bit % 64
  match b.data[offset]? with
  | some w => .ok (((w &&& (1 <<< shift)) >>> shift) != 0)
  | none => .error .dataOutOfBounds

/-- Source: `Bitset::set`. -/
def Bitset.set (b : Bitset) (bit : Nat) : Except BitFault Bitset :=
  let offset := bit / 64
  let shift := bit % 64
  match b.data[offset]? with
  | some w => .ok { b with data := b.data.set offset (w ||| (1 <<< shift)) }
  | none => .error .dataOutOfBounds

/-- Source: `Bitset::size`. -/
def Bitset.size (b : Bitset) : Nat := b.bits

/-- The `for (size_t i = 0; i < end; ++i)` loop of `all`: `n` iterations are left, `i`
is the index; `some r` when the loop returns `r` from `all`. -/
def allWords (data : List Nat) : Nat → Nat → Except BitFault (Option Bool)
  | 0, _ => .ok none
  | n + 1, i =>
    match data[i]? with
    | some w => if w = 0 then .ok (some false) else allWords data n (i + 1)
    | none => .error .dataOutOfBounds

/-- The `int` expression `1 << n`, converted to `uint64_t`.  For `n = 31` the result
is `INT_MIN` (since C++20; before, the value an implementation with two's complement
`int` gives), which converts to `2^64 - 2^31`; for `n >= 32` the shift is undefined. -/
def intOneShl (n : Nat) : Except BitFault Nat :=
  if n < 31 then .ok (2 ^ n)
  else if n = 31 then .ok (WORD_MOD - 2 ^ 31)
  else .error .shiftTooWide

/-- The `while (mask)` loop of `all` on the word `word`.  `mask` is a 64-bit value, so
it is zero after at most 64 shifts; `n` bounds the shifts still possible. -/
def allMask (word : Nat) : Nat → Nat → Bool
  | 0, _ => true
  | n + 1, mask =>
    if mask = 0 then true
    else if word &&& mask = 0 then false
    else allMask word n (mask >>> 1)

/-- Source: `Bitset::all`; `endIdx` is its local `end`. -/
def Bitset.all (b : Bitset) : Except BitFault Bool := do
  let rem := b.bits % 64
  let endIdx := if b.bits = 0 then b.numElems else (b.numElems + WORD_MOD - 1) % WORD_MOD
  match ← allWords b.data endIdx 0 with
  | some r => pure r
  | none =>
    let mask ← if rem ≠ 0 then intOneShl (rem - 1) else pure 0
    if mask = 0 then pure true
    else
      match b.data[endIdx]? with
      | some w => pure (allMask w 64 mask)
      | none => .error .dataOutOfBounds

end Fds

namespace ArgParse

/-! ## Facts about the building blocks -/

section
variable {ε σ α β : Type}
@[simp] theorem Exec.pure_run (a : α) (s : σ) : (pure a : Exec ε σ α) s = .ok a s := rfl
@[simp] theorem Exec.bind_run (m : Exec ε σ α) (f : α → Exec ε σ β) (s : σ) :
    (m >>= f) s = match m s with
      | .ok a s' => f a s'
      | .error e s' => .error e s' := rfl
@[simp] theorem getS_run (s : σ) : (getS : Exec ε σ σ) s = .ok s s := rfl
@[simp] theorem modifyS_run (f : σ → σ) (s : σ) : (modifyS f : Exec ε σ Unit) s = .ok () (f s) := rfl
@[simp] theorem raise_run (e : ε) (s : σ) : (raise e : Exec ε σ α) s = .error e s := rfl
end
@[simp] theorem ofExcept_ok {α : Type} (a : α) (s : Scan) : ofExcept (.ok a) s = .ok a s := rfl
@[simp] theorem ofExcept_error {α : Type} (e : Err) (s : Scan) :
    (ofExcept (.error e) : Parse α) s = .error (Halt.ofErr e) s := rfl
@[simp] theorem logErr_run (msg : String) (s : Scan) :
    logErr msg s = .ok () { s with cerr := s.cerr ++ [msg] } := rfl

theorem mapFind_mapAssign_self {β : Type} (m : List (String × β)) (k : String) (v : β) :
    mapFind (mapAssign m k v) k = some v := by
  induction m with
  | nil => simp [mapAssign, mapFind]
  | cons kv rest ih =>
    obtain ⟨k', v'⟩ := kv
    by_cases h : k' = k <;> simp [mapAssign, mapFind, h, ih]

theorem mapFind_mapAssign_ne {β : Type} (m : List (String × β)) (k k' : String) (v : β)
    (h : k ≠ k') : mapFind (mapAssign m k v) k' = mapFind m k' := by
  induction m with
  | nil => simp [mapAssign, mapFind, h]
  | cons kv rest ih =>
    obtain ⟨k0, v0⟩ := kv
    by_cases h0 : k0 = k
    · subst h0; simp [mapAssign, mapFind, h]
    · by_cases h1 : k0 = k'
      · subst h1; simp [mapAssign, mapFind, h0]
      · simp [mapAssign, mapFind, h0, h1, ih]

theorem argvAt_some (argv : List String) (i : Nat) (t : String) (s : Scan)
    (h : argv[i]? = some t) : argvAt argv i s = .ok t s := by
  simp [argvAt, h]

theorem deref_ok_lt {p : ArgumentParser} {a : Nat} {act : Action}
    (h : p.deref a = .ok act) : p.store[a]? = some (some act) := by
  unfold ArgumentParser.deref at h
  split at h
  · next x heq => cases h; exact heq
  · cases h

theorem deref_write_self (p : ArgumentParser) (a : Nat) (act x : Action)
    (h : p.deref a = .ok act) : (p.write a x).deref a = .ok x := by
  have h1 := deref_ok_lt h
  have hlt : a < p.store.length := by
    by_contra hc
    rw [List.getElem?_eq_none (not_lt.mp hc)] at h1
    cases h1
  simp [ArgumentParser.deref, ArgumentParser.write, List.getElem?_set_self, hlt]

theorem deref_write_ne (p : ArgumentParser) (a b : Nat) (x : Action) (h : a ≠ b) :
    (p.write a x).deref b = p.deref b := by
  simp [ArgumentParser.deref, ArgumentParser.write, List.getElem?_set_ne h]

theorem deref_write_groups (p : ArgumentParser) (a : Nat) (gs : List ArgGroup) :
    ({ p with groups := gs } : ArgumentParser).deref a = p.deref a := rfl

theorem updateAction_run (p : ArgumentParser) (a : Nat) (act : Action) (f : Action → Action)
    (h : p.deref a = .ok act) : updateAction a f p = .ok () (p.write a (f act)) := by
  simp [updateAction, h]

theorem groupPush_run (p : ArgumentParser) (idx a : Nat) (h : idx < p.groups.length) :
    ∃ g, groupPush idx a p = .ok () { p with groups := p.groups.set idx g } := by
  refine ⟨{ p.groups[idx] with actions := p.groups[idx].actions ++ [a] }, ?_⟩
  simp [groupPush, List.getElem?_eq_getElem h]

theorem strFind_isSome (P : String) (c : Char) : (strFind P c).isSome = true ↔ c ∈ P.data := by
  show (if List.indexOf c P.data < P.data.length then some (List.indexOf c P.data)
    else none).isSome = true ↔ _
  by_cases h : c ∈ P.data
  · rw [if_pos (List.indexOf_lt_length.mpr h)]
    simp [h]
  · rw [if_neg fun h' => h (List.indexOf_lt_length.mp h')]
    simp [h]

theorem seedDefaults_ok (l : List Nat) (s : Scan)
    (hlive : ∀ a ∈ l, ∃ act, s.parser.deref a = .ok act) :
    ∃ args, seedDefaults l s = .ok () { s with arguments := args } := by
  induction l generalizing s with
  | nil => exact ⟨s.arguments, rfl⟩
  | cons a rest ih =>
    obtain ⟨act, hact⟩ := hlive a (List.mem_cons_self _ _)
    have hrest : ∀ b ∈ rest, ∃ act, s.parser.deref b = .ok act :=
      fun b hb => hlive b (List.mem_cons_of_mem _ hb)
    by_cases hd : act.defaultval.has_value = true
    · obtain ⟨args, h⟩ := ih
        { s with arguments := { args := mapAssign s.arguments.args act.dest act.defaultval } } hrest
      exact ⟨args, by simp [seedDefaults, hact, hd, h]⟩
    · obtain ⟨args, h⟩ := ih s hrest
      exact ⟨args, by simp [seedDefaults, hact, hd, h]⟩

theorem checkRequired_ok (l : List Nat) (s : Scan)
    (hlive : ∀ a ∈ l, ∃ act, s.parser.deref a = .ok act) :
    ∃ cerr, checkRequired l s = .ok () { s with cerr := cerr } := by
  induction l generalizing s with
  | nil => exact ⟨s.cerr, rfl⟩
  | cons a rest ih =>
    obtain ⟨act, hact⟩ := hlive a (List.mem_cons_self _ _)
    have hrest : ∀ b ∈ rest, ∃ act, s.parser.deref b = .ok act :=
      fun b hb => hlive b (List.mem_cons_of_mem _ hb)
    by_cases hd : act.required = true ∧ act.present = false
    · obtain ⟨cerr, h⟩ := ih
        { s with cerr := s.cerr ++ ["Argument Parsing Error: Required argument " ++ act.dest ++
          "not present."] } hrest
      exact ⟨cerr, by simp [checkRequired, hact, hd, h]⟩
    · obtain ⟨cerr, h⟩ := ih s hrest
      exact ⟨cerr, by simp [checkRequired, hact, hd, h]⟩

theorem addHelpArgument_disabled (p : ArgumentParser) (h : p.helpEn = false) :
    addHelpArgument p = .ok () p := by
  simp [addHelpArgument, h]

theorem runProgram_of_setup (setup : Reg Unit) (p : ArgumentParser)
    (stod : String → Except Err Double) (fuel : Nat) (argv : List String)
    (h : setup ArgumentParser.new = .ok () p) :
    runProgram setup stod fuel argv = p.parseArgs stod fuel argv := by
  simp [runProgram, h]

theorem parseArgs_of_loop_error (p : ArgumentParser) (stod : String → Except Err Double)
    (fuel : Nat) (argv : List String) (s0 s1 : Scan) (e : Halt)
    (hpre : parsePrelude { parser := p } = .ok () s0)
    (hloop : scanLoop stod argv fuel s0 = .error e s1) :
    (p.parseArgs stod fuel argv).outcome = (Result.error e s1 : Result Halt Scan Args).outcome ∧
    (p.parseArgs stod fuel argv).final = s1 := by
  simp only [ArgumentParser.parseArgs, parseBody, Exec.bind_run, hpre, hloop]
  cases e <;> exact ⟨rfl, rfl⟩

theorem scanLoop_fixed_point (stod : String → Except Err Double) (argv : List String)
    (s : Scan) (hit : iteration stod argv s = .ok () s) (hne : s.cArg ≠ argv.length)
    (fuel : Nat) : scanLoop stod argv fuel s = .error .outOfFuel s := by
  induction fuel with
  | zero => rfl
  | succ n ih => simp [scanLoop, hit, hne, ih]

/-! ## C1: positional arguments in registration order -/

/-- C1.  One positional argument registered with its defaults and one positional token.
`addNameOrFlag` leaves the positional with `nargs = 0` and the empty dest, so the first
pass stores the (empty) default under the empty dest without consuming the token; the
second pass reads the same token, finds the positional list exhausted, writes the
diagnostic that stands under `// throw error` and reads `posArgs[1]`.  No Results is
returned, and the token `a` has reached no dest.  With `nargs(1)` on two positionals
that are given no dest the call does return, but both share the empty dest and the
value of the second token has replaced that of the first. -/
theorem default_positional_takes_no_token :
    ((setupPositionalDefault ArgumentParser.new).final.deref 0).map
        (fun a => (a.nargs, a.dest)) = .ok (0, "") ∧
    (runProgram setupPositionalDefault stodNone 8 ["prog", "a"]).outcome
        = .undefined .posArgsOutOfBounds ∧
    (runProgram setupPositionalDefault stodNone 8 ["prog", "a"]).final.arguments.args
        = [("", .empty)] ∧
    (runProgram setupPositionalDefault stodNone 8 ["prog", "a"]).final.cerr
        = ["Argument Parsing Error: Too many positional arguments specified."] ∧
    (runProgram setupPositionalsNoDest stodNone 8 ["prog", "a", "b"]).outcome
        = .returns { args := [("", .str "b")] } := by
  decide!

theorem process_store_fresh (s : Scan) (self : Nat) (act : Action) (v : AnyVal) (optStr : String)
    (hself : s.parser.deref self = .ok act) (hkind : act.kind = .Store)
    (hpres : act.present = false) :
    process self [v] optStr s
      = .ok (true, none) { s with arguments := insertArg s.arguments act.dest v,
                                   parser := s.parser.write self { act with present := true } } := by
  simp [process, hself, hkind, hpres, Action.hasConflict]

theorem consumeValues_one (stod : String → Except Err Double) (argv : List String) (s : Scan)
    (action : Nat) (act : Action) (t : String) (v : AnyVal)
    (hself : s.parser.deref action = .ok act) (htok : argv[s.cArg]? = some t)
    (hconv : convertType stod t act.type = .ok v) :
    consumeValues stod argv action 1 [] s = .ok [v] { s with cArg := s.cArg + 1 } := by
  have hlt : s.cArg < argv.length := by
    by_contra hc
    rw [List.getElem?_eq_none (not_lt.mp hc)] at htok
    cases htok
  have hle : ¬ s.cArg > argv.length := by omega
  simp [consumeValues, hself, hle, argvAt_some argv s.cArg t s htok, hconv]

theorem iteration_positional (stod : String → Except Err Double) (p : ArgumentParser)
    (prog : String) (toks : List String) (hp : PositionalsReady stod p toks) (s : Scan)
    (hs : PositionalScan stod p toks s) (hk : s.cPosArg < toks.length) :
    ∃ s', iteration stod (prog :: toks) s = .ok () s' ∧ PositionalScan stod p toks s' ∧
      s'.cPosArg = s.cPosArg + 1 := by
  obtain ⟨t, ht⟩ : ∃ t, toks[s.cPosArg]? = some t := ⟨_, List.getElem?_eq_getElem hk⟩
  obtain ⟨a, ha⟩ : ∃ a, p.posArgs[s.cPosArg]? = some a :=
    ⟨_, List.getElem?_eq_getElem (hp.count ▸ hk)⟩
  obtain ⟨act, hderef, hkind, hnargs, hpres⟩ := hp.actions _ _ ha
  obtain ⟨v, hv⟩ := hp.converts _ _ _ _ ha hderef ht
  have hderef' : s.parser.deref a = .ok act := (hs.untouched _ _ (le_refl _) ha).trans hderef
  have htok : (prog :: toks)[s.cArg]? = some t := by rw [hs.cursor]; simpa using ht
  have hPOS : getOptKind s.parser.pfxChars t = .POS := by
    rw [hs.pfxChars]; exact hp.tokens t (List.getElem?_mem ht)
  have hnolog : ¬ p.posArgs.length ≤ s.cPosArg := by
    rw [hp.count]; omega
  have hres : resolve stod t s = .ok { argStr := t, action := some a, values := [] }
      { s with cPosArg := s.cPosArg + 1 } := by
    simp [resolve, hPOS, resolvePositional, hnolog, hs.posArgs, ha]
  have hcons := consumeValues_one stod (prog :: toks) { s with cPosArg := s.cPosArg + 1 } a act t v
    hderef' htok hv
  have hproc := process_store_fresh
    { s with cPosArg := s.cPosArg + 1, cArg := s.cArg + 1 } a act v t hderef' hkind hpres
  refine ⟨{ s with cPosArg := s.cPosArg + 1, cArg := s.cArg + 1,
                   arguments := insertArg s.arguments act.dest v,
                   parser := s.parser.write a { act with present := true } }, ?_, ?_, rfl⟩
  · simp [iteration, argvAt_some _ _ _ _ htok, hres, consumeAndDispatch, hderef', hnargs,
      hcons, hproc]
  · refine ⟨?_, ?_, ?_, ?_, ?_, ?_, ?_⟩
    · show s.cArg + 1 = s.cPosArg + 1 + 1
      rw [hs.cursor]
    · exact hs.posArgs
    · exact hs.pfxChars
    · exact hs.actions
    · intro i b hi hb
      have hne : a ≠ b := by
        rintro rfl
        have := hp.dests i s.cPosArg a a act act hb ha hderef hderef rfl
        have hi' : s.cPosArg + 1 ≤ i := hi
        omega
      show (s.parser.write a _).deref b = _
      rw [deref_write_ne _ _ _ _ hne]
      exact hs.untouched i b (Nat.le_of_succ_le hi) hb
    · intro i b actb tb hi hb hbd htb
      have hi' : i < s.cPosArg + 1 := hi
      show ∃ v', _ ∧ mapFind (insertArg s.arguments act.dest v).args actb.dest = some v'
      by_cases hik : i = s.cPosArg
      · subst hik
        rw [ha] at hb; cases hb
        rw [hderef] at hbd; cases hbd
        rw [ht] at htb; cases htb
        exact ⟨v, hv, mapFind_mapAssign_self _ _ _⟩
      · obtain ⟨v', hv', hfind⟩ := hs.stored i b actb tb (by omega) hb hbd htb
        have hne : act.dest ≠ actb.dest := fun h =>
          hik (hp.dests _ _ _ _ _ _ ha hb hderef hbd h).symm
        exact ⟨v', hv', by simp only [insertArg]; rw [mapFind_mapAssign_ne _ _ _ _ hne]; exact hfind⟩
    · intro b hb
      show ∃ x, (s.parser.write a _).deref b = .ok x
      by_cases hab : a = b
      · subst hab
        exact ⟨_, deref_write_self _ _ _ _ hderef'⟩
      · rw [deref_write_ne _ _ _ _ hab]
        exact hs.live b hb

theorem scan_positionals (stod : String → Except Err Double) (p : ArgumentParser)
    (prog : String) (toks : List String) (hp : PositionalsReady stod p toks)
    (n extra : Nat) (s : Scan) (hs : PositionalScan stod p toks s)
    (hn : s.cPosArg + (n + 1) = toks.length) :
    ∃ s', scanLoop stod (prog :: toks) (n + 1 + extra) s = .ok () s' ∧
      PositionalScan stod p toks s' ∧ s'.cPosArg = toks.length := by
  induction n generalizing s with
  | zero =>
    obtain ⟨s', hit, hs', hc⟩ := iteration_positional stod p prog toks hp s hs (by omega)
    refine ⟨s', ?_, hs', by omega⟩
    have hbreak : s'.cArg = toks.length + 1 := by
      rw [hs'.cursor, hc]; omega
    rw [show 0 + 1 + extra = extra + 1 by omega]
    simp [scanLoop, hit, hbreak]
  | succ n ih =>
    obtain ⟨s', hit, hs', hc⟩ := iteration_positional stod p prog toks hp s hs (by omega)
    obtain ⟨s'', hloop, hs'', hc''⟩ := ih s' hs' (by omega)
    refine ⟨s'', ?_, hs'', hc''⟩
    have hcont : ¬ s'.cArg = toks.length + 1 := by
      rw [hs'.cursor, hc]; omega
    rw [show n + 1 + 1 + extra = (n + 1 + extra) + 1 by omega]
    simp [scanLoop, hit, hcont, hloop]

/-- Where the positionals do reach their dests.  In a registry with automatic help
disabled whose N >= 1 positional arguments are live Store actions with `nargs = 1`, not
yet present and with pairwise distinct dests, `parseArgs` on N positional tokens, each
of which converts under the type of its positional, returns Results in which the dest
of the `i`-th positional holds the value converted from the `i`-th token.  N passes of
the loop are enough.  The conditions are sufficient ones, not the exact domain. -/
theorem positionals_with_one_value_each (stod : String → Except Err Double)
    (p : ArgumentParser) (prog : String) (toks : List String) (fuel : Nat)
    (hN : 1 ≤ toks.length) (hfuel : toks.length ≤ fuel)
    (hhelp : p.helpEn = false)
    (hown : ∀ a ∈ p.actions, ∃ act, p.deref a = .ok act)
    (hcount : p.posArgs.length = toks.length)
    (htokens : ∀ t ∈ toks, getOptKind p.pfxChars t = .POS)
    (hactions : ∀ (i a : Nat), p.posArgs[i]? = some a →
      ∃ act, p.deref a = .ok act ∧ act.kind = .Store ∧ act.nargs = 1 ∧ act.present = false)
    (hconverts : ∀ (i a : Nat) (act : Action) (t : String), p.posArgs[i]? = some a →
      p.deref a = .ok act → toks[i]? = some t → ∃ v, convertType stod t act.type = .ok v)
    (hdests : ∀ (i j a b : Nat) (acta actb : Action), p.posArgs[i]? = some a →
      p.posArgs[j]? = some b → p.deref a = .ok acta → p.deref b = .ok actb →
      acta.dest = actb.dest → i = j) :
    ∃ res s, p.parseArgs stod fuel (prog :: toks) = .ok res s ∧
      ∀ (i a : Nat) (act : Action) (t : String), p.posArgs[i]? = some a →
        p.deref a = .ok act → toks[i]? = some t →
        ∃ v, convertType stod t act.type = .ok v ∧ mapFind res.args act.dest = some v := by
  have hp : PositionalsReady stod p toks := ⟨hcount, htokens, hactions, hconverts, hdests⟩
  obtain ⟨args0, hseed⟩ := seedDefaults_ok p.actions { parser := p } hown
  have hs0 : PositionalScan stod p toks { parser := p, arguments := args0 } :=
    ⟨rfl, rfl, rfl, rfl, fun _ _ _ _ => rfl, fun i _ _ _ hi => absurd hi (Nat.not_lt_zero i),
      fun _ h => h⟩
  obtain ⟨n, hn⟩ : ∃ n, toks.length = n + 1 := ⟨toks.length - 1, by omega⟩
  obtain ⟨extra, hextra⟩ : ∃ extra, fuel = n + 1 + extra := ⟨fuel - (n + 1), by omega⟩
  obtain ⟨s1, hloop, hs1, hc1⟩ := scan_positionals stod p prog toks hp n extra
    { parser := p, arguments := args0 } hs0 (by show 0 + (n + 1) = _; omega)
  obtain ⟨cerr, hreq⟩ := checkRequired_ok p.actions s1
    (fun a ha => hs1.live a (hown a ha))
  refine ⟨s1.arguments, { s1 with cerr := cerr }, ?_, ?_⟩
  · subst hextra
    simp [ArgumentParser.parseArgs, parseBody, parsePrelude, liftReg, addHelpArgument_disabled p hhelp,
      hseed, hloop, hs1.actions, hreq]
  · intro i a act t ha hd ht
    have hi : i < s1.cPosArg := by
      rw [hc1]
      by_contra hc
      rw [List.getElem?_eq_none (not_lt.mp hc)] at ht
      cases ht
    exact hs1.stored i a act t hi ha hd ht

theorem positionalsXY_posArgs (i a : Nat)
    (h : (setupPositionalsXY ArgumentParser.new).final.posArgs[i]? = some a) :
    (i = 0 ∧ a = 0) ∨ (i = 1 ∧ a = 1) := by
  have hpos : (setupPositionalsXY ArgumentParser.new).final.posArgs = [0, 1] := by decide!
  rw [hpos] at h
  rcases i with _ | _ | i
  · left; simpa using h.symm
  · right; simpa using h.symm
  · simp at h

/-- Positionals `x` and `y` with `nargs(1)` and explicit dests, tokens `a b`: an instance
of `positionals_with_one_value_each`. -/
theorem positionals_with_one_value_each_witness :
    ∃ res s, (setupPositionalsXY ArgumentParser.new).final.parseArgs stodNone 2
        ["prog", "a", "b"] = .ok res s ∧
      mapFind res.args "x" = some (.str "a") ∧ mapFind res.args "y" = some (.str "b") := by
  have hd0 : (setupPositionalsXY ArgumentParser.new).final.deref 0
      = .ok { kind := .Store, dest := "x", nargs := 1 } := by decide!
  have hd1 : (setupPositionalsXY ArgumentParser.new).final.deref 1
      = .ok { kind := .Store, dest := "y", nargs := 1 } := by decide!
  have hacts : (setupPositionalsXY ArgumentParser.new).final.actions = [0, 1] := by decide!
  obtain ⟨res, s, hrun, hall⟩ := positionals_with_one_value_each stodNone
    (setupPositionalsXY ArgumentParser.new).final "prog" ["a", "b"] 2
    (by decide) (by decide) (by decide!)
    (by
      intro a ha
      rw [hacts] at ha
      simp at ha
      rcases ha with rfl | rfl
      · exact ⟨_, hd0⟩
      · exact ⟨_, hd1⟩)
    (by decide!) (by decide!)
    (by
      intro i a h
      rcases positionalsXY_posArgs i a h with ⟨_, rfl⟩ | ⟨_, rfl⟩
      · exact ⟨_, hd0, rfl, rfl, rfl⟩
      · exact ⟨_, hd1, rfl, rfl, rfl⟩)
    (by
      intro i a act t h hd _
      rcases positionalsXY_posArgs i a h with ⟨_, rfl⟩ | ⟨_, rfl⟩
      · rw [hd0] at hd; cases hd; exact ⟨_, rfl⟩
      · rw [hd1] at hd; cases hd; exact ⟨_, rfl⟩)
    (by
      intro i j a b acta actb hi hj hda hdb hdest
      rcases positionalsXY_posArgs i a hi with ⟨rfl, rfl⟩ | ⟨rfl, rfl⟩ <;>
        rcases positionalsXY_posArgs j b hj with ⟨rfl, rfl⟩ | ⟨rfl, rfl⟩ <;>
        first
          | rfl
          | (rw [hd0] at hda; rw [hd1] at hdb; cases hda; cases hdb; revert hdest; decide)
          | (rw [hd1] at hda; rw [hd0] at hdb; cases hda; cases hdb; revert hdest; decide))
  refine ⟨res, s, hrun, ?_, ?_⟩
  · obtain ⟨v, hv, hx⟩ := hall 0 0 _ "a" (by decide!) hd0 rfl
    cases hv
    exact hx
  · obtain ⟨v, hv, hy⟩ := hall 1 1 _ "b" (by decide!) hd1 rfl
    cases hv
    exact hy

/-! ## C2 to C9: runs of the parser at concrete inputs -/

/-- C2.  On `--name v1` with `--name` a Store option of `nargs = 1`, the value handed
to the option is the flag token `--name` itself; `v1` is then scanned as a positional
token, and with no positional registered the run reads `posArgs[0]`. -/
theorem long_option_consumes_its_own_flag :
    (runProgram (setupLongName 1) stodNone 8 ["prog", "--name", "v1"]).outcome
        = .undefined .posArgsOutOfBounds ∧
    (runProgram (setupLongName 1) stodNone 8 ["prog", "--name", "v1"]).final.arguments.args
        = [("name", .str "--name")] ∧
    (runProgram (setupLongName 1) stodNone 8 ["prog", "--name", "v1"]).final.cerr
        = ["Argument Parsing Error: Too many positional arguments specified."] := by
  decide!

/-- C3.  `--name=v` ends in `std::out_of_range` (the value is cut from the already
trimmed flag text) with nothing stored, while `--name v` stores the flag token and then
reads `posArgs[0]`: the two spellings do not agree and neither stores `v`. -/
theorem assignment_form_differs_from_separate_value :
    (runProgram (setupLongName 1) stodNone 8 ["prog", "--name=v"]).outcome
        = .throws .out_of_range ∧
    (runProgram (setupLongName 1) stodNone 8 ["prog", "--name=v"]).final.arguments.args = [] ∧
    (runProgram (setupLongName 1) stodNone 8 ["prog", "--name", "v"]).outcome
        = .undefined .posArgsOutOfBounds ∧
    (runProgram (setupLongName 1) stodNone 8 ["prog", "--name", "v"]).final.arguments.args
        = [("name", .str "--name")] := by
  decide!

/-- C4.  With `-a`, `-b`, `-c` registered, the cluster `-abc` looks up the bare
character `a`, finds no entry, writes the diagnostic and dereferences the end
iterator; no destination is set. -/
theorem short_cluster_is_not_resolved :
    (runProgram setupFlagsABC stodNone 8 ["prog", "-abc"]).outcome
        = .undefined .endIteratorDeref ∧
    (runProgram setupFlagsABC stodNone 8 ["prog", "-abc"]).final.arguments.args = [] ∧
    (runProgram setupFlagsABC stodNone 8 ["prog", "-abc"]).final.cerr
        = ["Argument Parsing Error: Invalid optional argument '-abc'."] := by
  decide!

theorem process_count_fresh (s : Scan) (self : Nat) (act : Action) (optStr : String)
    (hself : s.parser.deref self = .ok act) (hkind : act.kind = .Count)
    (hpres : act.present = false) :
    process self [] optStr s
      = .ok (true, none) { s with arguments := insertArg s.arguments act.dest (.long 1) } := by
  simp [process, hself, hkind, hpres]

/-- C5.  A Count action that is not yet present leaves the count 1 under its dest after
any number `k + 1` of successive dispatches: `process` never sets `present`, so every
occurrence starts again from 0. -/
theorem count_dispatch_always_one (s : Scan) (self : Nat) (act : Action) (optStr : String)
    (k : Nat) (hself : s.parser.deref self = .ok act) (hkind : act.kind = .Count)
    (hpres : act.present = false) :
    ∃ s', dispatchTimes self optStr (k + 1) s = .ok () s' ∧ s'.parser = s.parser ∧
      mapFind s'.arguments.args act.dest = some (.long 1) := by
  induction k generalizing s with
  | zero =>
    refine ⟨{ s with arguments := insertArg s.arguments act.dest (.long 1) }, ?_, rfl, ?_⟩
    · simp [dispatchTimes, process_count_fresh s self act optStr hself hkind hpres]
    · simp [insertArg, mapFind_mapAssign_self]
  | succ k ih =>
    obtain ⟨s', h1, h2, h3⟩ :=
      ih { s with arguments := insertArg s.arguments act.dest (.long 1) } hself
    refine ⟨s', ?_, h2, h3⟩
    rw [dispatchTimes]
    simp [process_count_fresh s self act optStr hself hkind hpres, h1]

/-- C5, witness: three occurrences of the Count action registered as `-v`, dest `v`. -/
theorem count_dispatch_always_one_witness :
    ∃ s', dispatchTimes 2 "-v" 3 { parser := (setupCountFlag ArgumentParser.new).final }
        = .ok () s' ∧
      s'.parser = (setupCountFlag ArgumentParser.new).final ∧
      mapFind s'.arguments.args "v" = some (.long 1) :=
  count_dispatch_always_one { parser := (setupCountFlag ArgumentParser.new).final } 2
    { kind := .Count, dest := "v" } "-v" 2 (by decide!) rfl rfl

/-- C6.  `--name a --name b` against a registry with `--name` and two positionals
returns normally: the second dispatch of `--name` fails inside `process`, and the
failure is dropped.  Nothing is written to the error stream. -/
theorem duplicate_store_is_not_reported :
    (runProgram setupNameAndTwoPositionals stodNone 8
        ["prog", "--name", "a", "--name", "b"]).outcome
      = .returns { args := [("name", .str "--name"), ("x", .str "a"), ("y", .str "b")] } ∧
    (runProgram setupNameAndTwoPositionals stodNone 8
        ["prog", "--name", "a", "--name", "b"]).final.cerr = [] := by
  decide!

/-- C7.  With the required option `--req` never supplied, `parseArgs` writes a
diagnostic and still returns the Results. -/
theorem missing_required_still_returns :
    (runProgram setupNameAndRequired stodNone 8 ["prog", "--name"]).outcome
      = .returns { args := [("name", .str "--name")] } ∧
    (runProgram setupNameAndRequired stodNone 8 ["prog", "--name"]).final.cerr
      = ["Argument Parsing Error: Required argument reqnot present."] := by
  decide!

/-- C8.  One positional registered, two positional tokens: after the diagnostic the run
reads `posArgs[1]` of a list of length 1. -/
theorem extra_positional_indexes_past_end :
    (runProgram setupPositionalX stodNone 8 ["prog", "a", "b"]).outcome
      = .undefined .posArgsOutOfBounds ∧
    (runProgram setupPositionalX stodNone 8 ["prog", "a", "b"]).final.cPosArg = 1 ∧
    (runProgram setupPositionalX stodNone 8 ["prog", "a", "b"]).final.parser.posArgs.length
      = 1 ∧
    (runProgram setupPositionalX stodNone 8 ["prog", "a", "b"]).final.cerr
      = ["Argument Parsing Error: Too many positional arguments specified."] := by
  decide!

/-- C9.  `--name` with `nargs = 2` as the only token: the second value is read from
`argv[argc]`, the null pointer, and no "not enough arguments" diagnostic is written
first. -/
theorem missing_value_reads_null_token :
    (runProgram (setupLongName 2) stodNone 8 ["prog", "--name"]).outcome
      = .undefined .stringFromNull ∧
    (runProgram (setupLongName 2) stodNone 8 ["prog", "--name"]).final.cArg = 2 ∧
    (runProgram (setupLongName 2) stodNone 8 ["prog", "--name"]).final.cerr = [] := by
  decide!

/-! ## C10: unknown flags -/

/-- C10, counterexample.  An unknown long flag makes `parseArgs` return an empty
Results by an ordinary return; an unknown short flag writes the diagnostic and goes on
to dereference the end iterator. -/
theorem unknown_flag_counterexample :
    (runProgram (setupLongName 1) stodNone 8 ["prog", "--bogus"]).outcome = .returns {} ∧
    (runProgram (setupLongName 1) stodNone 8 ["prog", "-b"]).outcome
      = .undefined .endIteratorDeref ∧
    (runProgram (setupLongName 1) stodNone 8 ["prog", "-b"]).final.cerr
      = ["Argument Parsing Error: Invalid optional argument '-b'."] := by
  decide!

theorem take_indexOf_eq_takeWhile (c : Char) (l : List Char) :
    l.take (l.indexOf c) = l.takeWhile fun x => x ≠ c := by
  induction l with
  | nil => rfl
  | cons x xs ih =>
    by_cases h : x = c
    · subst h; simp
    · rw [List.indexOf_cons_ne _ h]
      simp [List.takeWhile_cons, h, ih]

theorem trimAssignment_run (tok : String) (s : Scan) :
    trimAssignment tok (strFind tok '=') s = .ok (flagText tok) s := by
  unfold strFind flagText
  by_cases h : List.indexOf '=' tok.data < tok.data.length
  · simp only [h, if_true, trimAssignment, substr, Nat.zero_le, List.drop_zero, ofExcept_ok,
      take_indexOf_eq_takeWhile]
  · have hl : List.indexOf '=' tok.data = tok.data.length :=
      le_antisymm List.indexOf_le_length (not_lt.mp h)
    simp only [h, if_false, trimAssignment, Exec.pure_run]
    rw [← take_indexOf_eq_takeWhile, hl, List.take_length]

theorem resolveLong_unknown (stod : String → Except Err Double) (s : Scan) (tok : String)
    (hunknown : mapFind s.parser.optArgs (flagText tok) = none) :
    resolveLong stod tok s = .error (.returned {})
      { s with cerr := s.cerr ++
          ["Argument Parsing Error: Invalid optional argument '" ++ flagText tok ++ "'."] } := by
  simp [resolveLong, trimAssignment_run, hunknown]

/-- C10, as amended.  Whenever the scan stands on a token classified LONG whose flag
text (the token up to its first `=`) has no entry in the flag index, the loop writes a
diagnostic naming that flag text and leaves `parseArgs` at once by `return {}`: an
empty Results, with no action dispatched for the token. -/
theorem unknown_long_flag_returns_empty (stod : String → Except Err Double)
    (argv : List String) (fuel : Nat) (s : Scan) (tok : String)
    (htok : argv[s.cArg]? = some tok)
    (hkind : getOptKind s.parser.pfxChars tok = .LONG)
    (hunknown : mapFind s.parser.optArgs (flagText tok) = none) :
    scanLoop stod argv (fuel + 1) s = .error (.returned {})
      { s with cerr := s.cerr ++
          ["Argument Parsing Error: Invalid optional argument '" ++ flagText tok ++ "'."] } := by
  simp [scanLoop, iteration, resolve, argvAt_some argv s.cArg tok s htok, hkind,
    resolveLong_unknown stod s tok hunknown]

/-- C10, witness: the token `--bogus=1` against a registry that knows only `--name`. -/
theorem unknown_long_flag_returns_empty_witness :
    scanLoop stodNone ["prog", "--bogus=1"] 1 { parser := (setupLongName 1 ArgumentParser.new).final }
      = .error (.returned {})
        { parser := (setupLongName 1 ArgumentParser.new).final,
          cerr := ["Argument Parsing Error: Invalid optional argument '--bogus'."] } :=
  unknown_long_flag_returns_empty stodNone ["prog", "--bogus=1"] 0
    { parser := (setupLongName 1 ArgumentParser.new).final } "--bogus=1"
    (by decide) (by decide!) (by decide!)

/-! ## C11, C12: conversion to `INT` -/

/-- C11, counterexample.  `"4x"` converts to the integer 4; no error is raised for the
remainder. -/
theorem convertType_int_trailing_text_counterexample :
    convertType stodNone "4x" .INT = .ok (.long 4) := by
  decide!

theorem digitsValue_foldl (ds : List Char) (acc : Nat) :
    ds.foldl (fun acc d => 10 * acc + (d.toNat - '0'.toNat)) acc
      = acc * 10 ^ ds.length + Nat.ofDigits 10 ((ds.map fun c => c.toNat - '0'.toNat).reverse) := by
  induction ds generalizing acc with
  | nil => simp
  | cons d ds ih =>
    simp only [List.foldl_cons, List.map_cons, List.reverse_cons, List.length_cons]
    rw [ih, Nat.ofDigits_append, Nat.ofDigits_singleton]
    simp only [List.length_reverse, List.length_map]
    ring

theorem digitsValue_eq_ofDigits (ds : List Char) :
    digitsValue ds = Nat.ofDigits 10 ((ds.map fun c => c.toNat - '0'.toNat).reverse) := by
  unfold digitsValue
  rw [digitsValue_foldl]; simp

theorem isspace_of_isDigit {c : Char} (h : c.isDigit = true) : isspace c = false := by
  have h1 : c ≠ ' ' := by rintro rfl; revert h; decide
  have h2 : c ≠ '\t' := by rintro rfl; revert h; decide
  have h3 : c ≠ '\n' := by rintro rfl; revert h; decide
  have h4 : c ≠ '\x0b' := by rintro rfl; revert h; decide
  have h5 : c ≠ '\x0c' := by rintro rfl; revert h; decide
  have h6 : c ≠ '\r' := by rintro rfl; revert h; decide
  simp [isspace, h1, h2, h3, h4, h5, h6]

theorem takeWhile_digits (ds rest : List Char) (hd : ∀ c ∈ ds, c.isDigit = true)
    (hrest : ∀ c, rest.head? = some c → c.isDigit = false) :
    (ds ++ rest).takeWhile Char.isDigit = ds := by
  induction ds with
  | nil =>
    cases rest with
    | nil => rfl
    | cons c r => simp [List.takeWhile_cons, hrest c rfl]
  | cons d ds ih =>
    have hd' : d.isDigit = true := hd d (List.mem_cons_self _ _)
    simp only [List.cons_append, List.takeWhile_cons, hd', if_true]
    rw [ih fun c hc => hd c (List.mem_cons_of_mem _ hc)]

theorem stolSign_digit {d : Char} (r : List Char) (hd : d.isDigit = true) :
    stolSign (d :: r) = (false, d :: r) := by
  have hm : d ≠ '-' := by rintro rfl; revert hd; decide
  have hp : d ≠ '+' := by rintro rfl; revert hd; decide
  unfold stolSign
  split
  · next h => simp at h; exact absurd h.1 hm
  · next h => simp at h; exact absurd h.1 hp
  · rfl

theorem stol_of_sign (sign ds rest : List Char) (neg : Bool)
    (hws : (sign ++ ds ++ rest).dropWhile isspace = sign ++ ds ++ rest)
    (hsgn : stolSign (sign ++ ds ++ rest) = (neg, ds ++ rest))
    (hne : ds ≠ []) (hd : ∀ c ∈ ds, c.isDigit = true)
    (hrest : ∀ c, rest.head? = some c → c.isDigit = false)
    (hlo : LONG_MIN ≤ (if neg then -(digitsValue ds : Int) else digitsValue ds))
    (hhi : (if neg then -(digitsValue ds : Int) else digitsValue ds) ≤ LONG_MAX) :
    stol ⟨sign ++ ds ++ rest⟩ = .ok (if neg then -(digitsValue ds : Int) else digitsValue ds) := by
  have hr : ¬ ((if neg then -(digitsValue ds : Int) else digitsValue ds) < LONG_MIN ∨
      LONG_MAX < (if neg then -(digitsValue ds : Int) else digitsValue ds)) := by
    rintro (h | h)
    · exact absurd hlo (not_le.mpr h)
    · exact absurd hhi (not_le.mpr h)
  have he : ds.isEmpty = false := by cases ds <;> simp_all
  show (if ((stolSign ((sign ++ ds ++ rest).dropWhile isspace)).2.takeWhile Char.isDigit).isEmpty
      then _ else _) = _
  rw [hws, hsgn]
  show (if ((ds ++ rest).takeWhile Char.isDigit).isEmpty then _ else _) = _
  rw [takeWhile_digits ds rest hd hrest, he]
  simp only [Bool.false_eq_true, if_false]
  exact if_neg hr

theorem decimalLiteralValue_eq (sign ds : List Char) :
    decimalLiteralValue sign ds
      = if sign = ['-'] then -(digitsValue ds : Int) else (digitsValue ds : Int) := by
  unfold decimalLiteralValue
  rw [digitsValue_eq_ofDigits]

theorem stol_literal (sign ds rest : List Char)
    (hsign : sign = [] ∨ sign = ['-'] ∨ sign = ['+'])
    (hne : ds ≠ []) (hd : ∀ c ∈ ds, c.isDigit = true)
    (hrest : ∀ c, rest.head? = some c → c.isDigit = false)
    (hlo : LONG_MIN ≤ decimalLiteralValue sign ds)
    (hhi : decimalLiteralValue sign ds ≤ LONG_MAX) :
    stol ⟨sign ++ ds ++ rest⟩ = .ok (decimalLiteralValue sign ds) := by
  rw [decimalLiteralValue_eq] at hlo hhi ⊢
  obtain ⟨d, ds', hds⟩ := List.exists_cons_of_ne_nil hne
  have hd0 : d.isDigit = true := hd d (hds ▸ List.mem_cons_self _ _)
  have hsp : isspace d = false := isspace_of_isDigit hd0
  rcases hsign with rfl | rfl | rfl
  · have h := stol_of_sign [] ds rest false
      (by subst hds; simp [List.dropWhile_cons, hsp])
      (by subst hds; simpa using stolSign_digit _ hd0) hne hd hrest
      (by simpa using hlo) (by simpa using hhi)
    simpa using h
  · have h := stol_of_sign ['-'] ds rest true
      (by simp [List.dropWhile_cons, isspace]) (by simp [stolSign]) hne hd hrest
      (by simpa using hlo) (by simpa using hhi)
    simpa using h
  · have h := stol_of_sign ['+'] ds rest false
      (by simp [List.dropWhile_cons, isspace]) (by simp [stolSign]) hne hd hrest
      (by simpa using hlo) (by simpa using hhi)
    simpa using h

/-- C11, as amended.  For a string made of an optional sign, a non-empty run of digits
whose value fits a `long`, and any remainder that does not start with a digit,
`convertType(s, INT)` returns the value of the signed digits: the remainder is
ignored and no error is raised for it. -/
theorem convertType_int_ignores_remainder (stod : String → Except Err Double)
    (sign ds rest : List Char) (hsign : sign = [] ∨ sign = ['-'] ∨ sign = ['+'])
    (hne : ds ≠ []) (hd : ∀ c ∈ ds, c.isDigit = true)
    (hrest : ∀ c, rest.head? = some c → c.isDigit = false)
    (hlo : LONG_MIN ≤ decimalLiteralValue sign ds)
    (hhi : decimalLiteralValue sign ds ≤ LONG_MAX) :
    convertType stod ⟨sign ++ ds ++ rest⟩ .INT = .ok (.long (decimalLiteralValue sign ds)) := by
  show (stol ⟨sign ++ ds ++ rest⟩).map AnyVal.long = _
  rw [stol_literal sign ds rest hsign hne hd hrest hlo hhi]
  rfl

/-- C11, witness: `"4x"`. -/
theorem convertType_int_ignores_remainder_witness :
    convertType stodNone "4x" .INT = .ok (.long 4) :=
  convertType_int_ignores_remainder stodNone [] ['4'] ['x'] (Or.inl rfl) (by decide)
    (by decide) (by decide) (by decide) (by decide)

/-- C12.  For every complete decimal integer literal (an optional sign and a non-empty
run of digits) whose value lies in the range of a `long`, `convertType(s, INT)`
returns that value as an integer. -/
theorem convertType_int_complete_literal (stod : String → Except Err Double)
    (sign ds : List Char) (hsign : sign = [] ∨ sign = ['-'] ∨ sign = ['+'])
    (hne : ds ≠ []) (hd : ∀ c ∈ ds, c.isDigit = true)
    (hlo : LONG_MIN ≤ decimalLiteralValue sign ds)
    (hhi : decimalLiteralValue sign ds ≤ LONG_MAX) :
    convertType stod ⟨sign ++ ds⟩ .INT = .ok (.long (decimalLiteralValue sign ds)) := by
  have := stol_literal sign ds [] hsign hne hd (by simp) hlo hhi
  simp only [List.append_nil] at this
  show (stol ⟨sign ++ ds⟩).map AnyVal.long = _
  rw [this]
  rfl

/-- C12, witness: `"42"` yields 42. -/
theorem convertType_int_complete_literal_witness :
    convertType stodNone "42" .INT = .ok (.long 42) :=
  convertType_int_complete_literal stodNone [] ['4', '2'] (Or.inl rfl) (by decide)
    (by decide) (by decide) (by decide)

/-! ## C13 to C16: defaults, help and the prefix set -/

/-- C13.  With automatic help enabled, the help registration at the start of
`parseArgs` destroys the action registered last, here `--opt` with default `"d"`: it
is not seeded, and the returned Results has no entry for `opt`. -/
theorem default_of_last_registered_option_is_lost :
    (runProgram setupOptionWithDefault stodNone 8 ["prog", "a"]).outcome
      = .returns { args := [("x", .str "a")] } ∧
    mapFind (runProgram setupOptionWithDefault stodNone 8 ["prog", "a"]).final.arguments.args
      "opt" = none ∧
    (runProgram setupOptionWithDefault stodNone 8 ["prog", "a"]).final.parser.deref 1
      = .error (.undefined .danglingAction) := by
  decide!

/-- C14.  With automatic help enabled and one required positional registered, the run on
`--help` never leaves the loop, whatever the iteration budget: `--help` is bound to a
Store action (the Help action is in no index), the cursor does not move past a
zero-`nargs` flag, and nothing is ever written to `std::cout`. -/
theorem help_flag_loops_forever (fuel : Nat) :
    (runProgram setupRequiredPositional stodNone fuel ["prog", "--help"]).outcome
      = .outOfFuel ∧
    (runProgram setupRequiredPositional stodNone fuel ["prog", "--help"]).final.cout = "" ∧
    (runProgram setupRequiredPositional stodNone fuel ["prog", "--help"]).final.parser.optArgs
      = [("--help", 1), ("-h", 1)] ∧
    ((runProgram setupRequiredPositional stodNone fuel
        ["prog", "--help"]).final.parser.deref 1).map (fun a => a.kind) = .ok .Store := by
  have hsetup : setupRequiredPositional ArgumentParser.new
      = .ok () (setupRequiredPositional ArgumentParser.new).final := by decide!
  rw [runProgram_of_setup _ _ _ _ _ hsetup]
  have hpre : parsePrelude { parser := (setupRequiredPositional ArgumentParser.new).final }
      = .ok () (parsePrelude
          { parser := (setupRequiredPositional ArgumentParser.new).final }).final := by decide!
  generalize hs0 : (parsePrelude
    { parser := (setupRequiredPositional ArgumentParser.new).final }).final = s0 at hpre
  rcases fuel with _ | fuel
  · obtain ⟨h1, h2⟩ := parseArgs_of_loop_error _ stodNone 0 ["prog", "--help"] s0 s0 .outOfFuel
      hpre rfl
    rw [h1, h2, ← hs0]
    decide!
  · have hit0 : iteration stodNone ["prog", "--help"] s0
        = .ok () (iteration stodNone ["prog", "--help"] s0).final := by subst hs0; decide!
    generalize hs1 : (iteration stodNone ["prog", "--help"] s0).final = s1 at hit0
    have hit1 : iteration stodNone ["prog", "--help"] s1 = .ok () s1 := by
      subst hs1 hs0; decide!
    have hne1 : s1.cArg ≠ ["prog", "--help"].length := by subst hs1 hs0; decide!
    have hloop : scanLoop stodNone ["prog", "--help"] (fuel + 1) s0 = .error .outOfFuel s1 := by
      simp only [scanLoop, Exec.bind_run, hit0, getS_run]
      rw [if_neg hne1]
      exact scanLoop_fixed_point _ _ _ hit1 hne1 fuel
    obtain ⟨h1, h2⟩ := parseArgs_of_loop_error _ stodNone (fuel + 1) ["prog", "--help"] s0 s1
      .outOfFuel hpre hloop
    rw [h1, h2, ← hs1, ← hs0]
    decide!

/-- C15.  With prefix set `"+"` the help argument is registered under the bare names
`help` and `h`, as positionals: the flag index has no entry for `+h` or `++help`. -/
theorem help_aliases_ignore_the_prefix_character :
    ((setupPlusPrefix >>= fun _ => addHelpArgument) ArgumentParser.new).error? = none ∧
    ((setupPlusPrefix >>= fun _ => addHelpArgument) ArgumentParser.new).final.optArgs = [] ∧
    ((setupPlusPrefix >>= fun _ => addHelpArgument) ArgumentParser.new).final.posArgs
      = [0, 1, 1] := by
  decide!

/-- C16.  A freshly constructed registry has an empty prefix set: `-x` and `--name` are
classified positional, and registering `--name` appends to the positional list. -/
theorem fresh_registry_has_no_prefix_character :
    ArgumentParser.new.pfxChars = "" ∧
    getOptKind ArgumentParser.new.pfxChars "-x" = .POS ∧
    getOptKind ArgumentParser.new.pfxChars "--name" = .POS ∧
    (setupLongNameNoPrefixCall ArgumentParser.new).final.posArgs = [0] ∧
    (setupLongNameNoPrefixCall ArgumentParser.new).final.optArgs = [] := by
  decide!

/-! ## C17 to C20: classification, aliases and dests -/

/-- C17.  `getOptKind` returns POS exactly when the token is empty or its first character
is no prefix character, LONG exactly when the first character is a prefix character,
the token has at least two characters and the second equals the first, and SHORT
exactly when the first character is a prefix character and the token is not LONG. -/
theorem getOptKind_classifies (P t : String) :
    (getOptKind P t = .POS ↔ t.data = [] ∨ ∃ c, t.data[0]? = some c ∧ c ∉ P.data) ∧
    (getOptKind P t = .LONG ↔
      ∃ c, t.data[0]? = some c ∧ c ∈ P.data ∧ 2 ≤ t.data.length ∧ t.data[1]? = some c) ∧
    (getOptKind P t = .SHORT ↔
      ∃ c, t.data[0]? = some c ∧ c ∈ P.data ∧ ¬ (2 ≤ t.data.length ∧ t.data[1]? = some c)) := by
  obtain ⟨l⟩ := t
  rcases l with _ | ⟨c0, _ | ⟨c1, rest⟩⟩
  · simp [getOptKind]
  · by_cases h : c0 ∈ P.data <;> simp [getOptKind, strFind_isSome, h]
  · by_cases h : c0 ∈ P.data <;> by_cases h1 : c1 = c0 <;>
      simp [getOptKind, strFind_isSome, h, h1]

/-- C18.  Through a group, `g.addArgument("--opt", "pos")` returns normally and leaves
one action in both the flag index and the positional list; the same aliases on an
argument registered on the registry itself raise the configuration error. -/
theorem group_registration_mixes_aliases :
    (setupGroupMixed ArgumentParser.new).error? = none ∧
    (setupGroupMixed ArgumentParser.new).final.optArgs = [("--opt", 0)] ∧
    (setupGroupMixed ArgumentParser.new).final.posArgs = [0] ∧
    (setupDirectMixed ArgumentParser.new).error? = some (.throws (.runtime_error
      "Can't specify positional argument alias for optional argument")) := by
  decide!

theorem getOptKind_long {P n : String} (h : IsLongAlias P n) : getOptKind P n = .LONG := by
  obtain ⟨c, rest, hn, hc⟩ := h
  simp [getOptKind, hn, (strFind_isSome P c).mpr hc]

theorem getOptKind_short {P n : String} (h : IsShortAlias P n) : getOptKind P n = .SHORT := by
  obtain ⟨c, x, hn, hc, hx⟩ := h
  simp [getOptKind, hn, (strFind_isSome P c).mpr hc, hx]

theorem not_long_of_short {P n : String} (h : IsShortAlias P n) : ¬ IsLongAlias P n := by
  obtain ⟨c, x, hn, hc, hx⟩ := h
  rintro ⟨c', rest, hn', _⟩
  rw [hn] at hn'
  simp at hn'
  exact hx (hn'.2.1.trans hn'.1.symm)

theorem head_in_prefix {P n : String} (h : IsShortAlias P n ∨ IsLongAlias P n) :
    (strFind P (n.data.headD '\x00')).isSome = true := by
  rcases h with ⟨c, x, hn, hc, _⟩ | ⟨c, rest, hn, hc⟩ <;>
    simp [hn, (strFind_isSome P c).mpr hc]

theorem joinDefaultGroup_run (p : ArgumentParser) (b : ArgBuilder) (idx : Nat) (kind : ArgKind)
    (act : Action) (hderef : p.deref b.actionRef = .ok act) (hkind : b.kind ≠ .POS)
    (hk : kind ≠ .POS) (hidx : idx < p.groups.length) :
    ∃ b' p' act', b.joinDefaultGroup idx kind p = .ok b' p' ∧
      p'.deref b'.actionRef = .ok act' ∧ act'.dest = act.dest ∧
      b'.kind ≠ .POS ∧ b'.destAdded = b.destAdded ∧ b'.actionRef = b.actionRef ∧
      p'.groups.length = p.groups.length ∧ p'.pfxChars = p.pfxChars := by
  unfold ArgBuilder.joinDefaultGroup
  by_cases hc : (b.kind = .NONE && b.addToDefaultGroup) = true
  · obtain ⟨g, hg⟩ := groupPush_run p idx b.actionRef hidx
    have hd : ({ p with groups := p.groups.set idx g } : ArgumentParser).deref b.actionRef
        = .ok act := hderef
    refine ⟨{ b with kind := kind },
      ({ p with groups := p.groups.set idx g } : ArgumentParser).write b.actionRef
        { act with groupIdx := idx, nargs := 0 },
      { act with groupIdx := idx, nargs := 0 }, ?_, deref_write_self _ _ _ _ hd, rfl, hk,
      rfl, rfl, ?_, rfl⟩
    · rw [if_pos hc]
      simp [hg, updateAction_run _ _ _ _ hd]
    · simp [ArgumentParser.write]
  · rw [if_neg hc]
    exact ⟨b, p, act, rfl, hderef, rfl, hkind, rfl, rfl, rfl, rfl⟩

theorem indexAlias_optional (p : ArgumentParser) (b : ArgBuilder) (n : String) (act : Action)
    (hderef : p.deref b.actionRef = .ok act) (hkind : b.kind ≠ .POS)
    (hgroups : 2 ≤ p.groups.length)
    (hn : IsShortAlias p.pfxChars n ∨ IsLongAlias p.pfxChars n) :
    ∃ b' p' act', b.indexAlias n p = .ok b' p' ∧
      p'.deref b'.actionRef = .ok act' ∧ act'.dest = act.dest ∧
      b'.kind ≠ .POS ∧ b'.destAdded = b.destAdded ∧
      p'.groups.length = p.groups.length ∧ p'.pfxChars = p.pfxChars := by
  have hhead : (strFind p.pfxChars (n.data.head?.getD '\x00')).isSome = true := by
    simpa using head_in_prefix hn
  obtain ⟨b', p', act', hj, hd', hdest, hk', hda, _, hg, hpf⟩ :=
    joinDefaultGroup_run p b OPTARG_GROUP_IDX .OPT act hderef hkind (by decide)
      (by simp [OPTARG_GROUP_IDX]; omega)
  refine ⟨b', { p' with optArgs := mapAssign p'.optArgs n b'.actionRef }, act', ?_, hd', hdest,
    hk', hda, hg, hpf⟩
  simp [ArgBuilder.indexAlias, hhead, hkind, hj]

theorem inferDest_optional (p : ArgumentParser) (b : ArgBuilder) (n : String)
    (L : List String) (act act0 : Action)
    (hderef : p.deref b.actionRef = .ok act) (hdest : act.dest = act0.dest)
    (hn : IsShortAlias p.pfxChars n ∨ IsLongAlias p.pfxChars n)
    (hL : DestInferred p.pfxChars L b act0) :
    ∃ b' p' act', b.inferDest n p = .ok b' p' ∧ p'.deref b'.actionRef = .ok act' ∧
      b'.kind = b.kind ∧ p'.groups = p.groups ∧ p'.pfxChars = p.pfxChars ∧
      DestInferred p.pfxChars (n :: L) b' act' := by
  rcases hn with hs | hl
  · have hk := getOptKind_short hs
    by_cases hda : b.destAdded = true
    · refine ⟨b, p, act, ?_, hderef, rfl, rfl, rfl, ?_⟩
      · simp [ArgBuilder.inferDest, hk, hda]
      · unfold DestInferred at hL ⊢
        rw [if_pos hda] at hL ⊢
        obtain ⟨m, hm, hlong, hd⟩ := hL
        exact ⟨m, List.mem_cons_of_mem _ hm, hlong, hdest.trans hd⟩
    · refine ⟨b, p.write b.actionRef { act with dest := substrFrom n 1 },
        { act with dest := substrFrom n 1 }, ?_, deref_write_self _ _ _ _ hderef, rfl, rfl, rfl,
        ?_⟩
      · simp [ArgBuilder.inferDest, hk, hda, updateAction_run _ _ _ _ hderef]
      · unfold DestInferred at hL ⊢
        rw [if_neg hda] at hL ⊢
        refine ⟨?_, Or.inr ⟨n, List.mem_cons_self _ _, hs, rfl⟩⟩
        intro m hm
        rcases List.mem_cons.mp hm with rfl | hm
        · exact not_long_of_short hs
        · exact hL.1 m hm
  · have hk := getOptKind_long hl
    refine ⟨{ b with destAdded := true }, p.write b.actionRef { act with dest := substrFrom n 2 },
      { act with dest := substrFrom n 2 }, ?_, deref_write_self _ _ _ _ hderef, rfl, rfl, rfl,
      ?_⟩
    · simp [ArgBuilder.inferDest, hk, updateAction_run _ _ _ _ hderef]
    · unfold DestInferred
      rw [if_pos rfl]
      exact ⟨n, List.mem_cons_self _ _, hl, rfl⟩

theorem addNameOrFlag_optional (p : ArgumentParser) (b : ArgBuilder) (n : String)
    (L : List String) (act : Action)
    (hderef : p.deref b.actionRef = .ok act) (hkind : b.kind ≠ .POS)
    (hgroups : 2 ≤ p.groups.length)
    (hn : IsShortAlias p.pfxChars n ∨ IsLongAlias p.pfxChars n)
    (hL : DestInferred p.pfxChars L b act) :
    ∃ b' p' act', b.addNameOrFlag n p = .ok b' p' ∧ p'.deref b'.actionRef = .ok act' ∧
      b'.kind ≠ .POS ∧ 2 ≤ p'.groups.length ∧ p'.pfxChars = p.pfxChars ∧
      DestInferred p.pfxChars (n :: L) b' act' := by
  obtain ⟨b1, p1, act1, h1, hd1, hdest1, hk1, hda1, hg1, hpf1⟩ :=
    indexAlias_optional p b n act hderef hkind hgroups hn
  have hL1 : DestInferred p1.pfxChars L b1 act := by
    unfold DestInferred at hL ⊢
    rw [hda1, hpf1]; exact hL
  obtain ⟨b2, p2, act2, h2, hd2, hk2, hg2, hpf2, hL2⟩ :=
    inferDest_optional p1 b1 n L act1 act hd1 hdest1 (hpf1 ▸ hn) hL1
  refine ⟨b2, p2, act2, ?_, hd2, hk2 ▸ hk1, by rw [hg2, hg1]; exact hgroups,
    hpf2.trans hpf1, hpf1 ▸ hL2⟩
  simp [ArgBuilder.addNameOrFlag, h1, h2]

theorem addArgument_optional (p : ArgumentParser) (flag : Bool) (n : String)
    (hgroups : 2 ≤ p.groups.length)
    (hn : IsShortAlias p.pfxChars n ∨ IsLongAlias p.pfxChars n) :
    ∃ b' p' act', ArgumentParser.addArgument n flag p = .ok b' p' ∧
      p'.deref b'.actionRef = .ok act' ∧
      b'.kind ≠ .POS ∧ 2 ≤ p'.groups.length ∧ p'.pfxChars = p.pfxChars ∧
      DestInferred p.pfxChars [n] b' act' := by
  have hd0 : ({ p with store := p.store ++ [some (instantiate .Store)] } : ArgumentParser).deref
      p.store.length = .ok (instantiate .Store) := by
    simp [ArgumentParser.deref]
  obtain ⟨b', p', act', h, hd, hk, hg, hpf, hL⟩ :=
    addNameOrFlag_optional { p with store := p.store ++ [some (instantiate .Store)] }
      { actionRef := p.store.length, ptrIdx := (p.actions.length + SIZE_MOD - 1) % SIZE_MOD,
        addToDefaultGroup := flag } n [] (instantiate .Store) hd0 (by simp) hgroups hn
      (by unfold DestInferred; simp)
  refine ⟨b', { p' with actions := p'.actions ++ [p.store.length] }, act', ?_, hd, hk, hg, hpf,
    hL⟩
  simp [ArgumentParser.addArgument, alloc, h]

theorem addArgumentV_optional (p : ArgumentParser) (flag : Bool) (names : List String)
    (hgroups : 2 ≤ p.groups.length) (hne : names ≠ [])
    (hn : ∀ n ∈ names, IsShortAlias p.pfxChars n ∨ IsLongAlias p.pfxChars n) :
    ∃ b' p' act', ArgumentParser.addArgumentV flag names p = .ok b' p' ∧
      p'.deref b'.actionRef = .ok act' ∧
      b'.kind ≠ .POS ∧ 2 ≤ p'.groups.length ∧ p'.pfxChars = p.pfxChars ∧
      DestInferred p.pfxChars names b' act' := by
  induction names with
  | nil => exact absurd rfl hne
  | cons n rest ih =>
    cases rest with
    | nil =>
      exact addArgument_optional p flag n hgroups (hn n (List.mem_cons_self _ _))
    | cons m rest =>
      obtain ⟨b1, p1, act1, h1, hd1, hk1, hg1, hpf1, hL1⟩ :=
        ih (by simp) (fun x hx => hn x (List.mem_cons_of_mem _ hx))
      obtain ⟨b2, p2, act2, h2, hd2, hk2, hg2, hpf2, hL2⟩ :=
        addNameOrFlag_optional p1 b1 n (m :: rest) act1 hd1 hk1 hg1
          (hpf1 ▸ hn n (List.mem_cons_self _ _)) (hpf1 ▸ hL1)
      refine ⟨b2, p2, act2, ?_, hd2, hk2, hg2, hpf2.trans hpf1, hpf1 ▸ hL2⟩
      simp [ArgumentParser.addArgumentV, h1, h2]

/-- C19.  Registering an argument under aliases that are all short or long forms returns
normally, and the dest of its action is then a long alias without its two prefix
characters when there is a long alias among them, in whatever order they were given,
and the character of a short alias when there is none. -/
theorem dest_inferred_from_aliases (p : ArgumentParser) (addToDefaultGroup : Bool)
    (names : List String) (hgroups : 2 ≤ p.groups.length) (hne : names ≠ [])
    (hn : ∀ n ∈ names, IsShortAlias p.pfxChars n ∨ IsLongAlias p.pfxChars n) :
    ∃ b p' act, ArgumentParser.addArgumentV addToDefaultGroup names p = .ok b p' ∧
      p'.deref b.actionRef = .ok act ∧
      ((∃ n ∈ names, IsLongAlias p.pfxChars n) →
        ∃ n ∈ names, IsLongAlias p.pfxChars n ∧ act.dest = substrFrom n 2) ∧
      ((¬ ∃ n ∈ names, IsLongAlias p.pfxChars n) →
        ∃ n ∈ names, ∃ c x, n.data = [c, x] ∧ c ∈ p.pfxChars.data ∧ act.dest = ⟨[x]⟩) := by
  obtain ⟨b, p', act, h, hd, _, _, _, hL⟩ :=
    addArgumentV_optional p addToDefaultGroup names hgroups hne hn
  refine ⟨b, p', act, h, hd, ?_, ?_⟩
  · rintro ⟨n, hmem, hlong⟩
    unfold DestInferred at hL
    by_cases hda : b.destAdded = true
    · rw [if_pos hda] at hL; exact hL
    · rw [if_neg hda] at hL; exact absurd hlong (hL.1 n hmem)
  · intro hno
    unfold DestInferred at hL
    by_cases hda : b.destAdded = true
    · rw [if_pos hda] at hL
      obtain ⟨n, hmem, hlong, _⟩ := hL
      exact absurd ⟨n, hmem, hlong⟩ hno
    · rw [if_neg hda] at hL
      rcases hL.2 with h0 | ⟨n, hmem, ⟨c, x, hcx, hc, hx⟩, hdest⟩
      · exact absurd h0 hne
      · exact ⟨n, hmem, c, x, hcx, hc, by rw [hdest]; simp [substrFrom, hcx]⟩

/-- C19, witness: `addArgument("-n", "--name", "-m")` infers the dest `name`. -/
theorem dest_inferred_from_aliases_witness :
    ∃ b p' act, ArgumentParser.addArgumentV true ["-n", "--name", "-m"]
        (setupPrefixOnly ArgumentParser.new).final = .ok b p' ∧
      p'.deref b.actionRef = .ok act ∧ act.dest = "name" := by
  have hpfx : (setupPrefixOnly ArgumentParser.new).final.pfxChars = "-" := by decide!
  obtain ⟨b, p', act, hrun, hd, hlong, _⟩ := dest_inferred_from_aliases
    (setupPrefixOnly ArgumentParser.new).final true ["-n", "--name", "-m"]
    (by decide!) (by simp)
    (by
      intro n hn
      rw [hpfx]
      simp at hn
      rcases hn with rfl | rfl | rfl
      · exact Or.inl ⟨'-', 'n', rfl, by decide, by decide⟩
      · exact Or.inr ⟨'-', _, rfl, by decide⟩
      · exact Or.inl ⟨'-', 'm', rfl, by decide, by decide⟩)
  refine ⟨b, p', act, hrun, hd, ?_⟩
  obtain ⟨n, hn, ⟨c, rest, hdata, _⟩, hdest⟩ :=
    hlong ⟨"--name", by simp, hpfx ▸ ⟨'-', _, rfl, by decide⟩⟩
  simp at hn
  rcases hn with rfl | rfl | rfl
  · simp at hdata
    exact absurd (hdata.1.trans hdata.2.1.symm) (by decide)
  · rw [hdest]; decide
  · simp at hdata
    exact absurd (hdata.1.trans hdata.2.1.symm) (by decide)

/-- C20.  Two positionals `x` and `y` registered without `dest`: both have the empty
dest. -/
theorem positionals_share_the_empty_dest :
    (setupTwoPositionals ArgumentParser.new).error? = none ∧
    (setupTwoPositionals ArgumentParser.new).final.posArgs = [0, 1] ∧
    ((setupTwoPositionals ArgumentParser.new).final.deref 0).map (fun a => a.dest)
      = .ok "" ∧
    ((setupTwoPositionals ArgumentParser.new).final.deref 1).map (fun a => a.dest)
      = .ok "" := by
  decide!

/-! ## C21: switching the kind of a registered action -/

/-- C21.  After `p.addArgument("x"); p.addArgument("--name").action<StoreTrueAction>();`
the registry is not consistent: the owned set still holds the Store action of `--name`
(address 1) next to the new StoreTrue action (address 2), the action erased and
destroyed is the one of `x` (address 0), which the positional list and group 0 still
name; the flag index still binds `--name` to the old action, and the new action has
the empty dest and is in no index and no group.  On a registry with no earlier action
the same call erases past the end of the owned set. -/
theorem action_switch_keeps_stale_bindings :
    (setupSwitchKind ArgumentParser.new).error? = none ∧
    (setupSwitchKind ArgumentParser.new).final.actions = [1, 2] ∧
    (setupSwitchKind ArgumentParser.new).final.optArgs = [("--name", 1)] ∧
    (setupSwitchKind ArgumentParser.new).final.posArgs = [0] ∧
    (setupSwitchKind ArgumentParser.new).final.groups.map (fun g => g.actions) = [[0], [1]] ∧
    (setupSwitchKind ArgumentParser.new).final.deref 0 = .error (.undefined .danglingAction) ∧
    ((setupSwitchKind ArgumentParser.new).final.deref 1).map (fun a => (a.kind, a.dest))
      = .ok (.Store, "name") ∧
    ((setupSwitchKind ArgumentParser.new).final.deref 2).map (fun a => (a.kind, a.dest))
      = .ok (.StoreTrue, "") ∧
    (setupSwitchKindFirst ArgumentParser.new).error? = some (.undefined .eraseOutOfRange) := by
  decide!

/-! ## C22: `StoreAction::process` -/

/-- C22.  `StoreAction::process` on an action that is not yet present succeeds, sets
`present`, and changes only the entry of Results under `dest`: it becomes the single
value when one is given, the whole ordered list when more than one is given, and the
action's default when none is given.  On an action that is already present it fails
with the duplicate message and changes nothing. -/
theorem store_process_contract (s : Scan) (self : Nat) (act : Action) (values : List AnyVal)
    (optStr : String) (hself : s.parser.deref self = .ok act) (hkind : act.kind = .Store) :
    (act.present = false →
      ∃ s', process self values optStr s = .ok (true, none) s' ∧
        s'.parser.deref self = .ok { act with present := true } ∧
        (∀ v, values = [v] → mapFind s'.arguments.args act.dest = some v) ∧
        (1 < values.length → mapFind s'.arguments.args act.dest = some (.vec values)) ∧
        (values = [] → mapFind s'.arguments.args act.dest = some act.defaultval) ∧
        (∀ k, k ≠ act.dest → mapFind s'.arguments.args k = mapFind s.arguments.args k)) ∧
    (act.present = true →
      process self values optStr s
        = .ok (false, some ("Argument '" ++ optStr ++ "' is already defined.")) s) := by
  constructor
  · intro hpres
    rcases values with _ | ⟨v, _ | ⟨w, rest⟩⟩
    · refine ⟨{ s with arguments := insertArg s.arguments act.dest act.defaultval,
                       parser := s.parser.write self { act with present := true } },
        ?_, ?_, ?_, ?_, ?_, ?_⟩
      · simp [process, hself, hkind, hpres, Action.hasConflict]
      · exact deref_write_self _ _ act _ hself
      · intro v hv; cases hv
      · intro h; simp at h
      · intro _; simp [insertArg, mapFind_mapAssign_self]
      · intro k hk; simp [insertArg, mapFind_mapAssign_ne _ _ _ _ (Ne.symm hk)]
    · refine ⟨{ s with arguments := insertArg s.arguments act.dest v,
                       parser := s.parser.write self { act with present := true } },
        ?_, ?_, ?_, ?_, ?_, ?_⟩
      · simp [process, hself, hkind, hpres, Action.hasConflict]
      · exact deref_write_self _ _ act _ hself
      · intro v' hv; cases hv; simp [insertArg, mapFind_mapAssign_self]
      · intro h; simp at h
      · intro h; cases h
      · intro k hk; simp [insertArg, mapFind_mapAssign_ne _ _ _ _ (Ne.symm hk)]
    · refine ⟨{ s with arguments := insertArg s.arguments act.dest (.vec (v :: w :: rest)),
                       parser := s.parser.write self { act with present := true } },
        ?_, ?_, ?_, ?_, ?_, ?_⟩
      · simp [process, hself, hkind, hpres, Action.hasConflict]
      · exact deref_write_self _ _ act _ hself
      · intro v' hv; cases hv
      · intro _; simp [insertArg, mapFind_mapAssign_self]
      · intro h; cases h
      · intro k hk; simp [insertArg, mapFind_mapAssign_ne _ _ _ _ (Ne.symm hk)]
  · intro hpres
    simp [process, hself, hkind, hpres, Action.hasConflict]

/-- C22, witness: the Store action of `--name` (address 0, dest `name`), not yet
present, given the two values `"a"`, `"b"`. -/
theorem store_process_contract_witness :
    (({ kind := .Store, dest := "name", groupIdx := 1, nargs := 1 } : Action).present = false →
      ∃ s', process 0 [.str "a", .str "b"] "--name"
          { parser := (setupLongName 1 ArgumentParser.new).final } = .ok (true, none) s' ∧
        s'.parser.deref 0
          = .ok { kind := .Store, dest := "name", groupIdx := 1, nargs := 1, present := true } ∧
        (∀ v, [AnyVal.str "a", .str "b"] = [v] → mapFind s'.arguments.args "name" = some v) ∧
        (1 < [AnyVal.str "a", .str "b"].length →
          mapFind s'.arguments.args "name" = some (.vec [.str "a", .str "b"])) ∧
        ([AnyVal.str "a", .str "b"] = [] → mapFind s'.arguments.args "name" = some .empty) ∧
        (∀ k, k ≠ "name" → mapFind s'.arguments.args k = mapFind ({ } : Args).args k)) ∧
    (({ kind := .Store, dest := "name", groupIdx := 1, nargs := 1 } : Action).present = true →
      process 0 [.str "a", .str "b"] "--name"
          { parser := (setupLongName 1 ArgumentParser.new).final }
        = .ok (false, some ("Argument '" ++ "--name" ++ "' is already defined."))
            { parser := (setupLongName 1 ArgumentParser.new).final }) :=
  store_process_contract { parser := (setupLongName 1 ArgumentParser.new).final } 0
    { kind := .Store, dest := "name", groupIdx := 1, nargs := 1 } [.str "a", .str "b"] "--name"
    (by decide!) rfl

/-! ## C23 to C25: the flag kinds -/

/-- C23.  A successful `process` of a StoreFalse action records the boolean `true`
under the action's dest, the same value a StoreTrue action records. -/
theorem store_false_records_true (s : Scan) (self : Nat) (act : Action) (values : List AnyVal)
    (optStr : String) (hself : s.parser.deref self = .ok act)
    (hkind : act.kind = .StoreTrue ∨ act.kind = .StoreFalse) (hpres : act.present = false) :
    ∃ s', process self values optStr s = .ok (true, none) s' ∧
      mapFind s'.arguments.args act.dest = some (.bool true) := by
  refine ⟨{ s with arguments := insertArg s.arguments act.dest (.bool true) }, ?_, ?_⟩
  · rcases hkind with hkind | hkind <;> simp [process, hself, hkind, hpres, Action.hasConflict]
  · simp [insertArg, mapFind_mapAssign_self]

/-- C23, witness: the StoreFalse action registered as `--quiet` with dest `quiet`. -/
theorem store_false_records_true_witness :
    ∃ s', process 2 [] "--quiet"
        { parser := (setupRequiredFlag .StoreFalse "--quiet" "quiet" ArgumentParser.new).final }
          = .ok (true, none) s' ∧
      mapFind s'.arguments.args "quiet" = some (.bool true) :=
  store_false_records_true
    { parser := (setupRequiredFlag .StoreFalse "--quiet" "quiet" ArgumentParser.new).final } 2
    { kind := .StoreFalse, dest := "quiet", required := true } [] "--quiet" (by decide!)
    (Or.inr rfl) rfl

/-- C24.  Every dispatch of an Append action fails, and a sequence of dispatches with
any value lists leaves Results, and everything else, as it was: nothing is accumulated
under the dest. -/
theorem append_process_records_nothing (s : Scan) (self : Nat) (act : Action)
    (occurrences : List (List AnyVal)) (optStr : String)
    (hself : s.parser.deref self = .ok act) (hkind : act.kind = .Append) :
    dispatchAll self optStr occurrences s = .ok (occurrences.map fun _ => false) s := by
  induction occurrences with
  | nil => rfl
  | cons values rest ih =>
    have hp : process self values optStr s = .ok (false, none) s := by
      simp [process, hself, hkind]
    rw [dispatchAll, Exec.bind_run, hp]
    simp only [Exec.bind_run, ih]
    rfl

/-- C24, witness: the Append action registered as `--item` with dest `item`, given the
value lists `"a"` and `"b", "c"`: both dispatches fail and Results stays empty. -/
theorem append_process_records_nothing_witness :
    dispatchAll 2 "--item" [[.str "a"], [.str "b", .str "c"]]
        { parser := (setupRequiredFlag .Append "--item" "item" ArgumentParser.new).final }
      = .ok [false, false]
        { parser := (setupRequiredFlag .Append "--item" "item" ArgumentParser.new).final } :=
  append_process_records_nothing
    { parser := (setupRequiredFlag .Append "--item" "item" ArgumentParser.new).final } 2
    { kind := .Append, dest := "item", required := true } [[.str "a"], [.str "b", .str "c"]]
    "--item" (by decide!) rfl

/-- C25.  A successful `process` of a StoreTrue, StoreFalse or Count action leaves the
registry, and with it the action's `present` flag, as it was; when the action is
required, the required-argument check that follows reports it as missing. -/
theorem flag_kinds_never_become_present (s : Scan) (self : Nat) (act : Action)
    (optStr : String) (hself : s.parser.deref self = .ok act)
    (hkind : act.kind = .StoreTrue ∨ act.kind = .StoreFalse ∨ act.kind = .Count)
    (hpres : act.present = false) (hreq : act.required = true) :
    ∃ s', process self [] optStr s = .ok (true, none) s' ∧ s'.parser = s.parser ∧
      s'.parser.deref self = .ok act ∧
      checkRequired [self] s' = .ok ()
        { s' with cerr := s'.cerr ++
            ["Argument Parsing Error: Required argument " ++ act.dest ++ "not present."] } := by
  rcases hkind with hkind | hkind | hkind
  · refine ⟨{ s with arguments := insertArg s.arguments act.dest (.bool true) }, ?_, rfl, hself, ?_⟩
    · simp [process, hself, hkind, hpres, Action.hasConflict]
    · simp [checkRequired, hself, hpres, hreq]
  · refine ⟨{ s with arguments := insertArg s.arguments act.dest (.bool true) }, ?_, rfl, hself, ?_⟩
    · simp [process, hself, hkind, hpres, Action.hasConflict]
    · simp [checkRequired, hself, hpres, hreq]
  · refine ⟨{ s with arguments := insertArg s.arguments act.dest (.long 1) }, ?_, rfl, hself, ?_⟩
    · simp [process, hself, hkind, hpres]
    · simp [checkRequired, hself, hpres, hreq]

/-- C25, witness: the required StoreTrue action registered as `--quiet`. -/
theorem flag_kinds_never_become_present_witness :
    ∃ s', process 2 [] "--quiet"
        { parser := (setupRequiredFlag .StoreTrue "--quiet" "quiet" ArgumentParser.new).final }
          = .ok (true, none) s' ∧
      s'.parser = (setupRequiredFlag .StoreTrue "--quiet" "quiet" ArgumentParser.new).final ∧
      s'.parser.deref 2 = .ok { kind := .StoreTrue, dest := "quiet", required := true } ∧
      checkRequired [2] s' = .ok ()
        { s' with cerr := s'.cerr ++
            ["Argument Parsing Error: Required argument " ++ "quiet" ++ "not present."] } :=
  flag_kinds_never_become_present
    { parser := (setupRequiredFlag .StoreTrue "--quiet" "quiet" ArgumentParser.new).final } 2
    { kind := .StoreTrue, dest := "quiet", required := true } "--quiet" (by decide!)
    (Or.inl rfl) rfl rfl

/-! ## C26: `Args::get<T>` -/

/-- C26.  `Args::get<T>(name)` always returns an entry and never raises.  The entry is
present exactly when Results has an entry for `name` whose value has type `T`, and it
then carries that value; otherwise it carries the value-initialised `T`. -/
theorem get_reports_presence_and_type (args : Args) (T : TypeTag) (name : String) :
    ∃ e, args.get T name = .ok e ∧
      (e.present = true ↔ ∃ v, mapFind args.args name = some v ∧ v.type? = some T) ∧
      (e.present = true → mapFind args.args name = some e.val) ∧
      (e.present = false → e.val = T.default) := by
  unfold Args.get
  cases hfind : mapFind args.args name with
  | none => exact ⟨_, rfl, by simp, by simp, by simp⟩
  | some v =>
    by_cases hty : v.type? = some T
    · exact ⟨{ present := true, val := v }, by simp [any_cast, hty], by simp [hty], by simp,
        by simp⟩
    · exact ⟨{ present := false, val := T.default }, by simp [any_cast, hty], by simp [hty],
        by simp, by simp⟩

/-! ## C27: every action in exactly one group -/

theorem derefKept_refl (p : ArgumentParser) : DerefKept p p := fun _ act h => ⟨act, h, rfl⟩

theorem derefKept_trans {p q r : ArgumentParser} (h1 : DerefKept p q) (h2 : DerefKept q r) :
    DerefKept p r := by
  intro a act h
  obtain ⟨act1, hd1, hg1⟩ := h1 a act h
  obtain ⟨act2, hd2, hg2⟩ := h2 a act1 hd1
  exact ⟨act2, hd2, hg2.trans hg1⟩

theorem sameGrouping_refl (p : ArgumentParser) : SameGrouping p p := ⟨rfl, rfl, derefKept_refl p⟩

theorem sameGrouping_trans {p q r : ArgumentParser} (h1 : SameGrouping p q)
    (h2 : SameGrouping q r) : SameGrouping p r :=
  ⟨h2.groups.trans h1.groups, h2.store.trans h1.store, derefKept_trans h1.kept h2.kept⟩

theorem sameGrouping_of_eq {p q : ArgumentParser} (hg : q.groups = p.groups)
    (hs : q.store = p.store) : SameGrouping p q := by
  refine ⟨hg, by rw [hs], ?_⟩
  intro a act h
  refine ⟨act, ?_, rfl⟩
  unfold ArgumentParser.deref at h ⊢
  rw [hs]; exact h

theorem deref_lt {p : ArgumentParser} {a : Nat} {act : Action} (h : p.deref a = .ok act) :
    a < p.store.length := by
  have h1 := deref_ok_lt h
  by_contra hc
  rw [List.getElem?_eq_none (not_lt.mp hc)] at h1
  cases h1

theorem sameGrouping_updateAction (p : ArgumentParser) (a : Nat) (f : Action → Action)
    (hf : ∀ act, (f act).groupIdx = act.groupIdx) :
    SameGrouping p (updateAction a f p).final ∧ (updateAction a f p).final.actions = p.actions ∧
    ((∃ act, p.deref a = .ok act) → updateAction a f p = .ok () (updateAction a f p).final) := by
  unfold updateAction
  cases hd : p.deref a with
  | error e => exact ⟨sameGrouping_refl p, rfl, fun ⟨_, h⟩ => by cases h⟩
  | ok act =>
    refine ⟨⟨rfl, by simp [Result.final, ArgumentParser.write], ?_⟩, rfl, fun _ => rfl⟩
    intro b actb hb
    by_cases hab : a = b
    · subst hab
      rw [hd] at hb
      cases hb
      exact ⟨f act, deref_write_self p a act _ hd, hf act⟩
    · exact ⟨actb, by simpa [Result.final, deref_write_ne p a b _ hab] using hb, rfl⟩

theorem groupsInv_of_sameGrouping {p q : ArgumentParser} {S : List Nat} (h : GroupsInv p S)
    (hs : SameGrouping p q) : GroupsInv q S := by
  refine ⟨by rw [hs.groups]; exact h.defaults, by rw [hs.groups]; exact h.index,
    by rw [hs.groups, hs.store]; exact h.allocated, ?_⟩
  intro a ha
  obtain ⟨act, hd, hl⟩ := h.placed a ha
  obtain ⟨act', hd', hg'⟩ := hs.kept a act hd
  refine ⟨act', hd', ?_⟩
  unfold ListedOnlyIn at hl ⊢
  rw [hs.groups, hg']
  exact hl

theorem pending_of_sameGrouping {p q r : ArgumentParser} (h : Pending p q)
    (hs : SameGrouping q r) : Pending p r := by
  obtain ⟨act, hact⟩ := h.live
  obtain ⟨act', hact', _⟩ := hs.kept _ act hact
  exact ⟨groupsInv_of_sameGrouping h.inv hs, by rw [hs.groups]; exact h.unlisted, ⟨act', hact'⟩,
    derefKept_trans h.kept hs.kept, by rw [hs.groups]; exact h.groups⟩

theorem placed_of_sameGrouping {p q r : ArgumentParser} {idx : Nat} (h : Placed p q idx)
    (hs : SameGrouping q r) : Placed p r idx := by
  obtain ⟨act, hact, hidx⟩ := h.group
  obtain ⟨act', hact', hg'⟩ := hs.kept _ act hact
  exact ⟨groupsInv_of_sameGrouping h.inv hs, ⟨act', hact', hg'.trans hidx⟩, derefKept_trans h.kept hs.kept,
    by rw [hs.groups]; exact h.groups⟩

theorem pending_alloc (p : ArgumentParser) (x : Action) (h : GroupsInv p p.actions) :
    Pending p { p with store := p.store ++ [some x] } := by
  have hkeep : ∀ (a : Nat) (act : Action), p.deref a = .ok act →
      ({ p with store := p.store ++ [some x] } : ArgumentParser).deref a = .ok act := by
    intro a act hd
    have hlt := deref_lt hd
    unfold ArgumentParser.deref at hd ⊢
    simp only [List.getElem?_append_left hlt]
    exact hd
  refine ⟨⟨h.defaults, h.index, ?_, ?_⟩, ?_, ⟨x, ?_⟩, ?_, rfl⟩
  · intro i g hg a ha
    have := h.allocated i g hg a ha
    simp only [List.length_append, List.length_singleton]
    omega
  · intro a ha
    obtain ⟨act, hd, hl⟩ := h.placed a ha
    exact ⟨act, hkeep a act hd, hl⟩
  · intro i g hg hmem
    exact absurd (h.allocated i g hg _ hmem) (lt_irrefl _)
  · simp [ArgumentParser.deref]
  · intro a act hd
    exact ⟨act, hkeep a act hd, rfl⟩

theorem placed_of_pending {p q : ArgumentParser} (idx : Nat) (f : Action → Action)
    (h : Pending p q) (hidx : idx < q.groups.length) (hf : ∀ act, (f act).groupIdx = idx) :
    ∃ q1 q', groupPush idx p.store.length q = .ok () q1 ∧
      updateAction p.store.length f q1 = .ok () q' ∧
      Placed p q' idx ∧ q'.actions = q.actions ∧ q'.pfxChars = q.pfxChars := by
  obtain ⟨act0, hlive⟩ := h.live
  have hg0 : q.groups[idx]? = some q.groups[idx] := List.getElem?_eq_getElem hidx
  have hun0 : p.store.length ∉ (q.groups[idx]).actions := h.unlisted idx _ hg0
  generalize q.groups[idx] = g0 at hg0 hun0
  have hset : ∀ (i : Nat) (g : ArgGroup),
      (q.groups.set idx { g0 with actions := g0.actions ++ [p.store.length] })[i]? = some g →
      (i = idx ∧ g = { g0 with actions := g0.actions ++ [p.store.length] }) ∨
      (i ≠ idx ∧ q.groups[i]? = some g) := by
    intro i g hg
    rw [List.getElem?_set] at hg
    by_cases hi : idx = i
    · rw [if_pos hi, if_pos hidx] at hg
      cases hg
      exact Or.inl ⟨hi.symm, rfl⟩
    · rw [if_neg hi] at hg
      exact Or.inr ⟨fun h => hi h.symm, hg⟩
  have hne : ∀ b ∈ p.actions, p.store.length ≠ b := by
    intro b hb hab
    obtain ⟨act, hd, hlt, hl⟩ := h.inv.placed b hb
    have hgi : q.groups[act.groupIdx]? = some q.groups[act.groupIdx] :=
      List.getElem?_eq_getElem hlt
    have hc := hl _ _ hgi
    rw [if_pos rfl] at hc
    have hmem : b ∈ (q.groups[act.groupIdx]).actions := List.count_pos_iff.mp (by omega)
    exact h.unlisted _ _ hgi (hab ▸ hmem)
  obtain ⟨g1, hg1⟩ : ∃ g1 : ArgGroup,
      g1 = { g0 with actions := g0.actions ++ [p.store.length] } := ⟨_, rfl⟩
  rw [← hg1] at hset
  refine ⟨{ q with groups := q.groups.set idx g1 },
    ({ q with groups := q.groups.set idx g1 } : ArgumentParser).write
      p.store.length (f act0), ?_, ?_,
    ⟨⟨?_, ?_, ?_, ?_⟩, ⟨f act0, ?_, hf act0⟩, ?_, ?_⟩, rfl, rfl⟩
  · subst hg1; simp [groupPush, hg0]
  · exact updateAction_run _ _ act0 f hlive
  · simpa [ArgumentParser.write] using h.inv.defaults
  · intro i g hg
    rcases hset i g hg with ⟨rfl, rfl⟩ | ⟨_, hg'⟩
    · rw [hg1]
      show g0.groupIdx = i
      exact h.inv.index i g0 hg0
    · exact h.inv.index _ _ hg'
  · intro i g hg a ha
    have hlen : ∀ (r : ArgumentParser) (x : Action),
        (r.write p.store.length x).store.length = r.store.length := by
      intro r x; simp [ArgumentParser.write]
    rw [hlen]
    show a < q.store.length
    rcases hset i g hg with ⟨rfl, rfl⟩ | ⟨_, hg'⟩
    · rw [hg1] at ha
      rcases List.mem_append.mp ha with ha | ha
      · exact h.inv.allocated _ _ hg0 a ha
      · rw [List.mem_singleton.mp ha]; exact deref_lt hlive
    · exact h.inv.allocated _ _ hg' a ha
  · intro b hb
    rcases List.mem_append.mp hb with hb | hb
    · obtain ⟨act, hd, hlt, hl⟩ := h.inv.placed b hb
      have hab := hne b hb
      refine ⟨act, ?_, ?_, ?_⟩
      · rw [deref_write_ne _ _ _ _ hab]; exact hd
      · simpa [ArgumentParser.write] using hlt
      · intro i g hg
        rcases hset i g hg with ⟨rfl, rfl⟩ | ⟨_, hg'⟩
        · have := hl _ _ hg0
          rw [hg1]
          simp only [List.count_append, List.count_singleton, beq_iff_eq, if_neg hab, add_zero]
          exact this
        · exact hl _ _ hg'
    · rw [List.mem_singleton.mp hb]
      refine ⟨f act0, deref_write_self _ _ act0 _ hlive, ?_, ?_⟩
      · rw [hf]; simpa [ArgumentParser.write] using hidx
      · intro i g hg
        rw [hf]
        rcases hset i g hg with ⟨rfl, rfl⟩ | ⟨hi, hg'⟩
        · simp [hg1, List.count_append, List.count_eq_zero.mpr hun0]
        · rw [if_neg hi]
          exact List.count_eq_zero.mpr (h.unlisted _ _ hg')
  · exact deref_write_self _ _ act0 _ hlive
  · intro b act hd
    obtain ⟨act', hd', hg'⟩ := h.kept b act hd
    have hb : p.store.length ≠ b := fun hab => absurd (deref_lt hd) (by omega)
    exact ⟨act', by rw [deref_write_ne _ _ _ _ hb]; exact hd', hg'⟩
  · simpa [ArgumentParser.write] using h.groups

theorem joinDefaultGroup_skip (b : ArgBuilder) (idx : Nat) (kind : ArgKind)
    (hb : b.kind = .NONE → b.addToDefaultGroup = false) :
    b.joinDefaultGroup idx kind = pure b := by
  unfold ArgBuilder.joinDefaultGroup
  by_cases hk : b.kind = .NONE
  · simp [hk, hb hk]
  · simp [hk]

theorem indexAlias_frame (p : ArgumentParser) (b : ArgBuilder) (n : String)
    (hb : b.kind = .NONE → b.addToDefaultGroup = false) :
    SameGrouping p (b.indexAlias n p).final ∧ (b.indexAlias n p).final.actions = p.actions ∧
    (∀ b' p', b.indexAlias n p = .ok b' p' → b' = b) ∧
    (b.kind = .NONE → b.indexAlias n p = .ok b (b.indexAlias n p).final) := by
  unfold ArgBuilder.indexAlias
  simp only [Exec.bind_run, getS_run, joinDefaultGroup_skip b _ _ hb]
  by_cases hh : (strFind p.pfxChars (n.data.headD '\x00')).isSome = true
  · rw [if_pos hh]
    by_cases hk : b.kind = .POS
    · simp [hk, Result.final, sameGrouping_refl]
    · simp [hk, Result.final]
      exact sameGrouping_of_eq rfl rfl
  · rw [if_neg hh]
    by_cases hk : b.kind = .OPT
    · simp [hk, Result.final, sameGrouping_refl]
    · simp [hk, Result.final]
      exact sameGrouping_of_eq rfl rfl

theorem inferDest_frame (p : ArgumentParser) (b : ArgBuilder) (n : String) :
    SameGrouping p (b.inferDest n p).final ∧ (b.inferDest n p).final.actions = p.actions ∧
    (∀ b' p', b.inferDest n p = .ok b' p' →
      b'.kind = b.kind ∧ b'.addToDefaultGroup = b.addToDefaultGroup ∧
      b'.actionRef = b.actionRef) ∧
    ((∃ act, p.deref b.actionRef = .ok act) → ∃ b' p', b.inferDest n p = .ok b' p') := by
  unfold ArgBuilder.inferDest
  simp only [Exec.bind_run, getS_run]
  split_ifs with h1 h2
  · obtain ⟨hs, ha, hok⟩ := sameGrouping_updateAction p b.actionRef
      (fun a => { a with dest := substrFrom n 1 }) (fun _ => rfl)
    simp only [Exec.bind_run]
    cases hu : updateAction b.actionRef (fun a => { a with dest := substrFrom n 1 }) p with
    | ok u p' =>
      rw [hu] at hs ha
      exact ⟨hs, ha, fun b' p'' h => by cases h; exact ⟨rfl, rfl, rfl⟩, fun _ => ⟨_, _, rfl⟩⟩
    | error e p' =>
      rw [hu] at hs ha hok
      exact ⟨hs, ha, fun b' p'' h => (by cases h), fun hl => (by cases hok hl)⟩
  · obtain ⟨hs, ha, hok⟩ := sameGrouping_updateAction p b.actionRef
      (fun a => { a with dest := substrFrom n 2 }) (fun _ => rfl)
    simp only [Exec.bind_run]
    cases hu : updateAction b.actionRef (fun a => { a with dest := substrFrom n 2 }) p with
    | ok u p' =>
      rw [hu] at hs ha
      exact ⟨hs, ha, fun b' p'' h => by cases h; exact ⟨rfl, rfl, rfl⟩, fun _ => ⟨_, _, rfl⟩⟩
    | error e p' =>
      rw [hu] at hs ha hok
      exact ⟨hs, ha, fun b' p'' h => (by cases h), fun hl => (by cases hok hl)⟩
  · exact ⟨sameGrouping_refl p, rfl, fun b' p'' h => by cases h; exact ⟨rfl, rfl, rfl⟩,
      fun _ => ⟨_, _, rfl⟩⟩

theorem addNameOrFlag_frame (p : ArgumentParser) (b : ArgBuilder) (n : String)
    (hb : b.kind = .NONE → b.addToDefaultGroup = false) :
    SameGrouping p (b.addNameOrFlag n p).final ∧
    (b.addNameOrFlag n p).final.actions = p.actions ∧
    (∀ b' p', b.addNameOrFlag n p = .ok b' p' →
      b'.kind = b.kind ∧ b'.addToDefaultGroup = b.addToDefaultGroup ∧
      b'.actionRef = b.actionRef) ∧
    (b.kind = .NONE → (∃ act, p.deref b.actionRef = .ok act) →
      ∃ b' p', b.addNameOrFlag n p = .ok b' p') := by
  obtain ⟨hs1, ha1, hb1, hok1⟩ := indexAlias_frame p b n hb
  unfold ArgBuilder.addNameOrFlag
  rw [Exec.bind_run]
  cases h1 : b.indexAlias n p with
  | error e p1 =>
    rw [h1] at hs1 ha1 hok1
    refine ⟨hs1, ha1, fun b' p' h => (by cases h), fun hk _ => ?_⟩
    cases hok1 hk
  | ok b1 p1 =>
    rw [h1] at hs1 ha1
    obtain rfl := hb1 b1 p1 h1
    obtain ⟨hs2, ha2, hb2, hok2⟩ := inferDest_frame p1 b1 n
    refine ⟨sameGrouping_trans hs1 hs2, ha2.trans ha1, hb2, fun _ hl => ?_⟩
    obtain ⟨act, hact⟩ := hl
    obtain ⟨act1, hact1, _⟩ := hs1.kept _ act hact
    exact hok2 ⟨act1, hact1⟩

theorem indexAlias_place (p p1 : ArgumentParser) (b : ArgBuilder) (n : String)
    (hpend : Pending p p1) (hk : b.kind = .NONE) (hf : b.addToDefaultGroup = true)
    (href : b.actionRef = p.store.length) :
    ∃ b1 q, b.indexAlias n p1 = .ok b1 q ∧
      Placed p q (if (strFind p1.pfxChars (n.data.headD '\x00')).isSome = true
        then OPTARG_GROUP_IDX else POSARG_GROUP_IDX) ∧
      q.actions = p1.actions ∧ b1.kind ≠ .NONE ∧ b1.actionRef = p.store.length := by
  unfold ArgBuilder.indexAlias
  simp only [Exec.bind_run, getS_run]
  by_cases hh : (strFind p1.pfxChars (n.data.headD '\x00')).isSome = true
  · rw [if_pos hh, if_pos hh]
    obtain ⟨q1, q', hgp, hup, hpl, hact, _⟩ := placed_of_pending OPTARG_GROUP_IDX
      (fun a => { a with groupIdx := OPTARG_GROUP_IDX, nargs := 0 }) hpend
      (by have := hpend.inv.defaults; simp [OPTARG_GROUP_IDX]; omega) (fun _ => rfl)
    refine ⟨{ b with kind := .OPT }, { q' with optArgs := mapAssign q'.optArgs n p.store.length },
      ?_, placed_of_sameGrouping hpl (sameGrouping_of_eq rfl rfl), hact, by simp, href⟩
    simp [ArgBuilder.joinDefaultGroup, hk, hf, href, hgp, hup]
  · rw [if_neg hh, if_neg hh]
    obtain ⟨q1, q', hgp, hup, hpl, hact, _⟩ := placed_of_pending POSARG_GROUP_IDX
      (fun a => { a with groupIdx := POSARG_GROUP_IDX, nargs := 0 }) hpend
      (by have := hpend.inv.defaults; simp [POSARG_GROUP_IDX]; omega) (fun _ => rfl)
    refine ⟨{ b with kind := .POS }, { q' with posArgs := q'.posArgs ++ [p.store.length] },
      ?_, placed_of_sameGrouping hpl (sameGrouping_of_eq rfl rfl), hact, by simp, href⟩
    simp [ArgBuilder.joinDefaultGroup, hk, hf, href, hgp, hup]

theorem addArgument_eq (n : String) (flag : Bool) (p : ArgumentParser) :
    ArgumentParser.addArgument n flag p =
      match ArgBuilder.indexAlias
          { actionRef := p.store.length, ptrIdx := (p.actions.length + SIZE_MOD - 1) % SIZE_MOD,
            addToDefaultGroup := flag } n
          { p with store := p.store ++ [some (instantiate .Store)] } with
      | .ok b1 q =>
        match b1.inferDest n q with
        | .ok b2 q2 => .ok b2 { q2 with actions := q2.actions ++ [p.store.length] }
        | .error e q2 => .error e q2
      | .error e q => .error e q := by
  unfold ArgumentParser.addArgument ArgBuilder.addNameOrFlag
  simp only [Exec.bind_run, alloc, getS_run]
  cases ArgBuilder.indexAlias
      { actionRef := p.store.length, ptrIdx := (p.actions.length + SIZE_MOD - 1) % SIZE_MOD,
        addToDefaultGroup := flag } n
      { p with store := p.store ++ [some (instantiate .Store)] } with
  | error e q => rfl
  | ok b1 q =>
    simp only []
    cases b1.inferDest n q <;> rfl

theorem addArgument_grouped (p : ArgumentParser) (n : String) (h : GroupsInv p p.actions) :
    ∃ b p', ArgumentParser.addArgument n true p = .ok b p' ∧
      Placed p p' (if (strFind p.pfxChars (n.data.headD '\x00')).isSome = true
        then OPTARG_GROUP_IDX else POSARG_GROUP_IDX) ∧
      p'.actions = p.actions ++ [p.store.length] ∧ b.kind ≠ .NONE := by
  have hpend := pending_alloc p (instantiate .Store) h
  obtain ⟨b1, q, h1, hpl, hact, hk1, href1⟩ := indexAlias_place p _
    { actionRef := p.store.length, ptrIdx := (p.actions.length + SIZE_MOD - 1) % SIZE_MOD,
      addToDefaultGroup := true } n hpend rfl rfl rfl
  obtain ⟨hs2, ha2, hb2, hok2⟩ := inferDest_frame q b1 n
  obtain ⟨act, hderef, _⟩ := hpl.group
  obtain ⟨b2, q2, h2⟩ := hok2 ⟨act, by rw [href1]; exact hderef⟩
  rw [h2] at hs2 ha2
  refine ⟨b2, { q2 with actions := q2.actions ++ [p.store.length] }, ?_,
    placed_of_sameGrouping (placed_of_sameGrouping hpl hs2) (sameGrouping_of_eq rfl rfl), ?_, ?_⟩
  · rw [addArgument_eq, h1]
    simp only []
    rw [h2]
  · show q2.actions ++ [p.store.length] = p.actions ++ [p.store.length]
    rw [show q2.actions = q.actions from ha2, hact]
  · rw [(hb2 b2 q2 h2).1]; exact hk1

theorem addArgument_ungrouped (p : ArgumentParser) (n : String) (h : GroupsInv p p.actions) :
    ∃ b p', ArgumentParser.addArgument n false p = .ok b p' ∧ Pending p p' ∧
      p'.actions = p.actions ++ [p.store.length] ∧ b.kind = .NONE ∧
      b.addToDefaultGroup = false ∧ b.actionRef = p.store.length := by
  have hpend := pending_alloc p (instantiate .Store) h
  obtain ⟨hs1, ha1, hb1, hok1⟩ := indexAlias_frame
    { p with store := p.store ++ [some (instantiate .Store)] }
    { actionRef := p.store.length, ptrIdx := (p.actions.length + SIZE_MOD - 1) % SIZE_MOD,
      addToDefaultGroup := false } n (fun _ => rfl)
  have h1 := hok1 rfl
  generalize (ArgBuilder.indexAlias
    { actionRef := p.store.length, ptrIdx := (p.actions.length + SIZE_MOD - 1) % SIZE_MOD,
      addToDefaultGroup := false } n
    { p with store := p.store ++ [some (instantiate .Store)] }).final = q at hs1 ha1 h1
  obtain ⟨hs2, ha2, hb2, hok2⟩ := inferDest_frame q
    { actionRef := p.store.length, ptrIdx := (p.actions.length + SIZE_MOD - 1) % SIZE_MOD,
      addToDefaultGroup := false } n
  have hpq := pending_of_sameGrouping hpend hs1
  obtain ⟨b2, q2, h2⟩ := hok2 hpq.live
  rw [h2] at hs2 ha2
  obtain ⟨hk2, hf2, hr2⟩ := hb2 b2 q2 h2
  refine ⟨b2, { q2 with actions := q2.actions ++ [p.store.length] }, ?_,
    pending_of_sameGrouping (pending_of_sameGrouping hpq hs2) (sameGrouping_of_eq rfl rfl), ?_, hk2, hf2, hr2⟩
  · rw [addArgument_eq, h1]
    simp only []
    rw [h2]
  · show q2.actions ++ [p.store.length] = p.actions ++ [p.store.length]
    rw [show q2.actions = q.actions from ha2, show q.actions = p.actions from ha1]

theorem addArgumentV_cons (flag : Bool) (n m : String) (rest : List String)
    (p : ArgumentParser) :
    ArgumentParser.addArgumentV flag (n :: m :: rest) p =
      match ArgumentParser.addArgumentV flag (m :: rest) p with
      | .ok b q => b.addNameOrFlag n q
      | .error e q => .error e q := by
  rw [ArgumentParser.addArgumentV, Exec.bind_run]
  · cases ArgumentParser.addArgumentV flag (m :: rest) p <;> rfl
  · intro hc; cases hc

theorem addArgumentV_grouped (p : ArgumentParser) (names : List String)
    (h : GroupsInv p p.actions) :
    Placed p (ArgumentParser.addArgumentV true names p).final
      (if (strFind p.pfxChars ((names.getLastD "").data.headD '\x00')).isSome = true
        then OPTARG_GROUP_IDX else POSARG_GROUP_IDX) ∧
    (ArgumentParser.addArgumentV true names p).final.actions
      = p.actions ++ [p.store.length] ∧
    (∀ b q, ArgumentParser.addArgumentV true names p = .ok b q → b.kind ≠ .NONE) := by
  induction names with
  | nil =>
    obtain ⟨b, q, hrun, hpl, hact, hk⟩ := addArgument_grouped p "" h
    have hrun' : ArgumentParser.addArgumentV true [] p = .ok b q := hrun
    rw [hrun']
    exact ⟨hpl, hact, fun b' q' hq => by cases hq; exact hk⟩
  | cons n rest ih =>
    cases rest with
    | nil =>
      obtain ⟨b, q, hrun, hpl, hact, hk⟩ := addArgument_grouped p n h
      have hrun' : ArgumentParser.addArgumentV true [n] p = .ok b q := hrun
      rw [hrun']
      exact ⟨hpl, hact, fun b' q' hq => by cases hq; exact hk⟩
    | cons m rest =>
      obtain ⟨hpl, hact, hk⟩ := ih
      rw [addArgumentV_cons]
      have hlast : (n :: m :: rest).getLastD "" = (m :: rest).getLastD "" := by simp
      rw [hlast]
      cases h1 : ArgumentParser.addArgumentV true (m :: rest) p with
      | error e q =>
        rw [h1] at hpl hact
        exact ⟨hpl, hact, fun b' q' hq => by cases hq⟩
      | ok b q =>
        rw [h1] at hpl hact
        have hkb := hk b q h1
        obtain ⟨hs, ha, hb, _⟩ := addNameOrFlag_frame q b n (fun hn => absurd hn hkb)
        refine ⟨placed_of_sameGrouping hpl hs, ha.trans hact, fun b' q' hq => ?_⟩
        rw [(hb b' q' hq).1]; exact hkb

theorem addArgumentV_ungrouped (p : ArgumentParser) (names : List String)
    (h : GroupsInv p p.actions) :
    ∃ b q, ArgumentParser.addArgumentV false names p = .ok b q ∧ Pending p q ∧
      q.actions = p.actions ++ [p.store.length] ∧ b.kind = .NONE ∧
      b.addToDefaultGroup = false ∧ b.actionRef = p.store.length := by
  induction names with
  | nil => exact addArgument_ungrouped p "" h
  | cons n rest ih =>
    cases rest with
    | nil => exact addArgument_ungrouped p n h
    | cons m rest =>
      obtain ⟨b, q, hrun, hpend, hact, hk, hf, href⟩ := ih
      obtain ⟨hs, ha, hb, hok⟩ := addNameOrFlag_frame q b n (fun _ => hf)
      obtain ⟨b', q', h2⟩ := hok hk (by rw [href]; exact hpend.live)
      rw [h2] at hs ha
      obtain ⟨hk', hf', href'⟩ := hb b' q' h2
      refine ⟨b', q', ?_, pending_of_sameGrouping hpend hs, ha.trans hact, hk'.trans hk, hf'.trans hf,
        href'.trans href⟩
      rw [addArgumentV_cons, hrun]
      exact h2

theorem groupAddArgument_grouped (p : ArgumentParser) (g : ArgGroup) (names : List String)
    (h : GroupsInv p p.actions) (hg : g.groupIdx < p.groups.length) :
    ∃ b q, g.addArgument names p = .ok b q ∧ Placed p q g.groupIdx ∧
      q.actions = p.actions ++ [p.store.length] := by
  obtain ⟨b, q, hrun, hpend, hact, _, _, href⟩ := addArgumentV_ungrouped p names h
  obtain ⟨q1, q', hgp, hup, hpl, hact', _⟩ := placed_of_pending g.groupIdx
    (fun a => { a with groupIdx := g.groupIdx }) hpend (by rw [hpend.groups]; exact hg)
    (fun _ => rfl)
  refine ⟨b, q', ?_, hpl, hact'.trans hact⟩
  unfold ArgGroup.addArgument
  simp only [Exec.bind_run, hrun, href, hgp, hup, Exec.pure_run]

theorem keepsActions_refl (p : ArgumentParser) : KeepsActions p p :=
  ⟨fun _ h => h, derefKept_refl p, le_refl _⟩

theorem keepsActions_trans {p q r : ArgumentParser} (h1 : KeepsActions p q)
    (h2 : KeepsActions q r) : KeepsActions p r :=
  ⟨fun a h => h2.owned a (h1.owned a h), derefKept_trans h1.kept h2.kept, le_trans h1.groups h2.groups⟩

theorem final_bind_unit {α : Type} (m : Reg α) (p : ArgumentParser) :
    ((m >>= fun _ => (pure () : Reg Unit)) p).final = (m p).final := by
  rw [Exec.bind_run]
  cases m p <;> rfl

theorem head_test_of_optional {P n : String} (h : getOptKind P n ≠ .POS) :
    (strFind P (n.data.headD '\x00')).isSome = true := by
  obtain ⟨l⟩ := n
  rcases l with _ | ⟨c0, rest⟩
  · simp [getOptKind] at h
  · by_cases hc : (strFind P c0).isSome = true
    · simpa using hc
    · simp [getOptKind, hc] at h

theorem head_test_of_positional {P n : String} (h : getOptKind P n = .POS)
    (hne : n.data ≠ []) : ¬ (strFind P (n.data.headD '\x00')).isSome = true := by
  obtain ⟨l⟩ := n
  rcases l with _ | ⟨c0, _ | ⟨c1, rest⟩⟩
  · exact absurd rfl hne
  · by_cases hc : (strFind P c0).isSome = true
    · simp [getOptKind, hc] at h
    · simpa using hc
  · by_cases hc : (strFind P c0).isSome = true
    · by_cases h1 : c1 = c0 <;> simp [getOptKind, hc, h1] at h
    · simpa using hc

theorem groupsConsistent_new : GroupsConsistent ArgumentParser.new := by
  refine ⟨by simp [ArgumentParser.new], ?_, ?_, ?_⟩
  · intro i g hg
    rcases i with _ | _ | i <;> simp [ArgumentParser.new] at hg <;> rw [← hg]
  · intro i g hg a ha
    rcases i with _ | _ | i <;> simp [ArgumentParser.new] at hg <;> rw [← hg] at ha <;>
      simp at ha
  · intro a ha
    simp [ArgumentParser.new] at ha

theorem inGroup_of_placed {p q : ArgumentParser} {idx : Nat} (h : Placed p q idx)
    (hact : q.actions = p.actions ++ [p.store.length]) :
    GroupsConsistent q ∧ KeepsActions p q ∧ InGroup q p.store.length idx := by
  have hinv : GroupsInv q q.actions := by rw [hact]; exact h.inv
  refine ⟨hinv, ⟨fun a ha => by rw [hact]; exact List.mem_append_left _ ha, h.kept,
    le_of_eq h.groups.symm⟩, ?_, ?_⟩
  · rw [hact]; simp
  · obtain ⟨act, hd, hl⟩ := h.inv.placed p.store.length (by simp)
    obtain ⟨act', hd', hidx⟩ := h.group
    rw [hd] at hd'
    cases hd'
    exact ⟨act, hd, hidx, hidx ▸ hl⟩

theorem newGroup_consistent (p : ArgumentParser) (name : String) (h : GroupsConsistent p) :
    GroupsConsistent ((Registration.newGroup name).run p).final ∧
    KeepsActions p ((Registration.newGroup name).run p).final := by
  have hfin : ((Registration.newGroup name).run p).final
      = { p with groups := p.groups ++ [{ groupIdx := p.groups.length, name := name }] } := rfl
  rw [hfin]
  have hget : ∀ (i : Nat) (g : ArgGroup),
      (p.groups ++ [({ groupIdx := p.groups.length, name := name } : ArgGroup)])[i]? = some g →
      p.groups[i]? = some g ∨
        (i = p.groups.length ∧ g = { groupIdx := p.groups.length, name := name }) := by
    intro i g hg
    rw [List.getElem?_append] at hg
    by_cases hi : i < p.groups.length
    · rw [if_pos hi] at hg; exact Or.inl hg
    · rw [if_neg hi] at hg
      have h0 : i - p.groups.length = 0 := by
        by_contra hc
        rw [List.getElem?_eq_none (by simp; omega)] at hg
        cases hg
      rw [h0] at hg
      simp at hg
      exact Or.inr ⟨by omega, hg.symm⟩
  refine ⟨⟨?_, ?_, ?_, ?_⟩, ⟨fun _ ha => ha, fun a act hd => ⟨act, hd, rfl⟩, by simp⟩⟩
  · have := h.defaults
    simp only [List.length_append, List.length_singleton]
    omega
  · intro i g hg
    rcases hget i g hg with hg | ⟨rfl, rfl⟩
    · exact h.index i g hg
    · rfl
  · intro i g hg a ha
    rcases hget i g hg with hg | ⟨rfl, rfl⟩
    · exact h.allocated i g hg a ha
    · simp at ha
  · intro a ha
    obtain ⟨act, hd, hlt, hl⟩ := h.placed a ha
    refine ⟨act, hd, ?_, ?_⟩
    · simp only [List.length_append, List.length_singleton]
      omega
    · intro i g hg
      rcases hget i g hg with hg | ⟨rfl, rfl⟩
      · exact hl i g hg
      · rw [if_neg (by omega)]
        simp

theorem run_consistent (r : Registration) (p : ArgumentParser) (h : GroupsConsistent p) :
    GroupsConsistent (r.run p).final ∧ KeepsActions p (r.run p).final := by
  cases r with
  | prefixChars pfx =>
    exact ⟨groupsInv_of_sameGrouping h (sameGrouping_of_eq rfl rfl),
      ⟨fun _ ha => ha, fun a act hd => ⟨act, hd, rfl⟩, le_refl _⟩⟩
  | onRegistry names =>
    obtain ⟨hpl, hact, _⟩ := addArgumentV_grouped p names h
    have hfin : ((Registration.onRegistry names).run p).final
        = (ArgumentParser.addArgumentV true names p).final := final_bind_unit _ p
    rw [hfin]
    exact ⟨(inGroup_of_placed hpl hact).1, (inGroup_of_placed hpl hact).2.1⟩
  | newGroup name => exact newGroup_consistent p name h
  | onGroup idx names =>
    cases hg : p.groups[idx]? with
    | none =>
      have hfin : ((Registration.onGroup idx names).run p).final = p := by
        simp [Registration.run, hg, Result.final]
      rw [hfin]
      exact ⟨h, keepsActions_refl p⟩
    | some g =>
      have hidx : g.groupIdx = idx := h.index idx g hg
      have hlt : idx < p.groups.length := by
        by_contra hc
        rw [List.getElem?_eq_none (not_lt.mp hc)] at hg
        cases hg
      obtain ⟨b, q, hrun, hpl, hact⟩ := groupAddArgument_grouped p g names h (hidx ▸ hlt)
      have hfin : ((Registration.onGroup idx names).run p).final = q := by
        simp [Registration.run, hg, hrun, Result.final]
      rw [hfin]
      exact ⟨(inGroup_of_placed hpl hact).1, (inGroup_of_placed hpl hact).2.1⟩

theorem registerAll_consistent (regs : List Registration) (p : ArgumentParser)
    (h : GroupsConsistent p) :
    GroupsConsistent (registerAll regs p) ∧ KeepsActions p (registerAll regs p) := by
  induction regs generalizing p with
  | nil => exact ⟨h, keepsActions_refl p⟩
  | cons r rest ih =>
    obtain ⟨h1, k1⟩ := run_consistent r p h
    obtain ⟨h2, k2⟩ := ih (r.run p).final h1
    exact ⟨h2, keepsActions_trans k1 k2⟩

theorem registerAll_append (front back : List Registration) (p : ArgumentParser) :
    registerAll (front ++ back) p = registerAll back (registerAll front p) := by
  induction front generalizing p with
  | nil => rfl
  | cons r rest ih => exact ih _

theorem inGroup_kept {q r : ArgumentParser} {a idx : Nat} (hq : InGroup q a idx)
    (hr : GroupsConsistent r) (hk : KeepsActions q r) : InGroup r a idx := by
  obtain ⟨hmem, act, hd, hidx, _⟩ := hq
  obtain ⟨act', hd', hg'⟩ := hk.kept a act hd
  obtain ⟨act'', hd'', hl⟩ := hr.placed a (hk.owned a hmem)
  rw [hd'] at hd''
  cases hd''
  exact ⟨hk.owned a hmem, act', hd', hg'.trans hidx, (hg'.trans hidx) ▸ hl⟩

theorem onRegistry_inGroup (p : ArgumentParser) (names : List String)
    (h : GroupsConsistent p) :
    InGroup ((Registration.onRegistry names).run p).final p.store.length
      (if (strFind p.pfxChars ((names.getLastD "").data.headD '\x00')).isSome = true
        then OPTARG_GROUP_IDX else POSARG_GROUP_IDX) := by
  obtain ⟨hpl, hact, _⟩ := addArgumentV_grouped p names h
  have hfin : ((Registration.onRegistry names).run p).final
      = (ArgumentParser.addArgumentV true names p).final := final_bind_unit _ p
  rw [hfin]
  exact (inGroup_of_placed hpl hact).2.2

theorem onGroup_inGroup (p : ArgumentParser) (idx : Nat) (names : List String)
    (h : GroupsConsistent p) (hlt : idx < p.groups.length) :
    InGroup ((Registration.onGroup idx names).run p).final p.store.length idx := by
  have hg : p.groups[idx]? = some p.groups[idx] := List.getElem?_eq_getElem hlt
  generalize p.groups[idx] = g at hg
  have hidx : g.groupIdx = idx := h.index idx g hg
  obtain ⟨b, q, hrun, hpl, hact⟩ := groupAddArgument_grouped p g names h (hidx ▸ hlt)
  have hfin : ((Registration.onGroup idx names).run p).final = q := by
    simp [Registration.run, hg, hrun, Result.final]
  rw [hfin]
  exact hidx ▸ (inGroup_of_placed hpl hact).2.2

theorem inGroup_after (front back : List Registration) (r : Registration) (a idx : Nat)
    (h : InGroup (r.run (registerAll front ArgumentParser.new)).final a idx) :
    InGroup (registerAll (front ++ r :: back) ArgumentParser.new) a idx := by
  have hp := (registerAll_consistent front _ groupsConsistent_new).1
  have hq := (run_consistent r _ hp).1
  obtain ⟨hr, hk⟩ := registerAll_consistent back _ hq
  rw [registerAll_append]
  exact inGroup_kept h hr hk

/-- C27, counterexample.  `p.addArgument("x", false)`, the base overload called with
`addToDefaultGroup = false`, returns normally and leaves its action owned and in the
positional list, but listed in no group. -/
theorem registration_without_default_group_counterexample :
    (setupOutsideDefaultGroups ArgumentParser.new).error? = none ∧
    (setupOutsideDefaultGroups ArgumentParser.new).final.actions = [0] ∧
    (setupOutsideDefaultGroups ArgumentParser.new).final.posArgs = [0] ∧
    (setupOutsideDefaultGroups ArgumentParser.new).final.groups.map (fun g => g.actions)
      = [[], []] ∧
    ¬ GroupsConsistent (setupOutsideDefaultGroups ArgumentParser.new).final := by
  refine ⟨by decide!, by decide!, by decide!, by decide!, ?_⟩
  intro h
  have hactions : (setupOutsideDefaultGroups ArgumentParser.new).final.actions = [0] := by
    decide!
  have hempty : ∀ g ∈ (setupOutsideDefaultGroups ArgumentParser.new).final.groups,
      g.actions = [] := by decide!
  obtain ⟨act, _, hlt, hl⟩ := h.placed 0 (by rw [hactions]; simp)
  have hg := List.getElem?_eq_getElem hlt
  have hc := hl _ _ hg
  rw [if_pos rfl, hempty _ (List.getElem?_mem hg)] at hc
  simp at hc

/-- C27, amended.  After any sequence of registrations made with the default
automatic placement (setting the prefix characters, `p.addArgument(names...)`,
`p.addArgumentGroup(name)`, `g.addArgument(names...)`), whether or not some of the
calls threw, every owned action is live, is listed exactly once in the group its
`groupIdx` names and in no other group, and every group carries its own index.  The
action made by `p.addArgument(names...)` is in group 0 when all the names are
positional and in group 1 when all are optional; the action made by
`g.addArgument(names...)` is in the group of `g`; and the handle `addArgumentGroup`
returns has an index of 2 or more, so it is never one of the two default groups. -/
theorem registrations_group_each_action_once (regs : List Registration) :
    GroupsConsistent (registerAll regs ArgumentParser.new) ∧
    (∀ front names back, regs = front ++ Registration.onRegistry names :: back →
      names ≠ [] →
      ((∀ n ∈ names, getOptKind (registerAll front ArgumentParser.new).pfxChars n = .POS ∧
          n.data ≠ []) →
        InGroup (registerAll regs ArgumentParser.new)
          (registerAll front ArgumentParser.new).store.length POSARG_GROUP_IDX) ∧
      ((∀ n ∈ names, getOptKind (registerAll front ArgumentParser.new).pfxChars n ≠ .POS) →
        InGroup (registerAll regs ArgumentParser.new)
          (registerAll front ArgumentParser.new).store.length OPTARG_GROUP_IDX)) ∧
    (∀ front idx names back, regs = front ++ Registration.onGroup idx names :: back →
      idx < (registerAll front ArgumentParser.new).groups.length →
      InGroup (registerAll regs ArgumentParser.new)
        (registerAll front ArgumentParser.new).store.length idx) ∧
    (∀ front name back, regs = front ++ Registration.newGroup name :: back →
      ∃ g, ArgumentParser.addArgumentGroup name (registerAll front ArgumentParser.new)
          = .ok g (registerAll (front ++ [Registration.newGroup name]) ArgumentParser.new) ∧
        2 ≤ g.groupIdx ∧
        (registerAll regs ArgumentParser.new).groups[g.groupIdx]?.map (fun x => x.groupIdx)
          = some g.groupIdx) := by
  refine ⟨(registerAll_consistent regs _ groupsConsistent_new).1, ?_, ?_, ?_⟩
  · intro front names back hregs hne
    have hp := (registerAll_consistent front _ groupsConsistent_new).1
    have hin := onRegistry_inGroup _ names hp
    have hlast : names.getLastD "" ∈ names := by
      rw [List.getLastD_eq_getLast?, List.getLast?_eq_getLast _ hne]
      exact List.getLast_mem hne
    rw [hregs]
    constructor
    · intro hpos
      obtain ⟨hk, hd⟩ := hpos _ hlast
      rw [if_neg (head_test_of_positional hk hd)] at hin
      exact inGroup_after front back _ _ _ hin
    · intro hopt
      rw [if_pos (head_test_of_optional (hopt _ hlast))] at hin
      exact inGroup_after front back _ _ _ hin
  · intro front idx names back hregs hlt
    have hp := (registerAll_consistent front _ groupsConsistent_new).1
    rw [hregs]
    exact inGroup_after front back _ _ _ (onGroup_inGroup _ idx names hp hlt)
  · intro front name back hregs
    have hp := (registerAll_consistent front _ groupsConsistent_new).1
    have hall := (registerAll_consistent regs _ groupsConsistent_new).1
    refine ⟨{ groupIdx := (registerAll front ArgumentParser.new).groups.length, name := name },
      ?_, hp.defaults, ?_⟩
    · rw [registerAll_append]; rfl
    · have hk1 := (run_consistent (Registration.newGroup name) _ hp).2
      have hq := (run_consistent (Registration.newGroup name) _ hp).1
      have hk2 := (registerAll_consistent back _ hq).2
      have hlen : (registerAll front ArgumentParser.new).groups.length
          < (registerAll regs ArgumentParser.new).groups.length := by
        have h1 : ((Registration.newGroup name).run (registerAll front ArgumentParser.new)).final.groups.length
            = (registerAll front ArgumentParser.new).groups.length + 1 := by
          simp [Registration.run, ArgumentParser.addArgumentGroup, Result.final]
        have h2 := hk2.groups
        rw [hregs, registerAll_append]
        show _ < (registerAll back
          ((Registration.newGroup name).run (registerAll front ArgumentParser.new)).final).groups.length
        omega
      have hget := List.getElem?_eq_getElem hlen
      rw [hget]
      simp only [Option.map_some']
      exact congrArg some (hall.index _ _ hget)

/-- C27, witness: after `p.prefixChars("-"); p.addArgument("x");
auto g = p.addArgumentGroup("G"); g.addArgument("--opt"); p.addArgument("-n", "--name");`
the three actions are in groups 0, 2 and 1. -/
theorem registrations_group_each_action_once_witness :
    InGroup (registerAll [.prefixChars "-", .onRegistry ["x"], .newGroup "G",
      .onGroup 2 ["--opt"], .onRegistry ["-n", "--name"]] ArgumentParser.new) 0 0 ∧
    InGroup (registerAll [.prefixChars "-", .onRegistry ["x"], .newGroup "G",
      .onGroup 2 ["--opt"], .onRegistry ["-n", "--name"]] ArgumentParser.new) 1 2 ∧
    InGroup (registerAll [.prefixChars "-", .onRegistry ["x"], .newGroup "G",
      .onGroup 2 ["--opt"], .onRegistry ["-n", "--name"]] ArgumentParser.new) 2 1 := by
  obtain ⟨_, hreg, hgrp, _⟩ := registrations_group_each_action_once
    [.prefixChars "-", .onRegistry ["x"], .newGroup "G", .onGroup 2 ["--opt"],
      .onRegistry ["-n", "--name"]]
  have h0 := (hreg [.prefixChars "-"] ["x"]
    [.newGroup "G", .onGroup 2 ["--opt"], .onRegistry ["-n", "--name"]] rfl (by simp)).1
    (by decide!)
  have h1 := hgrp [.prefixChars "-", .onRegistry ["x"], .newGroup "G"] 2 ["--opt"]
    [.onRegistry ["-n", "--name"]] rfl (by decide!)
  have h2 := (hreg [.prefixChars "-", .onRegistry ["x"], .newGroup "G", .onGroup 2 ["--opt"]]
    ["-n", "--name"] [] rfl (by simp)).2 (by decide!)
  have e0 : (registerAll [.prefixChars "-"] ArgumentParser.new).store.length = 0 := by decide!
  have e1 : (registerAll [.prefixChars "-", .onRegistry ["x"], .newGroup "G"]
      ArgumentParser.new).store.length = 1 := by decide!
  have e2 : (registerAll [.prefixChars "-", .onRegistry ["x"], .newGroup "G",
      .onGroup 2 ["--opt"]] ArgumentParser.new).store.length = 2 := by decide!
  rw [e0] at h0
  rw [e1] at h1
  rw [e2] at h2
  exact ⟨h0, h1, h2⟩

/-! ## C28: the alias list read by the help formatter -/

/-- C28.  After `p.addArgument("-n", "--name")` the alias list recorded on the action is
empty, although both aliases are in the flag index, and the help formatter indexes
that empty list. -/
theorem help_formatter_indexes_empty_alias_list :
    (setupTwoAliases ArgumentParser.new).error? = none ∧
    (setupTwoAliases ArgumentParser.new).final.optArgs = [("--name", 0), ("-n", 0)] ∧
    (setupTwoAliases ArgumentParser.new).final.groups.map (fun g => g.actions) = [[], [0]] ∧
    ((setupTwoAliases ArgumentParser.new).final.deref 0).map (fun a => a.nameFlags) = .ok [] ∧
    (setupTwoAliases ArgumentParser.new).final.printHelp
      = .error (.undefined .nameFlagsOutOfBounds) := by
  decide!

/-! ## C29 and C30: the scan loop -/

/-- C29.  With `--name` registered with no value (`nargs(0)`), the run on the single
token `--name` never leaves the loop, whatever the iteration budget: the token is
dispatched without the cursor moving, so every pass reads the same token again. -/
theorem zero_value_flag_never_advances (fuel : Nat) :
    (runProgram (setupLongName 0) stodNone fuel ["prog", "--name"]).outcome = .outOfFuel ∧
    (runProgram (setupLongName 0) stodNone fuel ["prog", "--name"]).final.cArg = 1 := by
  have hsetup : setupLongName 0 ArgumentParser.new
      = .ok () (setupLongName 0 ArgumentParser.new).final := by decide!
  rw [runProgram_of_setup _ _ _ _ _ hsetup]
  have hpre : parsePrelude { parser := (setupLongName 0 ArgumentParser.new).final }
      = .ok () (parsePrelude
          { parser := (setupLongName 0 ArgumentParser.new).final }).final := by decide!
  generalize hs0 : (parsePrelude
    { parser := (setupLongName 0 ArgumentParser.new).final }).final = s0 at hpre
  rcases fuel with _ | fuel
  · obtain ⟨h1, h2⟩ := parseArgs_of_loop_error _ stodNone 0 ["prog", "--name"] s0 s0 .outOfFuel
      hpre rfl
    rw [h1, h2, ← hs0]
    decide!
  · have hit0 : iteration stodNone ["prog", "--name"] s0
        = .ok () (iteration stodNone ["prog", "--name"] s0).final := by subst hs0; decide!
    generalize hs1 : (iteration stodNone ["prog", "--name"] s0).final = s1 at hit0
    have hit1 : iteration stodNone ["prog", "--name"] s1 = .ok () s1 := by
      subst hs1 hs0; decide!
    have hne1 : s1.cArg ≠ ["prog", "--name"].length := by subst hs1 hs0; decide!
    have hloop : scanLoop stodNone ["prog", "--name"] (fuel + 1) s0 = .error .outOfFuel s1 := by
      simp only [scanLoop, Exec.bind_run, hit0, getS_run]
      rw [if_neg hne1]
      exact scanLoop_fixed_point _ _ _ hit1 hne1 fuel
    obtain ⟨h1, h2⟩ := parseArgs_of_loop_error _ stodNone (fuel + 1) ["prog", "--name"] s0 s1
      .outOfFuel hpre hloop
    rw [h1, h2, ← hs1, ← hs0]
    decide!

/-- C30.  On a token vector that holds only the program name, every registry with
automatic help disabled and all its actions live makes `parseArgs` build a string from
the null pointer `argv[1]`: the first statement of the loop reads that slot before any
test of the cursor. -/
theorem program_name_only_reads_null_slot (p : ArgumentParser)
    (stod : String → Except Err Double) (fuel : Nat) (prog : String)
    (hhelp : p.helpEn = false) (hlive : ∀ a ∈ p.actions, ∃ act, p.deref a = .ok act) :
    (p.parseArgs stod (fuel + 1) [prog]).outcome = .undefined .stringFromNull := by
  obtain ⟨args, hseed⟩ := seedDefaults_ok p.actions { parser := p } hlive
  have hpre : parsePrelude { parser := p } = .ok () { parser := p, arguments := args } := by
    simp [parsePrelude, liftReg, addHelpArgument_disabled p hhelp, hseed]
  have hloop : scanLoop stod [prog] (fuel + 1) { parser := p, arguments := args }
      = .error (.undefined .stringFromNull) { parser := p, arguments := args } := by
    simp [scanLoop, iteration, argvAt]
  exact (parseArgs_of_loop_error p stod (fuel + 1) [prog] _ _ _ hpre hloop).1

/-- C30, witness: the registry with the one positional `x`, no action required. -/
theorem program_name_only_reads_null_slot_witness :
    ((setupPositionalX ArgumentParser.new).final.parseArgs stodNone (7 + 1) ["prog"]).outcome
      = .undefined .stringFromNull :=
  program_name_only_reads_null_slot (setupPositionalX ArgumentParser.new).final stodNone 7
    "prog" (by decide!) (by
      have hactions : (setupPositionalX ArgumentParser.new).final.actions = [0] := by decide!
      intro a ha
      rw [hactions] at ha
      obtain rfl : a = 0 := by simpa using ha
      exact ⟨{ kind := .Store, dest := "x", nargs := 1 }, by decide!⟩)

/-! ## C31: N positional tokens, N passes -/

theorem scan_positionals_short (stod : String → Except Err Double) (p : ArgumentParser)
    (prog : String) (toks : List String) (hp : PositionalsReady stod p toks)
    (fuel : Nat) (s : Scan) (hs : PositionalScan stod p toks s)
    (hn : s.cPosArg + fuel < toks.length) :
    ∃ s', scanLoop stod (prog :: toks) fuel s = .error .outOfFuel s' := by
  induction fuel generalizing s with
  | zero => exact ⟨s, rfl⟩
  | succ n ih =>
    obtain ⟨s', hit, hs', hc⟩ := iteration_positional stod p prog toks hp s hs (by omega)
    obtain ⟨s'', hloop⟩ := ih s' hs' (by omega)
    refine ⟨s'', ?_⟩
    have hcont : ¬ s'.cArg = toks.length + 1 := by
      rw [hs'.cursor, hc]; omega
    simp [scanLoop, hit, hcont, hloop]

/-- C31, counterexample.  The registry with the one positional `x` (Store, `nargs(1)`,
type String, dest `x`, automatic help disabled) is parsed twice.  The first call, on
the token `a`, returns Results with `x` mapped to `a`; the second call on the same
registry, on the token `b`, returns empty Results: the action is still marked present,
its dispatch fails and nothing is stored. -/
theorem positional_reparse_counterexample :
    (runProgram setupPositionalX stodNone 8 ["prog", "a"]).outcome
      = .returns { args := [("x", .str "a")] } ∧
    (runProgram setupPositionalX stodNone 8 ["prog", "a"]).final.parser.helpEn = false ∧
    (runProgram setupPositionalX stodNone 8 ["prog", "a"]).final.parser.posArgs = [0] ∧
    ((runProgram setupPositionalX stodNone 8 ["prog", "a"]).final.parser.deref 0).map
        (fun a => (a.kind, a.nargs, a.type, a.dest, a.present))
      = .ok (.Store, 1, .STRING, "x", true) ∧
    ((runProgram setupPositionalX stodNone 8 ["prog", "a"]).final.parser.parseArgs stodNone 8
        ["prog", "b"]).outcome = .returns { args := [] } := by
  decide!

/-- C31, as amended.  For every N >= 1 and every registry with automatic help disabled
whose N positional arguments are live Store actions with `nargs = 1`, type String,
pairwise distinct dests and not yet present (none was dispatched by an earlier call of
`parseArgs`), `parseArgs` on N positional tokens returns normally, with no fault, as
soon as its loop may make N passes, and the Results map the dest of the `i`-th
positional to the `i`-th token; with fewer than N passes allowed the loop has not
ended, so it makes exactly N passes. -/
theorem positional_scan_makes_exactly_n_passes (p : ArgumentParser) (prog : String)
    (toks : List String) (hN : 1 ≤ toks.length) (hhelp : p.helpEn = false)
    (hown : ∀ a ∈ p.actions, ∃ act, p.deref a = .ok act)
    (hcount : p.posArgs.length = toks.length)
    (htokens : ∀ t ∈ toks, getOptKind p.pfxChars t = .POS)
    (hactions : ∀ (i a : Nat), p.posArgs[i]? = some a →
      ∃ act, p.deref a = .ok act ∧ act.kind = .Store ∧ act.nargs = 1 ∧
        act.type = .STRING ∧ act.present = false)
    (hdests : ∀ (i j a b : Nat) (acta actb : Action), p.posArgs[i]? = some a →
      p.posArgs[j]? = some b → p.deref a = .ok acta → p.deref b = .ok actb →
      acta.dest = actb.dest → i = j) :
    (∀ (stod : String → Except Err Double) (fuel : Nat), toks.length ≤ fuel →
      ∃ res s, p.parseArgs stod fuel (prog :: toks) = .ok res s ∧
        ∀ (i a : Nat) (act : Action) (t : String), p.posArgs[i]? = some a →
          p.deref a = .ok act → toks[i]? = some t →
          mapFind res.args act.dest = some (.str t)) ∧
    (∀ (stod : String → Except Err Double) (fuel : Nat), fuel < toks.length →
      (p.parseArgs stod fuel (prog :: toks)).outcome = .outOfFuel) := by
  have hready : ∀ stod : String → Except Err Double, PositionalsReady stod p toks := by
    intro stod
    refine ⟨hcount, htokens, ?_, ?_, hdests⟩
    · intro i a ha
      obtain ⟨act, hd, hk, hn, _, hpres⟩ := hactions i a ha
      exact ⟨act, hd, hk, hn, hpres⟩
    · intro i a act t ha hd _
      obtain ⟨act', hd', _, _, hty, _⟩ := hactions i a ha
      rw [hd] at hd'
      cases hd'
      exact ⟨.str t, by rw [hty]; rfl⟩
  have hstart : ∀ (stod : String → Except Err Double) (args0 : Args),
      PositionalScan stod p toks { parser := p, arguments := args0 } := fun _ _ =>
    ⟨rfl, rfl, rfl, rfl, fun _ _ _ _ => rfl, fun i _ _ _ hi => absurd hi (Nat.not_lt_zero i),
      fun _ h => h⟩
  constructor
  · intro stod fuel hfuel
    obtain ⟨args0, hseed⟩ := seedDefaults_ok p.actions { parser := p } hown
    obtain ⟨n, hn⟩ : ∃ n, toks.length = n + 1 := ⟨toks.length - 1, by omega⟩
    obtain ⟨extra, hextra⟩ : ∃ extra, fuel = n + 1 + extra := ⟨fuel - (n + 1), by omega⟩
    obtain ⟨s1, hloop, hs1, hc1⟩ := scan_positionals stod p prog toks (hready stod) n extra
      { parser := p, arguments := args0 } (hstart stod args0) (by show 0 + (n + 1) = _; omega)
    obtain ⟨cerr, hreq⟩ := checkRequired_ok p.actions s1
      (fun a ha => hs1.live a (hown a ha))
    refine ⟨s1.arguments, { s1 with cerr := cerr }, ?_, ?_⟩
    · subst hextra
      simp [ArgumentParser.parseArgs, parseBody, parsePrelude, liftReg,
        addHelpArgument_disabled p hhelp, hseed, hloop, hs1.actions, hreq]
    · intro i a act t ha hd ht
      have hi : i < s1.cPosArg := by
        rw [hc1]
        by_contra hc
        rw [List.getElem?_eq_none (not_lt.mp hc)] at ht
        cases ht
      obtain ⟨v, hv, hfind⟩ := hs1.stored i a act t hi ha hd ht
      obtain ⟨act', hd', _, _, hty, _⟩ := hactions i a ha
      rw [hd] at hd'
      cases hd'
      rw [hty] at hv
      cases hv
      exact hfind
  · intro stod fuel hfuel
    obtain ⟨args0, hseed⟩ := seedDefaults_ok p.actions { parser := p } hown
    have hpre : parsePrelude { parser := p } = .ok () { parser := p, arguments := args0 } := by
      simp [parsePrelude, liftReg, addHelpArgument_disabled p hhelp, hseed]
    obtain ⟨s', hloop⟩ := scan_positionals_short stod p prog toks (hready stod) fuel
      { parser := p, arguments := args0 } (hstart stod args0) (by show 0 + fuel < _; omega)
    exact (parseArgs_of_loop_error p stod fuel (prog :: toks) _ s' .outOfFuel hpre hloop).1

/-- C31, witness: positionals `x` and `y` with `nargs(1)` and explicit dests, tokens
`a b`: two passes return the Results, one pass does not. -/
theorem positional_scan_makes_exactly_n_passes_witness :
    (∃ res s, (setupPositionalsXY ArgumentParser.new).final.parseArgs stodNone 2
        ["prog", "a", "b"] = .ok res s ∧
      mapFind res.args "x" = some (.str "a") ∧ mapFind res.args "y" = some (.str "b")) ∧
    ((setupPositionalsXY ArgumentParser.new).final.parseArgs stodNone 1
        ["prog", "a", "b"]).outcome = .outOfFuel := by
  have hd0 : (setupPositionalsXY ArgumentParser.new).final.deref 0
      = .ok { kind := .Store, dest := "x", nargs := 1 } := by decide!
  have hd1 : (setupPositionalsXY ArgumentParser.new).final.deref 1
      = .ok { kind := .Store, dest := "y", nargs := 1 } := by decide!
  have hacts : (setupPositionalsXY ArgumentParser.new).final.actions = [0, 1] := by decide!
  obtain ⟨hret, hshort⟩ := positional_scan_makes_exactly_n_passes
    (setupPositionalsXY ArgumentParser.new).final "prog" ["a", "b"]
    (by decide) (by decide!)
    (by
      intro a ha
      rw [hacts] at ha
      simp at ha
      rcases ha with rfl | rfl
      · exact ⟨_, hd0⟩
      · exact ⟨_, hd1⟩)
    (by decide!) (by decide!)
    (by
      intro i a h
      rcases positionalsXY_posArgs i a h with ⟨_, rfl⟩ | ⟨_, rfl⟩
      · exact ⟨_, hd0, rfl, rfl, rfl, rfl⟩
      · exact ⟨_, hd1, rfl, rfl, rfl, rfl⟩)
    (by
      intro i j a b acta actb hi hj hda hdb hdest
      rcases positionalsXY_posArgs i a hi with ⟨rfl, rfl⟩ | ⟨rfl, rfl⟩ <;>
        rcases positionalsXY_posArgs j b hj with ⟨rfl, rfl⟩ | ⟨rfl, rfl⟩
      · rfl
      · rw [hd0] at hda; rw [hd1] at hdb; cases hda; cases hdb; exact absurd hdest (by decide)
      · rw [hd1] at hda; rw [hd0] at hdb; cases hda; cases hdb; exact absurd hdest (by decide)
      · rfl)
  refine ⟨?_, hshort stodNone 1 (by decide)⟩
  obtain ⟨res, s, hrun, hall⟩ := hret stodNone 2 (by decide)
  have hp0 : (setupPositionalsXY ArgumentParser.new).final.posArgs[0]? = some 0 := by decide!
  have hp1 : (setupPositionalsXY ArgumentParser.new).final.posArgs[1]? = some 1 := by decide!
  exact ⟨res, s, hrun, hall 0 0 _ "a" hp0 hd0 rfl, hall 1 1 _ "b" hp1 hd1 rfl⟩

/-! ## C32: the `present` flag across calls of `parseArgs` -/

section
variable {ε σ α β : Type}

theorem keeps_pure (R : σ → σ → Prop) (hr : ∀ s, R s s) (a : α) :
    Exec.Keeps R (pure a : Exec ε σ α) := fun s => hr s

theorem keeps_getS (R : σ → σ → Prop) (hr : ∀ s, R s s) :
    Exec.Keeps R (getS : Exec ε σ σ) := fun s => hr s

theorem keeps_raise (R : σ → σ → Prop) (hr : ∀ s, R s s) (e : ε) :
    Exec.Keeps R (raise e : Exec ε σ α) := fun s => hr s

theorem keeps_modifyS (R : σ → σ → Prop) (f : σ → σ) (h : ∀ s, R s (f s)) :
    Exec.Keeps R (modifyS f : Exec ε σ Unit) := fun s => h s

theorem keeps_bind (R : σ → σ → Prop) (ht : ∀ a b c, R a b → R b c → R a c)
    (m : Exec ε σ α) (f : α → Exec ε σ β) (hm : Exec.Keeps R m)
    (hf : ∀ a, Exec.Keeps R (f a)) : Exec.Keeps R (m >>= f) := by
  intro s
  have h1 := hm s
  rw [Exec.bind_run]
  cases hms : m s with
  | ok a s' =>
    rw [hms] at h1
    exact ht _ _ _ h1 (hf a s')
  | error e s' =>
    rw [hms] at h1
    exact h1

end

section
variable {ε σ α β : Type}

theorem keeps_bind_at (R : σ → σ → Prop) (ht : ∀ a b c, R a b → R b c → R a c)
    (m : Exec ε σ α) (f : α → Exec ε σ β) (s : σ) (hm : R s (m s).final)
    (hf : ∀ a, Exec.Keeps R (f a)) : R s ((m >>= f) s).final := by
  rw [Exec.bind_run]
  cases hms : m s with
  | ok a s' =>
    rw [hms] at hm
    exact ht _ _ _ hm (hf a s')
  | error e s' =>
    rw [hms] at hm
    exact hm

theorem returns_pure (P : α → Prop) (a : α) (h : P a) :
    Exec.Returns P (pure a : Exec ε σ α) := by
  intro s x s' hx
  cases hx
  exact h

theorem returns_raise (P : α → Prop) (e : ε) : Exec.Returns P (raise e : Exec ε σ α) := by
  intro s x s' hx
  cases hx

theorem returns_bind (P : β → Prop) (Q : α → Prop) (m : Exec ε σ α) (f : α → Exec ε σ β)
    (hm : Exec.Returns Q m) (hf : ∀ x, Q x → Exec.Returns P (f x)) :
    Exec.Returns P (m >>= f) := by
  intro s b s' hb
  rw [Exec.bind_run] at hb
  cases hms : m s with
  | ok a s1 =>
    rw [hms] at hb
    exact hf a (hm s a s1 hms) s1 b s' hb
  | error e s1 =>
    rw [hms] at hb
    cases hb

theorem returns_any (m : Exec ε σ α) : Exec.Returns (fun _ => True) m :=
  fun _ _ _ _ => trivial

end

theorem actionsKept_refl (d : Nat → Prop) (p : ArgumentParser) : ActionsKept d p p :=
  ⟨fun _ act h => Or.inr ⟨act, h, rfl, fun hp => hp⟩, fun _ h => h, rfl⟩

theorem not_live_of_destroyed {p : ArgumentParser} {a : Nat} {act : Action}
    (hd : Destroyed p a) (hl : p.deref a = .ok act) : False := by
  have := deref_ok_lt hl
  unfold Destroyed at hd
  rw [this] at hd
  cases hd

theorem actionsKept_trans (d : Nat → Prop) (p q r : ArgumentParser) (h1 : ActionsKept d p q)
    (h2 : ActionsKept d q r) : ActionsKept d p r := by
  refine ⟨?_, fun a h => h2.gone a (h1.gone a h), h2.help.trans h1.help⟩
  intro a act hd
  rcases h1.live a act hd with ⟨hm, hgone⟩ | ⟨act1, hd1, hk1, hp1⟩
  · exact Or.inl ⟨hm, h2.gone a hgone⟩
  · rcases h2.live a act1 hd1 with hgone | ⟨act2, hd2, hk2, hp2⟩
    · exact Or.inl hgone
    · exact Or.inr ⟨act2, hd2, hk2.trans hk1, fun h => hp2 (hp1 h)⟩

theorem actionsKept_mono (d e : Nat → Prop) (p q : ArgumentParser) (h : ActionsKept d p q)
    (hde : ∀ (a : Nat) (act : Action), p.deref a = .ok act → d a → e a) :
    ActionsKept e p q := by
  refine ⟨?_, h.gone, h.help⟩
  intro a act hd
  rcases h.live a act hd with ⟨hf, hg⟩ | hr
  · exact Or.inl ⟨hde a act hd hf, hg⟩
  · exact Or.inr hr

theorem actionsKept_of_store (d : Nat → Prop) (p q : ArgumentParser) (h : q.store = p.store)
    (hh : q.helpEn = p.helpEn) : ActionsKept d p q := by
  refine ⟨?_, ?_, hh⟩
  · intro a act hd
    refine Or.inr ⟨act, ?_, rfl, fun hp => hp⟩
    unfold ArgumentParser.deref at hd ⊢
    rw [h]; exact hd
  · intro a hd
    unfold Destroyed at hd ⊢
    rw [h]; exact hd

theorem actionsKept_write (d : Nat → Prop) (p : ArgumentParser) (a : Nat) (act x : Action)
    (hd : p.deref a = .ok act) (hk : x.kind = act.kind)
    (hp : act.present = true → x.present = true) : ActionsKept d p (p.write a x) := by
  refine ⟨?_, ?_, rfl⟩
  · intro b actb hb
    by_cases hab : a = b
    · subst hab
      rw [hd] at hb
      cases hb
      exact Or.inr ⟨x, deref_write_self p a act x hd, hk, hp⟩
    · exact Or.inr ⟨actb, by rw [deref_write_ne p a b x hab]; exact hb, rfl, fun h => h⟩
  · intro b hb
    have hab : a ≠ b := fun hab => not_live_of_destroyed (hab ▸ hb) hd
    unfold Destroyed at hb ⊢
    simpa [ArgumentParser.write, List.getElem?_set_ne hab] using hb

theorem scanKept_refl (d : Nat → Prop) (s : Scan) : ScanKept d s s :=
  ⟨actionsKept_refl d s.parser, fun _ => rfl⟩

theorem scanKept_trans (d : Nat → Prop) (a b c : Scan) (h1 : ScanKept d a b)
    (h2 : ScanKept d b c) : ScanKept d a c :=
  ⟨actionsKept_trans d _ _ _ h1.kept h2.kept, fun h => (h2.owned h).trans (h1.owned h)⟩

theorem scanKept_of_same (d : Nat → Prop) (s t : Scan) (h : t.parser = s.parser) :
    ScanKept d s t :=
  ⟨actionsKept_of_store d _ _ (by rw [h]) (by rw [h]), fun _ => by rw [h]⟩

theorem keeps_ofExcept (d : Nat → Prop) {α : Type} (x : Except Err α) :
    Exec.Keeps (ScanKept d) (ofExcept x) := by
  intro s
  cases x <;> exact scanKept_refl d s

theorem keeps_logErr (d : Nat → Prop) (msg : String) :
    Exec.Keeps (ScanKept d) (logErr msg) :=
  fun _ => scanKept_of_same d _ _ rfl

theorem keeps_argvAt (d : Nat → Prop) (argv : List String) (i : Nat) :
    Exec.Keeps (ScanKept d) (argvAt argv i) := by
  unfold argvAt
  split
  · exact keeps_pure _ (scanKept_refl d) _
  · split <;> exact keeps_raise _ (scanKept_refl d) _

theorem keeps_process (d : Nat → Prop) (self : Nat) (values : List AnyVal) (optStr : String) :
    Exec.Keeps (ScanKept d) (process self values optStr) := by
  intro s
  unfold process
  simp only [Exec.bind_run, getS_run]
  cases hd : s.parser.deref self with
  | error e => exact scanKept_refl d s
  | ok this =>
    simp only [ofExcept_ok]
    cases hk : this.kind <;> simp only []
    case Store =>
      split
      · exact scanKept_refl d s
      · exact ⟨actionsKept_write d _ _ this _ hd hk.symm (fun _ => rfl), fun _ => rfl⟩
    case StoreConst =>
      split
      · exact scanKept_refl d s
      · exact ⟨actionsKept_write d _ _ this _ hd hk.symm (fun _ => rfl), fun _ => rfl⟩
    all_goals
      refine (?_ : Exec.Keeps (ScanKept d) _) s
      repeat' first
        | exact keeps_pure _ (scanKept_refl d) _
        | exact keeps_getS _ (scanKept_refl d)
        | exact keeps_raise _ (scanKept_refl d) _
        | exact keeps_ofExcept d _
        | exact keeps_logErr d _
        | exact keeps_argvAt d _ _
        | exact keeps_modifyS _ _ (fun _ => scanKept_of_same d _ _ rfl)
        | refine keeps_bind _ (scanKept_trans d) _ _ ?_ (fun _ => ?_)
        | split

theorem keeps_shortLoop (d : Nat → Prop) (argStr : String) (n i : Nat) (action : Option Nat) :
    Exec.Keeps (ScanKept d) (shortLoop argStr n i action) := by
  induction n generalizing i action with
  | zero => exact keeps_pure _ (scanKept_refl d) _
  | succ n ih =>
    unfold shortLoop
    repeat' first
      | exact keeps_process d _ _ _
      | exact ih _ _
      | exact keeps_pure _ (scanKept_refl d) _
      | exact keeps_getS _ (scanKept_refl d)
      | exact keeps_raise _ (scanKept_refl d) _
      | exact keeps_ofExcept d _
      | exact keeps_logErr d _
      | exact keeps_argvAt d _ _
      | exact keeps_modifyS _ _ (fun _ => scanKept_of_same d _ _ rfl)
      | refine keeps_bind _ (scanKept_trans d) _ _ ?_ (fun _ => ?_)
      | split

theorem keeps_consumeValues (d : Nat → Prop) (stod : String → Except Err Double)
    (argv : List String) (action n : Nat) (values : List AnyVal) :
    Exec.Keeps (ScanKept d) (consumeValues stod argv action n values) := by
  induction n generalizing values with
  | zero => exact keeps_pure _ (scanKept_refl d) _
  | succ n ih =>
    unfold consumeValues
    repeat' first
      | exact ih _
      | exact keeps_pure _ (scanKept_refl d) _
      | exact keeps_getS _ (scanKept_refl d)
      | exact keeps_raise _ (scanKept_refl d) _
      | exact keeps_ofExcept d _
      | exact keeps_logErr d _
      | exact keeps_argvAt d _ _
      | exact keeps_modifyS _ _ (fun _ => scanKept_of_same d _ _ rfl)
      | refine keeps_bind _ (scanKept_trans d) _ _ ?_ (fun _ => ?_)
      | split

theorem keeps_resolve (d : Nat → Prop) (stod : String → Except Err Double) (argStr : String) :
    Exec.Keeps (ScanKept d) (resolve stod argStr) := by
  unfold resolve resolveShort resolveLong resolvePositional longValue trimAssignment
  repeat' first
    | exact keeps_shortLoop d _ _ _ _
    | exact keeps_pure _ (scanKept_refl d) _
    | exact keeps_getS _ (scanKept_refl d)
    | exact keeps_raise _ (scanKept_refl d) _
    | exact keeps_ofExcept d _
    | exact keeps_logErr d _
    | exact keeps_argvAt d _ _
    | exact keeps_modifyS _ _ (fun _ => scanKept_of_same d _ _ rfl)
    | refine keeps_bind _ (scanKept_trans d) _ _ ?_ (fun _ => ?_)
    | split

theorem keeps_iteration (d : Nat → Prop) (stod : String → Except Err Double)
    (argv : List String) : Exec.Keeps (ScanKept d) (iteration stod argv) := by
  unfold iteration consumeAndDispatch
  repeat' first
    | exact keeps_resolve d _ _
    | exact keeps_consumeValues d _ _ _ _ _
    | exact keeps_process d _ _ _
    | exact keeps_pure _ (scanKept_refl d) _
    | exact keeps_getS _ (scanKept_refl d)
    | exact keeps_raise _ (scanKept_refl d) _
    | exact keeps_ofExcept d _
    | exact keeps_logErr d _
    | exact keeps_argvAt d _ _
    | exact keeps_modifyS _ _ (fun _ => scanKept_of_same d _ _ rfl)
    | refine keeps_bind _ (scanKept_trans d) _ _ ?_ (fun _ => ?_)
    | split

theorem keeps_scanLoop (d : Nat → Prop) (stod : String → Except Err Double) (argv : List String)
    (fuel : Nat) : Exec.Keeps (ScanKept d) (scanLoop stod argv fuel) := by
  induction fuel with
  | zero => exact keeps_raise _ (scanKept_refl d) _
  | succ n ih =>
    unfold scanLoop
    repeat' first
      | exact keeps_iteration d _ _
      | exact ih
      | exact keeps_pure _ (scanKept_refl d) _
      | exact keeps_getS _ (scanKept_refl d)
      | exact keeps_raise _ (scanKept_refl d) _
      | exact keeps_ofExcept d _
      | exact keeps_logErr d _
      | exact keeps_argvAt d _ _
      | exact keeps_modifyS _ _ (fun _ => scanKept_of_same d _ _ rfl)
      | refine keeps_bind _ (scanKept_trans d) _ _ ?_ (fun _ => ?_)
      | split

theorem keeps_seedDefaults (d : Nat → Prop) (l : List Nat) :
    Exec.Keeps (ScanKept d) (seedDefaults l) := by
  induction l with
  | nil => exact keeps_pure _ (scanKept_refl d) _
  | cons a rest ih =>
    unfold seedDefaults
    repeat' first
      | exact ih
      | exact keeps_pure _ (scanKept_refl d) _
      | exact keeps_getS _ (scanKept_refl d)
      | exact keeps_raise _ (scanKept_refl d) _
      | exact keeps_ofExcept d _
      | exact keeps_logErr d _
      | exact keeps_argvAt d _ _
      | exact keeps_modifyS _ _ (fun _ => scanKept_of_same d _ _ rfl)
      | refine keeps_bind _ (scanKept_trans d) _ _ ?_ (fun _ => ?_)
      | split

theorem keeps_checkRequired (d : Nat → Prop) (l : List Nat) :
    Exec.Keeps (ScanKept d) (checkRequired l) := by
  induction l with
  | nil => exact keeps_pure _ (scanKept_refl d) _
  | cons a rest ih =>
    unfold checkRequired
    repeat' first
      | exact ih
      | exact keeps_pure _ (scanKept_refl d) _
      | exact keeps_getS _ (scanKept_refl d)
      | exact keeps_raise _ (scanKept_refl d) _
      | exact keeps_ofExcept d _
      | exact keeps_logErr d _
      | exact keeps_argvAt d _ _
      | exact keeps_modifyS _ _ (fun _ => scanKept_of_same d _ _ rfl)
      | refine keeps_bind _ (scanKept_trans d) _ _ ?_ (fun _ => ?_)
      | split

theorem keeps_regExcept (d : Nat → Prop) {α : Type} (x : Except Err α) :
    Exec.Keeps (ActionsKept d) (regExcept x) := by
  intro p
  cases x <;> exact actionsKept_refl d p

theorem keeps_alloc (d : Nat → Prop) (act : Action) :
    Exec.Keeps (ActionsKept d) (alloc act) := by
  intro p
  refine ⟨?_, ?_, rfl⟩
  · intro a x hd
    refine Or.inr ⟨x, ?_, rfl, fun h => h⟩
    have hlt : a < p.store.length := deref_lt hd
    unfold ArgumentParser.deref at hd ⊢
    simp only [alloc, Result.final, List.getElem?_append_left hlt]
    exact hd
  · intro a hd
    unfold Destroyed at hd ⊢
    have hlt : a < p.store.length := by
      by_contra hc
      rw [List.getElem?_eq_none (not_lt.mp hc)] at hd
      cases hd
    simp only [alloc, Result.final, List.getElem?_append_left hlt]
    exact hd

theorem keeps_updateAction (d : Nat → Prop) (a : Nat) (f : Action → Action)
    (hf : ∀ act, (f act).kind = act.kind ∧ (f act).present = act.present) :
    Exec.Keeps (ActionsKept d) (updateAction a f) := by
  intro p
  unfold updateAction
  cases hd : p.deref a with
  | error e => exact actionsKept_refl d p
  | ok act =>
    exact actionsKept_write d p a act (f act) hd (hf act).1 (fun h => (hf act).2.trans h)

theorem keeps_groupPush (d : Nat → Prop) (idx a : Nat) :
    Exec.Keeps (ActionsKept d) (groupPush idx a) := by
  intro p
  unfold groupPush
  cases p.groups[idx]? with
  | none => exact actionsKept_refl d p
  | some g => exact actionsKept_of_store d _ _ rfl rfl

theorem keeps_joinDefaultGroup (d : Nat → Prop) (b : ArgBuilder) (idx : Nat)
    (kind : ArgKind) : Exec.Keeps (ActionsKept d) (b.joinDefaultGroup idx kind) := by
  unfold ArgBuilder.joinDefaultGroup
  repeat' first
    | exact keeps_pure _ (actionsKept_refl d) _
    | exact keeps_groupPush d _ _
    | exact keeps_updateAction d _ _ (fun _ => ⟨rfl, rfl⟩)
    | refine keeps_bind _ (actionsKept_trans d) _ _ ?_ (fun _ => ?_)
    | split

theorem keeps_addNameOrFlag (d : Nat → Prop) (b : ArgBuilder) (str : String) :
    Exec.Keeps (ActionsKept d) (b.addNameOrFlag str) := by
  unfold ArgBuilder.addNameOrFlag ArgBuilder.indexAlias ArgBuilder.inferDest
  repeat' first
    | exact keeps_pure _ (actionsKept_refl d) _
    | exact keeps_getS _ (actionsKept_refl d)
    | exact keeps_raise _ (actionsKept_refl d) _
    | exact keeps_joinDefaultGroup d _ _ _
    | exact keeps_updateAction d _ _ (fun _ => ⟨rfl, rfl⟩)
    | exact keeps_modifyS _ _ (fun _ => actionsKept_of_store d _ _ rfl rfl)
    | refine keeps_bind _ (actionsKept_trans d) _ _ ?_ (fun _ => ?_)
    | split
    | dsimp only

theorem keeps_addArgument (d : Nat → Prop) (n : String) (flag : Bool) :
    Exec.Keeps (ActionsKept d) (ArgumentParser.addArgument n flag) := by
  unfold ArgumentParser.addArgument
  repeat' first
    | exact keeps_pure _ (actionsKept_refl d) _
    | exact keeps_getS _ (actionsKept_refl d)
    | exact keeps_alloc d _
    | exact keeps_addNameOrFlag d _ _
    | exact keeps_modifyS _ _ (fun _ => actionsKept_of_store d _ _ rfl rfl)
    | refine keeps_bind _ (actionsKept_trans d) _ _ ?_ (fun _ => ?_)

theorem keeps_addArgumentV (d : Nat → Prop) (flag : Bool) (names : List String) :
    Exec.Keeps (ActionsKept d) (ArgumentParser.addArgumentV flag names) := by
  induction names with
  | nil => exact keeps_addArgument d "" flag
  | cons n rest ih =>
    cases rest with
    | nil => exact keeps_addArgument d n flag
    | cons m rest =>
      intro p
      rw [addArgumentV_cons]
      have h1 := ih p
      cases hrun : ArgumentParser.addArgumentV flag (m :: rest) p with
      | error e q => rw [hrun] at h1; exact h1
      | ok b q =>
        rw [hrun] at h1
        exact actionsKept_trans d _ _ _ h1 (keeps_addNameOrFlag d b n q)

theorem keeps_help (d : Nat → Prop) (b : ArgBuilder) (text : String) :
    Exec.Keeps (ActionsKept d) (b.help text) := by
  unfold ArgBuilder.help
  exact keeps_bind _ (actionsKept_trans d) _ _
    (keeps_updateAction d _ _ (fun _ => ⟨rfl, rfl⟩)) (fun _ => keeps_pure _ (actionsKept_refl d) _)

theorem sameOwned_refl (p : ArgumentParser) : SameOwned p p := rfl

theorem sameOwned_trans (p q r : ArgumentParser) (h1 : SameOwned p q) (h2 : SameOwned q r) :
    SameOwned p r := Eq.trans h2 h1

theorem owned_updateAction (a : Nat) (f : Action → Action) :
    Exec.Keeps SameOwned (updateAction a f) := by
  intro p
  unfold updateAction
  cases p.deref a <;> rfl

theorem owned_groupPush (idx a : Nat) : Exec.Keeps SameOwned (groupPush idx a) := by
  intro p
  unfold groupPush
  cases p.groups[idx]? <;> rfl

theorem owned_addNameOrFlag (b : ArgBuilder) (str : String) :
    Exec.Keeps SameOwned (b.addNameOrFlag str) := by
  unfold ArgBuilder.addNameOrFlag ArgBuilder.indexAlias ArgBuilder.inferDest
    ArgBuilder.joinDefaultGroup
  repeat' first
    | exact keeps_pure _ sameOwned_refl _
    | exact keeps_getS _ sameOwned_refl
    | exact keeps_raise _ sameOwned_refl _
    | exact owned_groupPush _ _
    | exact owned_updateAction _ _
    | exact keeps_modifyS _ _ (fun _ => rfl)
    | refine keeps_bind _ sameOwned_trans _ _ ?_ (fun _ => ?_)
    | split
    | dsimp only

theorem ptrIdx_joinDefaultGroup (b : ArgBuilder) (idx : Nat) (kind : ArgKind) :
    Exec.Returns (fun b' => b'.ptrIdx = b.ptrIdx) (b.joinDefaultGroup idx kind) := by
  unfold ArgBuilder.joinDefaultGroup
  split
  · exact returns_bind _ _ _ _ (returns_any _) (fun _ _ =>
      returns_bind _ _ _ _ (returns_any _) (fun _ _ => returns_pure _ _ rfl))
  · exact returns_pure _ _ rfl

theorem ptrIdx_indexAlias (b : ArgBuilder) (str : String) :
    Exec.Returns (fun b' => b'.ptrIdx = b.ptrIdx) (b.indexAlias str) := by
  unfold ArgBuilder.indexAlias
  refine returns_bind _ _ _ _ (returns_any _) (fun p _ => ?_)
  split <;> dsimp only <;> split <;>
    exact returns_bind _ _ _ _ (returns_any _) (fun _ _ =>
      returns_bind _ _ _ _ (ptrIdx_joinDefaultGroup b _ _) (fun b' hb' =>
        returns_bind _ _ _ _ (returns_any _) (fun _ _ => returns_pure _ _ hb')))

theorem ptrIdx_inferDest (b : ArgBuilder) (str : String) :
    Exec.Returns (fun b' => b'.ptrIdx = b.ptrIdx) (b.inferDest str) := by
  unfold ArgBuilder.inferDest
  refine returns_bind _ _ _ _ (returns_any _) (fun p _ => ?_)
  dsimp only
  split
  · exact returns_bind _ _ _ _ (returns_any _) (fun _ _ => returns_pure _ _ rfl)
  · split
    · exact returns_bind _ _ _ _ (returns_any _) (fun _ _ => returns_pure _ _ rfl)
    · exact returns_pure _ _ rfl

theorem ptrIdx_addNameOrFlag (b : ArgBuilder) (str : String) :
    Exec.Returns (fun b' => b'.ptrIdx = b.ptrIdx) (b.addNameOrFlag str) := by
  unfold ArgBuilder.addNameOrFlag
  exact returns_bind _ _ _ _ (ptrIdx_indexAlias b str) (fun b1 h1 =>
    fun s b2 s' h2 => (ptrIdx_inferDest b1 str s b2 s' h2).trans h1)

theorem addArgument_result (flag : Bool) (n : String) (p q : ArgumentParser)
    (b : ArgBuilder) (h : ArgumentParser.addArgument n flag p = .ok b q) :
    q.actions = p.actions ++ [p.store.length] ∧ b.ptrIdx = erasedIdx p := by
  rw [addArgument_eq] at h
  have hown := owned_addNameOrFlag
    { actionRef := p.store.length, ptrIdx := (p.actions.length + SIZE_MOD - 1) % SIZE_MOD,
      addToDefaultGroup := flag } n { p with store := p.store ++ [some (instantiate .Store)] }
  have hptr := ptrIdx_addNameOrFlag
    { actionRef := p.store.length, ptrIdx := (p.actions.length + SIZE_MOD - 1) % SIZE_MOD,
      addToDefaultGroup := flag } n { p with store := p.store ++ [some (instantiate .Store)] }
  unfold ArgBuilder.addNameOrFlag at hown hptr
  rw [Exec.bind_run] at hown
  simp only [Exec.bind_run] at hptr
  cases h1 : ArgBuilder.indexAlias
      { actionRef := p.store.length, ptrIdx := (p.actions.length + SIZE_MOD - 1) % SIZE_MOD,
        addToDefaultGroup := flag } n
      { p with store := p.store ++ [some (instantiate .Store)] } with
  | error e q1 => rw [h1] at h; cases h
  | ok b1 q1 =>
    rw [h1] at h hown hptr
    simp only [] at h hown hptr
    cases h2 : b1.inferDest n q1 with
    | error e q2 => rw [h2] at h; cases h
    | ok b2 q2 =>
      rw [h2] at h hown
      cases h
      exact ⟨by show q2.actions ++ _ = _; rw [show q2.actions = p.actions from hown],
        hptr b q2 h2⟩

theorem addArgumentV_result (flag : Bool) (names : List String) (p q : ArgumentParser)
    (b : ArgBuilder) (h : ArgumentParser.addArgumentV flag names p = .ok b q) :
    q.actions = p.actions ++ [p.store.length] ∧ b.ptrIdx = erasedIdx p := by
  induction names generalizing b q with
  | nil => exact addArgument_result flag "" p q b h
  | cons n rest ih =>
    cases rest with
    | nil => exact addArgument_result flag n p q b h
    | cons m rest =>
      rw [addArgumentV_cons] at h
      cases h1 : ArgumentParser.addArgumentV flag (m :: rest) p with
      | error e q1 => rw [h1] at h; cases h
      | ok b1 q1 =>
        rw [h1] at h
        have h : b1.addNameOrFlag n q1 = .ok b q := h
        obtain ⟨hact, hptr⟩ := ih q1 b1 h1
        have hown := owned_addNameOrFlag b1 n q1
        rw [h] at hown
        exact ⟨(show q.actions = q1.actions from hown).trans hact,
          (ptrIdx_addNameOrFlag b1 n q1 b q h).trans hptr⟩

theorem action_eq (b : ArgBuilder) (T : Kind) (q : ArgumentParser) :
    b.action T q = match q.actions[b.ptrIdx]? with
      | some old => .ok { b with actionRef := q.store.length }
          { q with store := (q.store ++ [some (instantiate T)]).set old none,
                   actions := q.actions.eraseIdx b.ptrIdx ++ [q.store.length] }
      | none => .error (.undefined .eraseOutOfRange)
          { q with store := q.store ++ [some (instantiate T)] } := by
  unfold ArgBuilder.action
  simp only [Exec.bind_run, alloc, getS_run]
  cases h : q.actions[b.ptrIdx]? <;> rfl

theorem actionsKept_action (d : Nat → Prop) (b : ArgBuilder) (T : Kind) (q : ArgumentParser)
    (hd : ∀ old, q.actions[b.ptrIdx]? = some old → d old) :
    ActionsKept d q (b.action T q).final := by
  have halloc := keeps_alloc d (instantiate T) q
  rw [action_eq]
  cases h : q.actions[b.ptrIdx]? with
  | none => exact halloc
  | some old =>
    refine actionsKept_trans _ _ _ _ halloc ?_
    refine ⟨?_, ?_, rfl⟩
    · intro a act hda
      by_cases ha : old = a
      · subst ha
        have hlt := deref_lt hda
        exact Or.inl ⟨hd old h, by
          unfold Destroyed
          simp only [Result.final]
          exact List.getElem?_set_self hlt⟩
      · refine Or.inr ⟨act, ?_, rfl, fun hp => hp⟩
        unfold ArgumentParser.deref at hda ⊢
        simp only [Result.final, List.getElem?_set_ne ha]
        exact hda
    · intro a hda
      unfold Destroyed at hda ⊢
      by_cases ha : old = a
      · subst ha
        have hlt : old < (alloc (instantiate T) q).final.store.length := by
          by_contra hc
          rw [List.getElem?_eq_none (not_lt.mp hc)] at hda
          cases hda
        simp only [Result.final]
        exact List.getElem?_set_self hlt
      · simp only [Result.final, List.getElem?_set_ne ha]
        exact hda

theorem deref_fresh_after_erase (q : ArgumentParser) (old : Nat) (x : Action) (l : List Nat)
    (h : old < q.store.length) :
    ArgumentParser.deref { q with store := (q.store ++ [some x]).set old none, actions := l }
      q.store.length = .ok x := by
  unfold ArgumentParser.deref
  simp only [List.getElem?_set_ne (Nat.ne_of_lt h), List.getElem?_concat_length]

theorem erasedIdx_cases (p : ArgumentParser) :
    (p.actions.length = 0 ∧ erasedIdx p = SIZE_MOD - 1) ∨ erasedIdx p < p.actions.length := by
  unfold erasedIdx
  rcases Nat.eq_zero_or_pos p.actions.length with h0 | hpos
  · left
    refine ⟨h0, ?_⟩
    rw [h0]
    decide
  · right
    have : p.actions.length + SIZE_MOD - 1 = (p.actions.length - 1) + SIZE_MOD := by
      have : 0 < SIZE_MOD := by decide
      omega
    rw [this, Nat.add_mod_right]
    exact lt_of_le_of_lt (Nat.mod_le _ _) (by omega)

theorem erased_of_registered (p q : ArgumentParser) (b : ArgBuilder) (a : Nat)
    (hact : q.actions = p.actions ++ [p.store.length]) (hptr : b.ptrIdx = erasedIdx p)
    (h : q.actions[b.ptrIdx]? = some a) :
    p.actions[erasedIdx p]? = some a ∧ erasedIdx p < p.actions.length := by
  rw [hact, hptr] at h
  rcases erasedIdx_cases p with ⟨h0, he⟩ | hlt
  · rw [List.getElem?_eq_none (by
      simp only [List.length_append, List.length_singleton, h0, he]
      decide)] at h
    cases h
  · rw [List.getElem?_append_left hlt] at h
    exact ⟨h, hlt⟩

theorem helpRegistration_spares (names : List String) (text : String) (p : ArgumentParser) :
    ActionsKept (fun a => p.actions[erasedIdx p]? = some a) p
      (helpRegistration names text p).final := by
  have h0 := keeps_addArgumentV (fun a => p.actions[erasedIdx p]? = some a) true names p
  unfold helpRegistration
  rw [Exec.bind_run]
  cases h1 : ArgumentParser.addArgumentV true names p with
  | error e q => rw [h1] at h0; exact h0
  | ok b q =>
    rw [h1] at h0
    obtain ⟨hact, hptr⟩ := addArgumentV_result true names p q b h1
    refine actionsKept_trans _ _ _ _ h0 ?_
    refine keeps_bind_at _ (actionsKept_trans _) _ _ q ?_ (fun b' => ?_)
    · exact actionsKept_action _ b .Help q
        (fun a ha => (erased_of_registered p q b a hact hptr ha).1)
    · exact keeps_bind _ (actionsKept_trans _) _ _ (keeps_help _ b' text)
        (fun _ => keeps_pure _ (actionsKept_refl _) _)

theorem helpRegistration_last (names : List String) (text : String) (p q : ArgumentParser)
    (hown : ∀ a ∈ p.actions, ∃ act, p.deref a = .ok act)
    (hrun : helpRegistration names text p = .ok () q) :
    ∃ h acth, q.actions.getLast? = some h ∧ q.deref h = .ok acth ∧ acth.kind = .Help := by
  unfold helpRegistration at hrun
  rw [Exec.bind_run] at hrun
  have hkept := keeps_addArgumentV (fun _ => False) true names p
  cases h1 : ArgumentParser.addArgumentV true names p with
  | error e q1 => rw [h1] at hrun; cases hrun
  | ok b q1 =>
    rw [h1] at hrun hkept
    obtain ⟨hact, hptr⟩ := addArgumentV_result true names p q1 b h1
    simp only [Exec.bind_run] at hrun
    rw [action_eq] at hrun
    cases h2 : q1.actions[b.ptrIdx]? with
    | none => rw [h2] at hrun; cases hrun
    | some old =>
      rw [h2] at hrun
      simp only [] at hrun
      obtain ⟨hold, hlt⟩ := erased_of_registered p q1 b old hact hptr h2
      obtain ⟨actold, hdold⟩ := hown old (List.getElem?_mem hold)
      have hold1 : old < q1.store.length := by
        rcases hkept.live old actold hdold with ⟨hf, _⟩ | ⟨act', hd', _⟩
        · exact absurd hf id
        · exact deref_lt hd'
      have hH := deref_fresh_after_erase q1 old (instantiate .Help)
        (q1.actions.eraseIdx b.ptrIdx ++ [q1.store.length]) hold1
      unfold ArgBuilder.help at hrun
      simp only [Exec.bind_run, updateAction_run _ _ _ _ hH, Exec.pure_run] at hrun
      cases hrun
      refine ⟨q1.store.length, _, ?_, deref_write_self _ _ _ _ hH, rfl⟩
      simp [ArgumentParser.write]

theorem addHelpArgument_eq (p : ArgumentParser) :
    addHelpArgument p =
      if p.helpEn = true then
        if (!p.pfxChars.data.isEmpty && (strFind p.pfxChars '-').isSome) = true then
          helpRegistration ["-h", "--help"] "show this help message and exit" p
        else
          match substr p.pfxChars 0 0 with
          | .ok sub =>
            helpRegistration [sub ++ "h", sub ++ sub ++ "help"]
              "show this help message and exit" p
          | .error e => .error e p
      else .ok () p := by
  unfold addHelpArgument
  simp only [Exec.bind_run, getS_run]
  by_cases hh : p.helpEn = true
  · rw [if_pos hh, if_pos hh]
    by_cases ht : (!p.pfxChars.data.isEmpty && (strFind p.pfxChars '-').isSome) = true
    · rw [if_pos ht, if_pos ht]
      rfl
    · rw [if_neg ht, if_neg ht]
      cases substr p.pfxChars 0 0 <;> rfl
  · rw [if_neg hh, if_neg hh]
    rfl

theorem addHelpArgument_spares (p : ArgumentParser) :
    ActionsKept (fun a => p.helpEn = true ∧ p.actions[erasedIdx p]? = some a) p
      (addHelpArgument p).final := by
  rw [addHelpArgument_eq]
  by_cases hh : p.helpEn = true
  · rw [if_pos hh]
    have hreg : ∀ names text, ActionsKept
        (fun a => p.helpEn = true ∧ p.actions[erasedIdx p]? = some a) p
        (helpRegistration names text p).final := fun names text =>
      actionsKept_mono _ _ _ _ (helpRegistration_spares names text p) (fun _ _ _ h => ⟨hh, h⟩)
    split
    · exact hreg _ _
    · split
      · exact hreg _ _
      · exact actionsKept_refl _ p
  · rw [if_neg hh]
    exact actionsKept_refl _ p

theorem addHelpArgument_last (p q : ArgumentParser)
    (hown : ∀ a ∈ p.actions, ∃ act, p.deref a = .ok act) (hhelp : p.helpEn = true)
    (hrun : addHelpArgument p = .ok () q) :
    ∃ h acth, q.actions.getLast? = some h ∧ q.deref h = .ok acth ∧ acth.kind = .Help := by
  rw [addHelpArgument_eq, if_pos hhelp] at hrun
  split at hrun
  · exact helpRegistration_last _ _ p q hown hrun
  · split at hrun
    · exact helpRegistration_last _ _ p q hown hrun
    · cases hrun

theorem parserKept_trans (d : Nat → Prop) (a b c : Scan) (h1 : ParserKept d a b)
    (h2 : ParserKept d b c) : ParserKept d a c := actionsKept_trans d _ _ _ h1 h2

theorem parserKept_of_scanKept (d : Nat → Prop) {α : Type} (m : Parse α)
    (h : Exec.Keeps (ScanKept d) m) : Exec.Keeps (ParserKept d) m := fun s => (h s).kept

theorem keeps_scanRest (d : Nat → Prop) (stod : String → Except Err Double) (fuel : Nat)
    (argv : List String) :
    Exec.Keeps (ScanKept d) (scanLoop stod argv fuel >>= fun _ =>
      getS >>= fun s => checkRequired s.parser.actions >>= fun _ =>
      getS >>= fun s => (pure s.arguments : Parse Args)) := by
  repeat' first
    | exact keeps_pure _ (scanKept_refl d) _
    | exact keeps_getS _ (scanKept_refl d)
    | exact keeps_scanLoop d _ _ _
    | exact keeps_checkRequired d _
    | refine keeps_bind _ (scanKept_trans d) _ _ ?_ (fun _ => ?_)

theorem parseBody_eq (stod : String → Except Err Double) (fuel : Nat) (argv : List String) :
    parseBody stod fuel argv = (parsePrelude >>= fun _ => scanLoop stod argv fuel >>= fun _ =>
      getS >>= fun s => checkRequired s.parser.actions >>= fun _ =>
      getS >>= fun s => (pure s.arguments : Parse Args)) := rfl

theorem parsePrelude_spares (p : ArgumentParser) :
    ActionsKept (fun a => p.helpEn = true ∧ p.actions[erasedIdx p]? = some a) p
      (parsePrelude { parser := p }).final.parser := by
  unfold parsePrelude
  refine keeps_bind_at (ParserKept _) (parserKept_trans _) _ _ { parser := p } ?_ (fun _ => ?_)
  · have h := addHelpArgument_spares p
    show ActionsKept _ p (liftReg addHelpArgument { parser := p }).final.parser
    unfold liftReg
    cases hrun : addHelpArgument p with
    | ok a q => rw [hrun] at h; exact h
    | error e q => rw [hrun] at h; exact h
  · refine parserKept_of_scanKept _ _ ?_
    exact keeps_bind _ (scanKept_trans _) _ _ (keeps_getS _ (scanKept_refl _))
      (fun _ => keeps_seedDefaults _ _)

theorem parseArgs_final (p : ArgumentParser) (stod : String → Except Err Double) (fuel : Nat)
    (argv : List String) :
    (p.parseArgs stod fuel argv).final = (parseBody stod fuel argv { parser := p }).final := by
  unfold ArgumentParser.parseArgs
  cases parseBody stod fuel argv { parser := p } with
  | ok a s => rfl
  | error e s => cases e <;> rfl

theorem parseArgs_spares (p : ArgumentParser) (stod : String → Except Err Double) (fuel : Nat)
    (argv : List String) :
    ActionsKept (fun a => p.helpEn = true ∧ p.actions[erasedIdx p]? = some a) p
      (p.parseArgs stod fuel argv).final.parser := by
  rw [parseArgs_final, parseBody_eq]
  exact keeps_bind_at (ParserKept _) (parserKept_trans _) _ _ { parser := p }
    (parsePrelude_spares p) (fun _ => parserKept_of_scanKept _ _ (keeps_scanRest _ stod fuel argv))

theorem parseArgs_after_prelude (p : ArgumentParser) (stod : String → Except Err Double)
    (fuel : Nat) (argv : List String) (s0 : Scan)
    (hpre : parsePrelude { parser := p } = .ok () s0) :
    ScanKept (fun _ => False) s0 (p.parseArgs stod fuel argv).final := by
  rw [parseArgs_final, parseBody_eq, Exec.bind_run, hpre]
  exact keeps_scanRest _ stod fuel argv s0

theorem parsePrelude_last (p : ArgumentParser) (s0 : Scan)
    (hown : ∀ a ∈ p.actions, ∃ act, p.deref a = .ok act) (hhelp : p.helpEn = true)
    (hpre : parsePrelude { parser := p } = .ok () s0) :
    ∃ h acth, s0.parser.actions.getLast? = some h ∧ s0.parser.deref h = .ok acth ∧
      acth.kind = .Help := by
  unfold parsePrelude at hpre
  rw [Exec.bind_run] at hpre
  unfold liftReg at hpre
  cases hrun : addHelpArgument p with
  | error e q => rw [hrun] at hpre; cases hpre
  | ok u q =>
    rw [hrun] at hpre
    obtain ⟨h, acth, hlast, hd, hk⟩ := addHelpArgument_last p q hown hhelp hrun
    have hseed := keeps_seedDefaults (fun _ => False) q.actions { parser := q }
    have hpre' : seedDefaults q.actions { parser := q } = .ok () s0 := hpre
    rw [hpre'] at hseed
    rcases hseed.kept.live h acth hd with ⟨hf, _⟩ | ⟨act', hd', hk', _⟩
    · exact absurd hf id
    · have hact : s0.parser.actions = q.actions := hseed.owned (fun _ => id)
      exact ⟨h, act', hact ▸ hlast, hd', hk'.trans hk⟩

theorem not_erased_at_second_call (p : ArgumentParser) (stod : String → Except Err Double)
    (fuel : Nat) (argv : List String) (s0 : Scan)
    (hown : ∀ a ∈ p.actions, ∃ act, p.deref a = .ok act)
    (hpre : parsePrelude { parser := p } = .ok () s0) (a : Nat) (act : Action)
    (hd : (p.parseArgs stod fuel argv).final.parser.deref a = .ok act)
    (hk : act.kind = .Store ∨ act.kind = .StoreConst)
    (hlen : (p.parseArgs stod fuel argv).final.parser.actions.length < SIZE_MOD) :
    ¬ ((p.parseArgs stod fuel argv).final.parser.helpEn = true ∧
      (p.parseArgs stod fuel argv).final.parser.actions[
        erasedIdx (p.parseArgs stod fuel argv).final.parser]? = some a) := by
  have hscan := parseArgs_after_prelude p stod fuel argv s0 hpre
  have hprel := parsePrelude_spares p
  rw [hpre] at hprel
  generalize (p.parseArgs stod fuel argv).final = s1 at hd hlen hscan
  rintro ⟨hhelp1, herased⟩
  have hhelp : p.helpEn = true :=
    (hprel.help.symm.trans hscan.kept.help.symm).trans hhelp1
  obtain ⟨h, acth, hlast, hdh, hkh⟩ := parsePrelude_last p s0 hown hhelp hpre
  have hact : s1.parser.actions = s0.parser.actions := hscan.owned (fun _ => id)
  rcases hscan.kept.live h acth hdh with ⟨hf, _⟩ | ⟨acth', hdh', hkh', _⟩
  · exact absurd hf id
  · have hne : s1.parser.actions ≠ [] := by
      rw [hact]; intro hnil; rw [hnil] at hlast; cases hlast
    have hpos : 0 < s1.parser.actions.length := List.length_pos.mpr hne
    have hidx : erasedIdx s1.parser = s1.parser.actions.length - 1 := by
      unfold erasedIdx
      have : s1.parser.actions.length + SIZE_MOD - 1
          = (s1.parser.actions.length - 1) + SIZE_MOD := by
        have : 0 < SIZE_MOD := by decide
        omega
      rw [this, Nat.add_mod_right, Nat.mod_eq_of_lt (by omega)]
    rw [hidx, ← List.getLast?_eq_getElem?, hact, hlast] at herased
    cases herased
    rw [hd] at hdh'
    cases hdh'
    rcases hk with hk | hk <;> rw [hkh', hkh] at hk <;> cases hk

theorem stillPresent_of_kept (d : Nat → Prop) {p q : ArgumentParser} {a : Nat} {act : Action}
    (h : ActionsKept d p q) (hd : p.deref a = .ok act) (hp : act.present = true)
    (hnd : ¬ d a) : StillPresent q a act := by
  rcases h.live a act hd with ⟨hf, _⟩ | ⟨act', hd', hk', hp'⟩
  · exact absurd hf hnd
  · exact ⟨act', hd', hk', hp' hp⟩

/-- C32.  `parseArgs` never resets `present`.
(1) A successful dispatch of a Store or StoreConst action leaves it marked present.
(2) Nothing that follows in the same call undoes that: after the lookup of a token,
after the collection of its values, after any number of passes of the loop and after
the required-argument check, an action that was present is still live, of the same
kind, and present.
(3) The same holds from the start of a call to its end, however the call ends, unless
automatic help is enabled and the action is the one at index `size - 1` of the owned
list, which the help registration destroys.
(4) When a first call got as far as its loop, every Store or StoreConst action that is
present on the registry it leaves behind is still present when the loop of a second
call on that registry starts, and when that call ends.
(5) Wherever a present Store or StoreConst action is dispatched, `process` fails with
the text `Argument '...' is already defined.` and changes nothing. -/
theorem present_flag_is_never_reset :
    (∀ (s s' : Scan) (self : Nat) (act : Action) (values : List AnyVal) (optStr : String),
      s.parser.deref self = .ok act → (act.kind = .Store ∨ act.kind = .StoreConst) →
      process self values optStr s = .ok (true, none) s' →
      StillPresent s'.parser self act) ∧
    (∀ (stod : String → Except Err Double) (argv : List String) (s : Scan) (a : Nat)
        (act : Action), s.parser.deref a = .ok act → act.present = true →
      (∀ argStr, StillPresent (resolve stod argStr s).final.parser a act) ∧
      (∀ action n values,
        StillPresent (consumeValues stod argv action n values s).final.parser a act) ∧
      (∀ fuel, StillPresent (scanLoop stod argv fuel s).final.parser a act) ∧
      (∀ l, StillPresent (checkRequired l s).final.parser a act)) ∧
    (∀ (p : ArgumentParser) (stod : String → Except Err Double) (fuel : Nat)
        (argv : List String) (a : Nat) (act : Action),
      p.deref a = .ok act → act.present = true →
      ¬ (p.helpEn = true ∧ p.actions[erasedIdx p]? = some a) →
      StillPresent (p.parseArgs stod fuel argv).final.parser a act) ∧
    (∀ (p : ArgumentParser) (stod : String → Except Err Double) (fuel : Nat)
        (argv : List String) (s0 : Scan) (a : Nat) (act : Action),
      (∀ x ∈ p.actions, ∃ actx, p.deref x = .ok actx) →
      parsePrelude { parser := p } = .ok () s0 →
      (p.parseArgs stod fuel argv).final.parser.deref a = .ok act →
      (act.kind = .Store ∨ act.kind = .StoreConst) → act.present = true →
      (p.parseArgs stod fuel argv).final.parser.actions.length < SIZE_MOD →
      (∀ s0', parsePrelude { parser := (p.parseArgs stod fuel argv).final.parser } = .ok () s0' →
        StillPresent s0'.parser a act) ∧
      (∀ (stod' : String → Except Err Double) (fuel' : Nat) (argv' : List String),
        StillPresent (((p.parseArgs stod fuel argv).final.parser).parseArgs stod' fuel'
          argv').final.parser a act)) ∧
    (∀ (s : Scan) (self : Nat) (act : Action) (values : List AnyVal) (optStr : String),
      s.parser.deref self = .ok act → (act.kind = .Store ∨ act.kind = .StoreConst) →
      act.present = true →
      process self values optStr s
        = .ok (false, some ("Argument '" ++ optStr ++ "' is already defined.")) s) := by
  refine ⟨?_, ?_, ?_, ?_, ?_⟩
  · intro s s' self act values optStr hd hk hrun
    by_cases hp : act.present = true
    · rcases hk with hk | hk <;>
        simp [process, hd, hk, hp, Action.hasConflict] at hrun
    · have hp' : act.present = false := by simpa using hp
      rcases hk with hk | hk
      · simp only [process, Exec.bind_run, getS_run, hd, ofExcept_ok, hk, Action.hasConflict,
          hp', modifyS_run, Exec.pure_run] at hrun
        simp only [Bool.false_eq_true, if_false] at hrun
        cases hrun
        exact ⟨_, deref_write_self _ _ act _ hd, hk.symm, rfl⟩
      · simp only [process, Exec.bind_run, getS_run, hd, ofExcept_ok, hk, Action.hasConflict,
          hp', modifyS_run, Exec.pure_run] at hrun
        simp only [Bool.false_eq_true, if_false] at hrun
        cases hrun
        exact ⟨_, deref_write_self _ _ act _ hd, hk.symm, rfl⟩
  · intro stod argv s a act hd hp
    exact ⟨fun argStr =>
        stillPresent_of_kept _ (keeps_resolve (fun _ => False) stod argStr s).kept hd hp id,
      fun action n values => stillPresent_of_kept _
        (keeps_consumeValues (fun _ => False) stod argv action n values s).kept hd hp id,
      fun fuel =>
        stillPresent_of_kept _ (keeps_scanLoop (fun _ => False) stod argv fuel s).kept hd hp id,
      fun l => stillPresent_of_kept _ (keeps_checkRequired (fun _ => False) l s).kept hd hp id⟩
  · intro p stod fuel argv a act hd hp hne
    exact stillPresent_of_kept _ (parseArgs_spares p stod fuel argv) hd hp hne
  · intro p stod fuel argv s0 a act hown hpre hd hk hp hlen
    have hne := not_erased_at_second_call p stod fuel argv s0 hown hpre a act hd hk hlen
    refine ⟨fun s0' hpre' => ?_, fun stod' fuel' argv' =>
      stillPresent_of_kept _ (parseArgs_spares _ stod' fuel' argv') hd hp hne⟩
    have h := parsePrelude_spares (p.parseArgs stod fuel argv).final.parser
    rw [hpre'] at h
    exact stillPresent_of_kept _ h hd hp hne
  · intro s self act values optStr hd hk hp
    rcases hk with hk | hk <;> simp [process, hd, hk, hp, Action.hasConflict]

/-- C32, witness: the registry with the one positional `x` is parsed on the token `a`.
Its action is then present; it is still present when a second call on that registry
ends, the dispatch of `x` for a token `b` fails there as already defined, and the
second call returns empty Results. -/
theorem present_flag_is_never_reset_witness :
    (runProgram setupPositionalX stodNone 8 ["prog", "a"]).outcome
      = .returns { args := [("x", .str "a")] } ∧
    process 0 [.str "b"] "b"
        { parser := ((setupPositionalX ArgumentParser.new).final.parseArgs stodNone 8
            ["prog", "a"]).final.parser }
      = .ok (false, some ("Argument '" ++ "b" ++ "' is already defined."))
        { parser := ((setupPositionalX ArgumentParser.new).final.parseArgs stodNone 8
            ["prog", "a"]).final.parser } ∧
    StillPresent
      ((((setupPositionalX ArgumentParser.new).final.parseArgs stodNone 8
        ["prog", "a"]).final.parser).parseArgs stodNone 8 ["prog", "b"]).final.parser 0
      { kind := .Store, dest := "x", nargs := 1, present := true } ∧
    ((((setupPositionalX ArgumentParser.new).final.parseArgs stodNone 8
        ["prog", "a"]).final.parser).parseArgs stodNone 8 ["prog", "b"]).outcome
      = .returns { args := [] } := by
  have hd : ((setupPositionalX ArgumentParser.new).final.parseArgs stodNone 8
      ["prog", "a"]).final.parser.deref 0
        = .ok { kind := .Store, dest := "x", nargs := 1, present := true } := by decide!
  have hacts : (setupPositionalX ArgumentParser.new).final.actions = [0] := by decide!
  have hown : ∀ x ∈ (setupPositionalX ArgumentParser.new).final.actions,
      ∃ actx, (setupPositionalX ArgumentParser.new).final.deref x = .ok actx := by
    intro x hx
    rw [hacts] at hx
    obtain rfl : x = 0 := by simpa using hx
    exact ⟨{ kind := .Store, dest := "x", nargs := 1 }, by decide!⟩
  have hpre : parsePrelude { parser := (setupPositionalX ArgumentParser.new).final }
      = .ok () (parsePrelude { parser := (setupPositionalX ArgumentParser.new).final }).final := by
    decide!
  obtain ⟨_, _, _, htwo, hdup⟩ := present_flag_is_never_reset
  exact ⟨by decide!,
    hdup _ 0 _ [.str "b"] "b" hd (Or.inl rfl) rfl,
    (htwo (setupPositionalX ArgumentParser.new).final stodNone 8 ["prog", "a"] _ 0 _ hown hpre hd
      (Or.inl rfl) rfl (by decide!)).2 stodNone 8 ["prog", "b"],
    by decide!⟩

end ArgParse

namespace Fds

/-! ## C33: `Bitset::all` -/

theorem allMask_enough (word n k mask : Nat) (h : mask < 2 ^ n) :
    allMask word (n + k) mask = allMask word n mask := by
  induction n generalizing mask with
  | zero =>
    have h0 : mask = 0 := by simpa using h
    subst h0
    cases k <;> simp [allMask]
  | succ n ih =>
    have hhalf : mask >>> 1 < 2 ^ n := by
      rw [Nat.shiftRight_eq_div_pow, pow_one, Nat.div_lt_iff_lt_mul (by decide)]
      rw [pow_succ] at h
      exact h
    rw [show n + 1 + k = (n + k) + 1 by omega, allMask, allMask, ih _ hhalf]

theorem allWords_spec (data : List Nat) (n i : Nat) (h : i + n ≤ data.length) :
    allWords data n i
      = .ok (if ∀ w ∈ (data.drop i).take n, w ≠ 0 then none else some false) := by
  induction n generalizing i with
  | zero => simp [allWords]
  | succ n ih =>
    have hi : i < data.length := by omega
    have hget : data[i]? = some data[i] := List.getElem?_eq_getElem hi
    have hdrop : data.drop i = data[i] :: data.drop (i + 1) := List.drop_eq_getElem_cons hi
    rw [allWords, hget, hdrop]
    by_cases hw : data[i] = 0
    · simp [hw]
    · simp only [hw, if_false, List.take_succ_cons, List.mem_cons, forall_eq_or_imp, ne_eq,
        not_false_eq_true, true_and]
      rw [ih (i + 1) (by omega)]

/-- C33.  For a Bitset whose size is a positive multiple of 64, `all()` never reads the
last word and tests every other word only for being non-zero: it returns true exactly
when each word but the last has some bit set.  So `Bitset b(64)`, with no bit set, is
reported all-set, and so is `Bitset b(128)` with only bit 0 set. -/
theorem all_skips_the_last_full_word :
    (∀ (k : Nat) (data : List Nat), 0 < k → 64 * k < WORD_MOD → data.length = k →
      ∃ r, ({ data := data, numElems := k, bits := 64 * k } : Bitset).all = .ok r ∧
        (r = true ↔ ∀ w ∈ data.take (k - 1), w ≠ 0)) ∧
    (Bitset.new 64).all = .ok true ∧
    (Bitset.new 64).get 63 = .ok false ∧
    ((Bitset.new 128).set 0).bind Bitset.all = .ok true ∧
    ((Bitset.new 128).set 0).bind (fun b => b.get 127) = .ok false := by
  refine ⟨?_, by decide!, by decide!, by decide!, by decide!⟩
  intro k data hk hsize hlen
  have hbits : 64 * k ≠ 0 := by omega
  have hend : (k + WORD_MOD - 1) % WORD_MOD = k - 1 := by
    have : k + WORD_MOD - 1 = (k - 1) + WORD_MOD := by omega
    rw [this, Nat.add_mod_right, Nat.mod_eq_of_lt (by omega)]
  have hwords := allWords_spec data (k - 1) 0 (by omega)
  simp only [List.drop_zero] at hwords
  unfold Bitset.all
  simp only [hbits, if_false, hend, hwords, Nat.mul_mod_right]
  by_cases hall : ∀ w ∈ data.take (k - 1), w ≠ 0
  · refine ⟨true, ?_, ⟨fun _ => hall, fun _ => rfl⟩⟩
    rw [if_pos hall]
    rfl
  · refine ⟨false, ?_, ⟨fun h => (by cases h), fun h => absurd h hall⟩⟩
    rw [if_neg hall]
    rfl

end Fds
